import Mathlib

/-!
# Batch buffer and command submission (src/gallium/drivers/iris/iris_batch.c)

A shallow embedding of the iris batch module.  Buffer objects live in a heap
(a list of records addressed by position, so a C pointer `struct iris_bo *`
is a heap position and `NULL` is `none`); the batch is a record with the
fields of `struct iris_batch` that the module reads or writes; the kernel is
a trace of the `execbuffer2` requests handed to `drm_ioctl`.

Integer fields are natural numbers where the module cannot make them leave
their range: `exec_count`, `exec_array_size` (C `int`) never go negative and
the unsigned `index` of a buffer object holds `-1` as `0xFFFFFFFF`.
`aperture_space` (C `int`) is an integer kept in 32 bits: the sum
`batch->aperture_space += bo->size` is converted back to `int` (`to_int32`).
-/

namespace Iris

/-! ## Constants -/

/-- `EXEC_OBJECT_WRITE` of i915_drm.h, `1 << 2`. -/
def EXEC_OBJECT_WRITE : Nat := 4

/-- `EXEC_OBJECT_PINNED` of i915_drm.h, `1 << 4`. -/
def EXEC_OBJECT_PINNED : Nat := 16

/-- `EXEC_OBJECT_CAPTURE` of i915_drm.h, `1 << 7`. -/
def EXEC_OBJECT_CAPTURE : Nat := 128

/-- `I915_EXEC_RING_MASK` of i915_drm.h. -/
def I915_EXEC_RING_MASK : Nat := 63

/-- `I915_EXEC_NO_RELOC` of i915_drm.h, `1 << 11`. -/
def I915_EXEC_NO_RELOC : Nat := 2048

/-- `I915_EXEC_HANDLE_LUT` of i915_drm.h, `1 << 12`. -/
def I915_EXEC_HANDLE_LUT : Nat := 4096

/-- `I915_EXEC_FENCE_IN` of i915_drm.h, `1 << 16`. -/
def I915_EXEC_FENCE_IN : Nat := 65536

/-- `I915_EXEC_FENCE_OUT` of i915_drm.h, `1 << 17`. -/
def I915_EXEC_FENCE_OUT : Nat := 131072

/-- `I915_EXEC_BATCH_FIRST` of i915_drm.h, `1 << 18`. -/
def I915_EXEC_BATCH_FIRST : Nat := 262144

/-- `#define BATCH_RESERVED 16`. -/
def BATCH_RESERVED : Nat := 16

/-- The value `-1` stored in the unsigned 32-bit `index` field. -/
def INDEX_NONE : Nat := 4294967295

/-- `I915_EXEC_RENDER` of i915_drm.h, `1 << 0`. -/
def I915_EXEC_RENDER : Nat := 1


/-- `I915_EXEC_BLT` of i915_drm.h, `3 << 0`. -/
def I915_EXEC_BLT : Nat := 3


/-- Conversion of an integer to a C `int` (32 bits, two's complement) the way
gcc and clang define it: the value is reduced modulo 2^32 into
`[-2^31, 2^31)`. -/
def to_int32 (x : Int) : Int :=
  (x + 2147483648) % 4294967296 - 2147483648

/-! ## Data model -/

/-- `struct iris_bo`: the fields the batch module touches.  `map_cpu` is the
CPU mapping of the object as a log of byte stores `(offset, byte)`, newest
first. -/
structure iris_bo where
  size : Nat
  gem_handle : Nat
  gtt_offset : Nat
  kflags : Nat
  refcount : Int
  index : Nat
  idle : Bool
  map_cpu : List (Nat × Nat)
deriving DecidableEq, Repr, Inhabited

/-- `struct drm_i915_gem_exec_object2`: the three fields the module fills. -/
structure drm_i915_gem_exec_object2 where
  handle : Nat
  offset : Nat
  flags : Nat
deriving DecidableEq, Repr, Inhabited

/-- `struct drm_i915_gem_execbuffer2` as filled by `submit_batch`.
`buffers_ptr` points at the validation list: the request carries the array
the pointer designates. -/
structure drm_i915_gem_execbuffer2 where
  buffers_ptr : List drm_i915_gem_exec_object2
  buffer_count : Nat
  batch_start_offset : Nat
  batch_len : Nat
  flags : Nat
  rsvd1 : Nat
  rsvd2 : Nat
deriving DecidableEq, Repr, Inhabited

/-- A pointer into the CPU mapping of a buffer object (`void *map`). -/
structure map_ptr where
  bo : Nat
  off : Nat
deriving DecidableEq, Repr, Inhabited

/-- `struct iris_batch`. -/
structure iris_batch where
  engine : Nat
  hw_ctx_id : Nat
  bo : Option Nat
  last_bo : Option Nat
  map : map_ptr
  map_next : map_ptr
  primary_batch_size : Nat
  contains_draw : Bool
  exec_bos : List (Option Nat)
  validation_list : List drm_i915_gem_exec_object2
  exec_count : Nat
  exec_array_size : Nat
  aperture_space : Int
deriving DecidableEq, Repr, Inhabited

/-- The memory the module works on: the buffer objects, one batch, and the
requests that reached the kernel so far (newest first). -/
structure State where
  heap : List iris_bo
  batch : iris_batch
  execbuf_calls : List drm_i915_gem_execbuffer2
deriving DecidableEq, Repr, Inhabited

/-- What is not in this file of the driver: `BATCH_SZ` (iris_batch.h), whether
`INTEL_DEBUG & (DEBUG_BATCH | DEBUG_SUBMIT)` is set, and the attributes the
external allocator gives to the object it creates as heap entry `n`.
`BATCH_SZ` is an `int` constant, and so is the `BATCH_SZ + BATCH_RESERVED`
that `create_batch` computes: it is at most `INT_MAX`. -/
structure Config where
  BATCH_SZ : Nat
  debug_submit : Bool
  alloc_attrs : Nat → iris_bo
  BATCH_SZ_int : BATCH_SZ + BATCH_RESERVED < 2147483648

/-- How a call can end without returning. -/
inductive Fault where
  | assertion
  | abort
  | bad_pointer
deriving DecidableEq, Repr

/-- A call either returns a value or stops with a fault in the state reached
when the fault happened. -/
abbrev Result (α : Type) := Except (Fault × State) α

/-! ## Heap access -/

/-- Dereference of a buffer-object pointer. -/
def bo_get (heap : List iris_bo) (p : Nat) : iris_bo :=
  heap.getD p default

/-- Update through a buffer-object pointer. -/
def bo_upd (heap : List iris_bo) (p : Nat) (f : iris_bo → iris_bo) : List iris_bo :=
  heap.set p (f (bo_get heap p))

/-- Modelled from the spec: `iris_bo_reference` (iris_bufmgr.h, absent here),
"acquire(bo) increments refcount". -/
def iris_bo_reference (heap : List iris_bo) (p : Nat) : List iris_bo :=
  bo_upd heap p (fun b => { b with refcount := b.refcount + 1 })

/-- Modelled from the spec: `iris_bo_unreference` (iris_bufmgr.h, absent
here), "release(bo) decrements"; a `NULL` pointer is ignored. -/
def iris_bo_unreference (heap : List iris_bo) (p : Option Nat) : List iris_bo :=
  match p with
  | none => heap
  | some q => bo_upd heap q (fun b => { b with refcount := b.refcount - 1 })

/-- Modelled from the spec: `iris_bo_alloc` (iris_bufmgr.c, absent here),
"allocate(sizeBytes, memoryZoneHint) -> BufferObject": a new object, distinct
from every existing one, of the requested size, held once by the caller and
resident in no batch. -/
def iris_bo_alloc (cfg : Config) (heap : List iris_bo) (size : Nat) : List iris_bo × Nat :=
  (heap ++ [{ cfg.alloc_attrs heap.length with
                size := size, refcount := 1, index := INDEX_NONE, map_cpu := [] }],
   heap.length)

/-- Modelled from the spec: `iris_bo_map` (iris_bufmgr.c, absent here),
"mapForCpuAccess(bo, accessFlags) -> pointer": the start of the mapping. -/
def iris_bo_map (p : Nat) : map_ptr :=
  { bo := p, off := 0 }

/-- Modelled from the spec: `iris_batch_bytes_used` (iris_batch.h, absent
here), "cursor minus start of the active buffer". -/
def iris_batch_bytes_used (batch : iris_batch) : Nat :=
  batch.map_next.off - batch.map.off

/-- Store of `n` bytes of `v`, little endian, at byte offset `off`. -/
def store_le (m : List (Nat × Nat)) (off v : Nat) : Nat → List (Nat × Nat)
  | 0 => m
  | n + 1 => store_le ((off, v % 256) :: m) (off + 1) (v / 256) n

/-- `*(uint32_t *) p = v`. -/
def store32 (heap : List iris_bo) (p : map_ptr) (v : Nat) : List iris_bo :=
  bo_upd heap p.bo (fun b => { b with map_cpu := store_le b.map_cpu p.off v 4 })

/-- `*(uint64_t *) p = v`. -/
def store64 (heap : List iris_bo) (p : map_ptr) (v : Nat) : List iris_bo :=
  bo_upd heap p.bo (fun b => { b with map_cpu := store_le b.map_cpu p.off v 8 })

/-- The byte last stored at an offset of a mapping, if any. -/
def load8 (m : List (Nat × Nat)) (off : Nat) : Option Nat :=
  (m.find? (fun e => e.1 = off)).map Prod.snd

/-- The little-endian value of the `n` bytes at offsets `off, off + 1, ..` of
a mapping, if every one of them was stored. -/
def load_le (m : List (Nat × Nat)) (off : Nat) : Nat → Option Nat
  | 0 => some 0
  | n + 1 =>
    match load8 m off, load_le m (off + 1) n with
    | some b, some r => some (b + 256 * r)
    | _, _ => none


/-- `*(uint32_t *) p`, if stored. -/
def load32 (heap : List iris_bo) (p : map_ptr) : Option Nat :=
  load_le (bo_get heap p.bo).map_cpu p.off 4


/-- `*(uint64_t *) p`, if stored. -/
def load64 (heap : List iris_bo) (p : map_ptr) : Option Nat :=
  load_le (bo_get heap p.bo).map_cpu p.off 8


/-- `realloc` of an array to `n` elements: the old contents are kept. -/
def realloc {α : Type} (l : List α) (n : Nat) (d : α) : List α :=
  l.take n ++ List.replicate (n - l.length) d

/-- Modelled from the spec: `ALIGN` (main/macros.h, absent here), "rounded up
to the next multiple of 8 bytes". -/
def ALIGN (value alignment : Nat) : Nat :=
  (value + alignment - 1) / alignment * alignment

/-- Modelled from the spec: `util_bitcount` (util/bitscan.h, absent here), the
number of bits set in a 32-bit word. -/
def util_bitcount (n : Nat) : Nat :=
  ((List.range 32).filter (fun i => n.testBit i)).length

/-! ## iris_batch.c -/

/-- The assertion loop of `dump_validation_list`: true when no assertion
fails. -/
def dump_validation_list (s : State) : Bool :=
  (List.range s.batch.exec_count).all (fun i =>
    match s.batch.exec_bos.getD i none with
    | none => false
    | some p =>
      decide ((s.batch.validation_list.getD i default).handle = (bo_get s.heap p).gem_handle))

/-- The scan loop of `add_exec_bo` and `iris_batch_references`:
`for (index = ..; index < exec_count; index++) if (exec_bos[index] == bo) return index;`
with `fuel` the iterations left. -/
def scan_exec_bos (exec_bos : List (Option Nat)) (bo : Nat) : Nat → Nat → Option Nat
  | 0, _ => none
  | fuel + 1, index =>
    if exec_bos.getD index none = some bo then some index
    else scan_exec_bos exec_bos bo fuel (index + 1)

/-- The tail of `add_exec_bo` (from `iris_bo_reference(bo)` on): the object
is appended to the residency list.  `batch->aperture_space += bo->size` adds
a 64-bit size to an `int` and stores the sum back as `int`. -/
def add_exec_bo_append (s : State) (bo : Nat) : Nat × State :=
  let heap1 := iris_bo_reference s.heap bo
  let batch1 :=
    if s.batch.exec_count = s.batch.exec_array_size then
      { s.batch with
          exec_array_size := s.batch.exec_array_size * 2
          exec_bos := realloc s.batch.exec_bos (s.batch.exec_array_size * 2) none
          validation_list :=
            realloc s.batch.validation_list (s.batch.exec_array_size * 2) default }
    else s.batch
  let entry : drm_i915_gem_exec_object2 :=
    { handle := (bo_get heap1 bo).gem_handle
      offset := (bo_get heap1 bo).gtt_offset
      flags := (bo_get heap1 bo).kflags }
  let batch2 :=
    { batch1 with validation_list := batch1.validation_list.set batch1.exec_count entry }
  let heap2 := bo_upd heap1 bo (fun b => { b with index := batch2.exec_count })
  let batch3 := { batch2 with exec_bos := batch2.exec_bos.set batch2.exec_count (some bo) }
  let batch4 :=
    { batch3 with
        aperture_space := to_int32 (batch3.aperture_space + (bo_get heap2 bo).size) }
  (batch4.exec_count,
   { s with heap := heap2, batch := { batch4 with exec_count := batch4.exec_count + 1 } })

/-- `add_exec_bo`. -/
def add_exec_bo (s : State) (bo : Nat) : Nat × State :=
  let index := (bo_get s.heap bo).index
  if index < s.batch.exec_count ∧ s.batch.exec_bos.getD index none = some bo then
    (index, s)
  else
    match scan_exec_bos s.batch.exec_bos bo s.batch.exec_count 0 with
    | some i => (i, s)
    | none => add_exec_bo_append s bo

/-- The variant of `add_exec_bo` that skips the cached-index fast path and
only does the linear identity scan. -/
def add_exec_bo_scan_only (s : State) (bo : Nat) : Nat × State :=
  match scan_exec_bos s.batch.exec_bos bo s.batch.exec_count 0 with
  | some i => (i, s)
  | none => add_exec_bo_append s bo

/-- `create_batch`. -/
def create_batch (cfg : Config) (s : State) : State :=
  let a := iris_bo_alloc cfg s.heap (cfg.BATCH_SZ + BATCH_RESERVED)
  let heap1 := bo_upd a.1 a.2 (fun b => { b with kflags := b.kflags ||| EXEC_OBJECT_CAPTURE })
  let batch1 :=
    { s.batch with
        bo := some a.2
        map := iris_bo_map a.2
        map_next := iris_bo_map a.2
        contains_draw := false }
  (add_exec_bo { s with heap := heap1, batch := batch1 } a.2).2

/-- `iris_batch_reset`.  Clearing `state_sizes` and the cache sets touches
nothing modelled here. -/
def iris_batch_reset (cfg : Config) (s : State) : Result State :=
  let s1 : State :=
    match s.batch.last_bo with
    | some p =>
      { s with heap := iris_bo_unreference s.heap (some p), batch := { s.batch with last_bo := none } }
    | none => s
  let s2 : State :=
    { s1 with batch := { s1.batch with last_bo := s1.batch.bo, primary_batch_size := 0 } }
  let s3 := create_batch cfg s2
  match s3.batch.bo with
  | none => .error (Fault.bad_pointer, s3)
  | some p => if (bo_get s3.heap p).index = 0 then .ok s3 else .error (Fault.assertion, s3)

/-- `iris_init_batch`, called on the batch memory `s.batch` as the caller
provides it.  `engine` is a `uint8_t`.  The debug decoder set-up touches
nothing modelled here; `malloc` memory is modelled as zero-filled. -/
def iris_init_batch (cfg : Config) (s : State) (engine : Nat) : Result State :=
  if engine % 256 &&& (255 - I915_EXEC_RING_MASK) ≠ 0 then .error (Fault.assertion, s)
  else if util_bitcount (engine % 256) ≠ 1 then .error (Fault.assertion, s)
  else
    let batch1 :=
      { s.batch with
          engine := engine % 256
          exec_count := 0
          exec_array_size := 100
          exec_bos := List.replicate 100 none
          validation_list := List.replicate 100 default }
    iris_batch_reset cfg { s with batch := batch1 }

/-- `iris_chain_to_new_batch`. -/
def iris_chain_to_new_batch (cfg : Config) (s : State) : Result State :=
  if s.batch.bo ≠ s.batch.exec_bos.getD 0 none then .error (Fault.assertion, s)
  else
    let cmd := s.batch.map_next
    let addr : map_ptr := { s.batch.map_next with off := s.batch.map_next.off + 4 }
    let batch1 :=
      { s.batch with map_next := { s.batch.map_next with off := s.batch.map_next.off + 8 } }
    let heap1 := iris_bo_unreference s.heap batch1.bo
    let batch2 := { batch1 with primary_batch_size := iris_batch_bytes_used batch1 }
    let s3 := create_batch cfg { s with heap := heap1, batch := batch2 }
    let heap4 := store32 s3.heap cmd ((0x31 <<< 23) ||| (1 <<< 8) ||| (3 - 2))
    match s3.batch.bo with
    | none => .error (Fault.bad_pointer, { s3 with heap := heap4 })
    | some p => .ok { s3 with heap := store64 heap4 addr (bo_get heap4 p).gtt_offset }

/-- `iris_finish_batch`. -/
def iris_finish_batch (s : State) : State :=
  let heap1 := store32 s.heap s.batch.map_next (0xA <<< 23)
  let batch1 : iris_batch :=
    { s.batch with map_next := { s.batch.map_next with off := s.batch.map_next.off + 4 } }
  let batch2 : iris_batch :=
    if batch1.bo = batch1.exec_bos.getD 0 none then
      { batch1 with primary_batch_size := iris_batch_bytes_used batch1 }
    else batch1
  { s with heap := heap1, batch := batch2 }

/-- The loop of `submit_batch` over the residency list:
`bo->idle = false; bo->index = -1;`. -/
def mark_submitted (heap : List iris_bo) (exec_bos : List (Option Nat)) : Nat → Nat → List iris_bo
  | 0, _ => heap
  | fuel + 1, i =>
    match exec_bos.getD i none with
    | none => mark_submitted heap exec_bos fuel (i + 1)
    | some p =>
      mark_submitted (bo_upd heap p (fun b => { b with idle := false, index := INDEX_NONE }))
        exec_bos fuel (i + 1)

/-- `submit_batch`.  `out_fence_fd` is `none` for `NULL`, otherwise the
content of the slot it points to; the slot is returned with the status.
`ioctl_ret` and `ioctl_rsvd2` are what the kernel answers: the status of
`drm_ioctl` and the `rsvd2` word it leaves in the request, whose upper half
`execbuf.rsvd2 >> 32` is converted to the `int` of the slot. -/
def submit_batch (s : State) (in_fence_fd : Int) (out_fence_fd : Option Int)
    (ioctl_ret : Int) (ioctl_rsvd2 : Nat) : Result (Int × State × Option Int) :=
  let execbuf0 : drm_i915_gem_execbuffer2 :=
    { buffers_ptr := s.batch.validation_list
      buffer_count := s.batch.exec_count
      batch_start_offset := 0
      batch_len := ALIGN s.batch.primary_batch_size 8
      flags := s.batch.engine ||| I915_EXEC_NO_RELOC ||| I915_EXEC_BATCH_FIRST |||
               I915_EXEC_HANDLE_LUT
      rsvd1 := s.batch.hw_ctx_id
      rsvd2 := 0 }
  let execbuf1 :=
    if in_fence_fd ≠ -1 then
      { execbuf0 with
          rsvd2 := (in_fence_fd % 18446744073709551616).toNat
          flags := execbuf0.flags ||| I915_EXEC_FENCE_IN }
    else execbuf0
  let execbuf2 :=
    if out_fence_fd ≠ none then { execbuf1 with flags := execbuf1.flags ||| I915_EXEC_FENCE_OUT }
    else execbuf1
  let slot1 : Option Int := out_fence_fd.map (fun _ => -1)
  let s1 : State := { s with execbuf_calls := execbuf2 :: s.execbuf_calls }
  if ioctl_ret ≠ 0 then .error (Fault.abort, s1)
  else
    let heap2 := mark_submitted s1.heap s1.batch.exec_bos s1.batch.exec_count 0
    let slot2 : Option Int :=
      slot1.map (fun _ => to_int32 ((ioctl_rsvd2 / 4294967296 : Nat) : Int))
    .ok (ioctl_ret, { s1 with heap := heap2 }, slot2)

/-- The clean-up loop of `_iris_batch_flush_fence`:
`iris_bo_unreference(exec_bos[i]); exec_bos[i] = NULL;`. -/
def release_exec_bos (heap : List iris_bo) (exec_bos : List (Option Nat)) :
    Nat → Nat → List iris_bo × List (Option Nat)
  | 0, _ => (heap, exec_bos)
  | fuel + 1, i =>
    release_exec_bos (iris_bo_unreference heap (exec_bos.getD i none)) (exec_bos.set i none)
      fuel (i + 1)

/-- `_iris_batch_flush_fence`.  The debug output is observational except for
the assertion of `dump_validation_list`. -/
def _iris_batch_flush_fence (cfg : Config) (s : State) (in_fence_fd : Int)
    (out_fence_fd : Option Int) (ioctl_ret : Int) (ioctl_rsvd2 : Nat) :
    Result (Int × State × Option Int) :=
  if iris_batch_bytes_used s.batch = 0 then .ok (0, s, out_fence_fd)
  else
    let s1 := iris_finish_batch s
    if cfg.debug_submit && !dump_validation_list s1 then .error (Fault.assertion, s1)
    else
      match submit_batch s1 in_fence_fd out_fence_fd ioctl_ret ioctl_rsvd2 with
      | .error e => .error e
      | .ok (_, s2, slot) =>
        let r := release_exec_bos s2.heap s2.batch.exec_bos s2.batch.exec_count 0
        let batch3 :=
          { s2.batch with exec_bos := r.2, exec_count := 0, aperture_space := 0 }
        match iris_batch_reset cfg { s2 with heap := r.1, batch := batch3 } with
        | .error e => .error e
        | .ok s4 => .ok (0, s4, slot)

/-- `iris_batch_references`. -/
def iris_batch_references (s : State) (bo : Nat) : Bool :=
  let index := (bo_get s.heap bo).index
  if index < s.batch.exec_count ∧ s.batch.exec_bos.getD index none = some bo then true
  else (scan_exec_bos s.batch.exec_bos bo s.batch.exec_count 0).isSome

/-- The variant of `iris_batch_references` that skips the cached-index fast
path and only does the linear identity scan. -/
def iris_batch_references_scan_only (s : State) (bo : Nat) : Bool :=
  (scan_exec_bos s.batch.exec_bos bo s.batch.exec_count 0).isSome

/-- `iris_use_pinned_bo`. -/
def iris_use_pinned_bo (s : State) (bo : Nat) (writable : Bool) : Result State :=
  if (bo_get s.heap bo).kflags &&& EXEC_OBJECT_PINNED = 0 then .error (Fault.assertion, s)
  else
    let r := add_exec_bo s bo
    if writable then
      let e := r.2.batch.validation_list.getD r.1 default
      .ok { r.2 with
              batch := { r.2.batch with
                validation_list :=
                  r.2.batch.validation_list.set r.1
                    { e with flags := e.flags ||| EXEC_OBJECT_WRITE } } }
    else .ok r.2

/-- Modelled from the spec: `iris_batch_flush` (a macro of iris_batch.h,
absent here), the "full flush" of `maybeFlush`, a flush with no input fence
and no output fence: `_iris_batch_flush_fence(batch, -1, NULL, ...)`. -/
def iris_batch_flush (cfg : Config) (s : State) (ioctl_ret : Int) (ioctl_rsvd2 : Nat) :
    Result State :=
  match _iris_batch_flush_fence cfg s (-1) none ioctl_ret ioctl_rsvd2 with
  | .error e => .error e
  | .ok (_, s1, _) => .ok s1

/-- `iris_batch_maybe_flush`.  `estimate` and the bytes used are `unsigned`:
their sum is taken modulo 2^32. -/
def iris_batch_maybe_flush (cfg : Config) (s : State) (estimate : Nat) (ioctl_ret : Int)
    (ioctl_rsvd2 : Nat) : Result State :=
  if s.batch.bo ≠ s.batch.exec_bos.getD 0 none ∨
      (iris_batch_bytes_used s.batch + estimate) % 4294967296 ≥ cfg.BATCH_SZ then
    iris_batch_flush cfg s ioctl_ret ioctl_rsvd2
  else .ok s

/-- The loop of `iris_batch_free`: `iris_bo_unreference(batch->exec_bos[i]);`. -/
def unreference_exec_bos (heap : List iris_bo) (exec_bos : List (Option Nat)) :
    Nat → Nat → List iris_bo
  | 0, _ => heap
  | fuel + 1, i =>
    unreference_exec_bos (iris_bo_unreference heap (exec_bos.getD i none)) exec_bos fuel (i + 1)

/-- `iris_batch_free`.  The freed arrays are modelled as empty and the `NULL`
cursor as the default pointer; destroying the cache sets and the decoder
touches nothing modelled here. -/
def iris_batch_free (s : State) : State :=
  let heap1 := unreference_exec_bos s.heap s.batch.exec_bos s.batch.exec_count 0
  let heap2 := iris_bo_unreference heap1 s.batch.bo
  let heap3 := iris_bo_unreference heap2 s.batch.last_bo
  { s with
      heap := heap3
      batch := { s.batch with
        exec_bos := []
        validation_list := []
        bo := none
        map := default
        map_next := default } }

/-- The statements of `iris_batch_reset` before `create_batch`: the hold on
`last_bo` is dropped, `last_bo` takes over `batch->bo`, and
`primary_batch_size` is cleared. -/
def reset_prepare (s : State) : State :=
  let s1 : State :=
    match s.batch.last_bo with
    | some p =>
      { s with heap := iris_bo_unreference s.heap (some p), batch := { s.batch with last_bo := none } }
    | none => s
  { s1 with batch := { s1.batch with last_bo := s1.batch.bo, primary_batch_size := 0 } }

/-- The request of the kernel submission boundary as the specification words
it: the validation list and its entry count, batch start offset 0, the primary
command length rounded up to a multiple of 8, the engine selector or-ed with
no-implicit-relocation, batch-first and handle-lookup-table plus the fence
bits that apply, and the hardware context identifier. -/
def spec_request (batch : iris_batch) (in_fence_fd : Int) (out_fence_fd : Option Int) :
    drm_i915_gem_execbuffer2 :=
  { buffers_ptr := batch.validation_list
    buffer_count := batch.exec_count
    batch_start_offset := 0
    batch_len := ALIGN batch.primary_batch_size 8
    flags := batch.engine ||| I915_EXEC_NO_RELOC ||| I915_EXEC_BATCH_FIRST |||
               I915_EXEC_HANDLE_LUT |||
               (if in_fence_fd ≠ -1 then I915_EXEC_FENCE_IN else 0) |||
               (if out_fence_fd ≠ none then I915_EXEC_FENCE_OUT else 0)
    rsvd1 := batch.hw_ctx_id
    rsvd2 := if in_fence_fd ≠ -1 then (in_fence_fd % 18446744073709551616).toNat else 0 }

/-- The state `submit_batch` returns in when the kernel accepts the request:
the request is on the trace and every resident object is marked busy, its
cached index invalidated. -/
def submit_done (s : State) (in_fence_fd : Int) (out_fence_fd : Option Int) : State :=
  { s with
      execbuf_calls := spec_request s.batch in_fence_fd out_fence_fd :: s.execbuf_calls
      heap := mark_submitted s.heap s.batch.exec_bos s.batch.exec_count 0 }

/-- The clean-up of `_iris_batch_flush_fence` after the submission: every
residency reference is released and the list is cleared. -/
def flush_cleanup (s : State) : State :=
  { s with
      heap := (release_exec_bos s.heap s.batch.exec_bos s.batch.exec_count 0).1
      batch := { s.batch with
        exec_bos := (release_exec_bos s.heap s.batch.exec_bos s.batch.exec_count 0).2
        exec_count := 0
        aperture_space := 0 } }

/-- The statements of `iris_chain_to_new_batch` between its assertion and
`create_batch`: the cursor moves 8 bytes, the hold of `batch->bo` on the
command buffer is dropped, and the primary size is recorded. -/
def chain_prepare (s : State) : State :=
  { s with
      heap := iris_bo_unreference s.heap s.batch.bo
      batch := { s.batch with
        map_next := { s.batch.map_next with off := s.batch.map_next.off + 8 }
        primary_batch_size := s.batch.map_next.off + 8 - s.batch.map.off } }

/-! ## Reachable states -/

/-- What can happen to a batch after `iris_init_batch`: the three entry
points of the module, the producer writing command bytes at the cursor
(`iris_get_command_space` of iris_batch.h), a direct `add_exec_bo` on a valid
object, and another batch or thread overwriting the cached index of a buffer
object. -/
inductive Op where
  | use_pinned_bo (bo : Nat) (writable : Bool)
  | add_bo (bo : Nat)
  | chain
  | flush (in_fence_fd : Int) (out_fence_fd : Option Int) (ioctl_ret : Int) (ioctl_rsvd2 : Nat)
  | emit (bytes : List Nat)
  | poke_index (bo : Nat) (v : Nat)
deriving DecidableEq, Repr

/-- The producer stores bytes at the cursor and advances it. -/
def emit_bytes (s : State) (bytes : List Nat) : State :=
  { s with
      heap := bo_upd s.heap s.batch.map_next.bo (fun b =>
        { b with map_cpu := (bytes.enum.map (fun e => (s.batch.map_next.off + e.1, e.2))).reverse
                              ++ b.map_cpu })
      batch := { s.batch with
        map_next := { s.batch.map_next with off := s.batch.map_next.off + bytes.length } } }

/-- A write to `bo->index` from outside this batch. -/
def poke_index (s : State) (bo v : Nat) : State :=
  { s with heap := bo_upd s.heap bo (fun b => { b with index := v }) }

/-- One operation on the batch. -/
def step (cfg : Config) (s : State) : Op → Result State
  | .use_pinned_bo bo writable => iris_use_pinned_bo s bo writable
  | .add_bo bo =>
    if bo < s.heap.length then .ok (add_exec_bo s bo).2 else .error (Fault.bad_pointer, s)
  | .chain => iris_chain_to_new_batch cfg s
  | .flush i o r w =>
    match _iris_batch_flush_fence cfg s i o r w with
    | .error e => .error e
    | .ok (_, s1, _) => .ok s1
  | .emit bytes => .ok (emit_bytes s bytes)
  | .poke_index bo v => .ok (poke_index s bo v)

/-- A sequence of operations, stopping at the first fault. -/
def run (cfg : Config) (s : State) : List Op → Result State
  | [] => .ok s
  | op :: ops =>
    match step cfg s op with
    | .error e => .error e
    | .ok s1 => run cfg s1 ops

/-- The states a batch can be in: `iris_init_batch` on some memory, then any
operations that return. -/
def Reachable (cfg : Config) (s : State) : Prop :=
  ∃ (s0 : State) (engine : Nat) (s1 : State) (ops : List Op),
    iris_init_batch cfg s0 engine = .ok s1 ∧ run cfg s1 ops = .ok s

/-- What a run remembers beside the state: the command buffer `batch->bo`
designated when the last reset completed (the primary command buffer of the
current batch), and whether `iris_chain_to_new_batch` returned since. -/
structure Ghost where
  primary : Option Nat
  chained : Bool
deriving DecidableEq, Repr

/-- The record after one operation that took the state `s` to `s1`. -/
def ghost_step (s : State) (g : Ghost) (op : Op) (s1 : State) : Ghost :=
  match op with
  | .chain => { g with chained := true }
  | .flush _ _ _ _ =>
    if iris_batch_bytes_used s.batch = 0 then g else { primary := s1.batch.bo, chained := false }
  | _ => g

/-- A sequence of operations with the record kept along. -/
def run_ghost (cfg : Config) (s : State) (g : Ghost) : List Op → Result (State × Ghost)
  | [] => .ok (s, g)
  | op :: ops =>
    match step cfg s op with
    | .error e => .error e
    | .ok s1 => run_ghost cfg s1 (ghost_step s g op s1) ops

/-- The state a flush ended in, returned or not. -/
def flush_state (r : Result (Int × State × Option Int)) : State :=
  match r with
  | .ok (_, s, _) => s
  | .error e => e.2

/-! ## Predicates on states -/

/-- The arrays of the batch have the capacity the batch records: what
`malloc` and `realloc` establish for `exec_bos` and `validation_list`. -/
def batch_wf (b : iris_batch) : Prop :=
  0 < b.exec_array_size ∧ b.exec_count ≤ b.exec_array_size ∧
    b.exec_bos.length = b.exec_array_size ∧ b.validation_list.length = b.exec_array_size

/-- The object is one of `exec_bos[0..exec_count)`. -/
def resident (b : iris_batch) (bo : Nat) : Prop :=
  ∃ i, i < b.exec_count ∧ b.exec_bos.getD i none = some bo

/-- The heap `h1` has every object of `h`, with the same handle, size, flags
and address. -/
def heap_ext (h h1 : List iris_bo) : Prop :=
  h.length ≤ h1.length ∧
    ∀ p, p < h.length →
      (bo_get h1 p).gem_handle = (bo_get h p).gem_handle ∧
      (bo_get h1 p).size = (bo_get h p).size ∧
      (bo_get h1 p).kflags = (bo_get h p).kflags ∧
      (bo_get h1 p).gtt_offset = (bo_get h p).gtt_offset

/-- The residency list holds valid, pairwise distinct objects, and each
validation entry carries the handle of its object. -/
def list_inv (heap : List iris_bo) (b : iris_batch) : Prop :=
  batch_wf b ∧
    (∀ i, i < b.exec_count → ∃ p, b.exec_bos.getD i none = some p ∧ p < heap.length) ∧
    (∀ i j, i < b.exec_count → j < b.exec_count →
      b.exec_bos.getD i none = b.exec_bos.getD j none → i = j) ∧
    (∀ i p, i < b.exec_count → b.exec_bos.getD i none = some p →
      (b.validation_list.getD i default).handle = (bo_get heap p).gem_handle)

/-- The invariant of reachable states. -/
def Inv (s : State) : Prop :=
  list_inv s.heap s.batch ∧ 1 ≤ s.batch.exec_count ∧
    ∃ p, s.batch.bo = some p ∧ p < s.heap.length

/-- Sum of the sizes of the objects `exec_bos[0..n)`. -/
def aperture_sum (heap : List iris_bo) (exec_bos : List (Option Nat)) : Nat → Nat
  | 0 => 0
  | n + 1 =>
    aperture_sum heap exec_bos n +
      (match exec_bos.getD n none with
       | none => 0
       | some p => (bo_get heap p).size)

/-- Is the operation a flush? -/
def Op.is_flush : Op → Bool
  | .flush _ _ _ _ => true
  | _ => false

/-- The state a batch sees: the shared heap and its own record. -/
def batch_view (heap : List iris_bo) (batch : iris_batch) : State :=
  { heap := heap, batch := batch, execbuf_calls := [] }

/-- Membership in the residency list is decidable. -/
instance resident_decidable (b : iris_batch) (bo : Nat) : Decidable (resident b bo) := by
  unfold resident
  infer_instance

/-- The holds a batch has on a buffer object: one if it is in
`exec_bos[0..exec_count)`, one if it is `batch->bo`, one if it is
`batch->last_bo`. -/
def batch_holds (b : iris_batch) (p : Nat) : Int :=
  (if resident b p then 1 else 0) + (if b.bo = some p then 1 else 0) +
    (if b.last_bo = some p then 1 else 0)

/-- The number of slots `exec_bos[i..i+fuel)` that hold the object. -/
def list_holds (exec_bos : List (Option Nat)) (p : Nat) : Nat → Nat → Int
  | 0, _ => 0
  | fuel + 1, i =>
    (if exec_bos.getD i none = some p then 1 else 0) + list_holds exec_bos p fuel (i + 1)

/-- Reference-count balance against the heap `s0.heap` the batch was
initialised on: every reference count is the count it had there (the
references held outside the batch; 0 for the objects allocated since) plus
one per slot of the residency list holding the object, one if it is
`batch->bo` and one if it is `batch->last_bo`; the command buffers of the
batch are objects allocated since. -/
def balanced (s0 s : State) : Prop :=
  s0.heap.length ≤ s.heap.length ∧
    (∀ p, s.batch.bo = some p → s0.heap.length ≤ p) ∧
    (∀ l, s.batch.last_bo = some l → s0.heap.length ≤ l ∧ l < s.heap.length) ∧
    ∀ p, (bo_get s.heap p).refcount =
      (bo_get s0.heap p).refcount + list_holds s.batch.exec_bos p s.batch.exec_count 0 +
        (if s.batch.bo = some p then 1 else 0) + (if s.batch.last_bo = some p then 1 else 0)

/-- The cursor is in the command buffer: `batch->bo` is a valid object of
`BATCH_SZ + BATCH_RESERVED` bytes, `map` is the start of its mapping and
`map_next` points into the same mapping. -/
def cursor_inv (cfg : Config) (s : State) : Prop :=
  ∃ p, s.batch.bo = some p ∧ p < s.heap.length ∧ s.batch.map = iris_bo_map p ∧
    s.batch.map_next.bo = p ∧ (bo_get s.heap p).size = cfg.BATCH_SZ + BATCH_RESERVED


/-- Every object of the residency list caches its own position. -/
def index_inv (s : State) : Prop :=
  ∀ i p, i < s.batch.exec_count → s.batch.exec_bos.getD i none = some p →
    (bo_get s.heap p).index = i

/-! ## A concrete scenario -/

/-- A configuration: a 20 KiB command buffer, debug dumps on, and an allocator
that numbers handles and places objects 64 KiB apart, pinned. -/
def sample_cfg : Config :=
  { BATCH_SZ := 20480
    debug_submit := true
    alloc_attrs := fun n =>
      { size := 0, gem_handle := n + 1, gtt_offset := 65536 * n, kflags := 24, refcount := 0,
        index := INDEX_NONE, idle := true, map_cpu := [] }
    BATCH_SZ_int := by decide }

/-- A pinned buffer object of the given size and handle, held once by its
owner and resident in no batch. -/
def sample_bo (size handle : Nat) : iris_bo :=
  { size := size, gem_handle := handle, gtt_offset := 1048576 * handle,
    kflags := EXEC_OBJECT_PINNED, refcount := 1, index := INDEX_NONE, idle := true,
    map_cpu := [] }

/-- Three user objects X (4096 bytes), Y (8192 bytes) and Z (16384 bytes) and
a zero-initialised batch. -/
def sample_prior : State :=
  { heap := [sample_bo 4096 101, sample_bo 8192 102, sample_bo 16384 103]
    batch := default
    execbuf_calls := [] }

/-- The state a call ended in, returned or not. -/
def result_state (r : Result State) : State :=
  match r with
  | .ok s => s
  | .error e => e.2

/-- The sample batch after `iris_init_batch`. -/
def sample_init : State :=
  result_state (iris_init_batch sample_cfg sample_prior 1)

/-- The sample objects with batch memory that is not zeroed: `aperture_space`
still holds 4096, left from an earlier use of the memory. -/
def stale_prior : State :=
  { heap := [sample_bo 4096 101, sample_bo 8192 102, sample_bo 16384 103]
    batch := { (default : iris_batch) with aperture_space := 4096 }
    execbuf_calls := [] }

/-- The batch on stale memory after `iris_init_batch`. -/
def stale_init : State :=
  result_state (iris_init_batch sample_cfg stale_prior 1)

/-- The batch on stale memory after `iris_init_batch` and
`iris_use_pinned_bo(X, false)`. -/
def stale_run : State :=
  result_state (run sample_cfg stale_init [.use_pinned_bo 0 false])

/-- The sample batch after `iris_use_pinned_bo(X, false)` and
`iris_use_pinned_bo(Y, true)`. -/
def sample_xy : State :=
  result_state (run sample_cfg sample_init [.use_pinned_bo 0 false, .use_pinned_bo 1 true])

/-- The sample batch after eight command bytes were written and
`iris_chain_to_new_batch` was called. -/
def sample_chained : State :=
  result_state (run sample_cfg sample_init [.emit [1, 0, 0, 0, 2, 0, 0, 0], .chain])

/-- The sample batch after X, Y and Z were added: Z is at index 3. -/
def sample_xyz : State :=
  result_state (run sample_cfg sample_init
    [.use_pinned_bo 0 false, .use_pinned_bo 1 true, .use_pinned_bo 2 false])

/-- A second batch on the heap of `sample_xyz`, after its own
`iris_init_batch`. -/
def sample_second : State :=
  result_state (iris_init_batch sample_cfg { sample_xyz with batch := default } 1)

/-- A batch filled to its initial capacity: `iris_init_batch` on a heap of 100
user objects, then the first 99 of them added, which with the command buffer
makes 100 residents. -/
def sample_full : State :=
  result_state (run sample_cfg
    (result_state (iris_init_batch sample_cfg
      { heap := (List.range 100).map (fun i => sample_bo 4096 (200 + i))
        batch := default
        execbuf_calls := [] } 1))
    ((List.range 99).map (fun i => Op.use_pinned_bo i false)))

/-- The sample batch with X and Y added and four command bytes written. -/
def sample_xy_emit : State :=
  emit_bytes sample_xy [0, 0, 0, 0x7a]

/-- The sample batch with X and Y added, four command bytes written, and
flushed with no fences and a kernel that accepts. -/
def sample_flushed : State :=
  flush_state (_iris_batch_flush_fence sample_cfg sample_xy_emit (-1) none 0 0)

/-- The flushed sample batch after its previous command buffer (object 3, by
now `batch->last_bo`) was added through `iris_use_pinned_bo`, four command
bytes were written, and the batch was flushed again. -/
def sample_resubmitted : State :=
  result_state (run sample_cfg sample_flushed
    [.use_pinned_bo 3 false, .emit [0, 0, 0, 0x7a], .flush (-1) none 0 0])

/-- The sample batch after eight command bytes were written. -/
def sample_emit8 : State :=
  emit_bytes sample_init [1, 0, 0, 0, 2, 0, 0, 0]

/-- The sample batch after X was added, another batch set the cached index of
X to 7 and that of Y to 0, and X and Y were added. -/
def sample_poked : State :=
  result_state (run sample_cfg sample_init
    [.use_pinned_bo 0 false, .poke_index 0 7, .poke_index 1 0, .use_pinned_bo 0 true,
     .use_pinned_bo 1 false])

/-- A zero-initialised batch and one pinned user object of 2 GiB. -/
def big_prior : State :=
  { heap := [sample_bo 2147483648 104]
    batch := default
    execbuf_calls := [] }

/-- The batch of `big_prior` after `iris_init_batch`. -/
def big_init : State :=
  result_state (iris_init_batch sample_cfg big_prior 1)

/-! ## Conversion to `int` -/

theorem to_int32_fits (x : Int) (h1 : -2147483648 ≤ x) (h2 : x < 2147483648) :
    to_int32 x = x := by
  unfold to_int32
  omega

theorem to_int32_add (a b : Int) : to_int32 (to_int32 a + b) = to_int32 (a + b) := by
  unfold to_int32
  omega

theorem to_int32_range (x : Int) : -2147483648 ≤ to_int32 x ∧ to_int32 x < 2147483648 := by
  unfold to_int32
  omega

/-- The size of a command buffer, added to an empty total, fits the field. -/
theorem to_int32_batch (cfg : Config) :
    to_int32 (0 + ((cfg.BATCH_SZ + BATCH_RESERVED : Nat) : Int)) =
      ((cfg.BATCH_SZ + BATCH_RESERVED : Nat) : Int) := by
  have := cfg.BATCH_SZ_int
  unfold to_int32
  omega

/-! ## Lists as C arrays -/

theorem getD_set_eq {α : Type} (l : List α) (i : Nat) (x d : α) (h : i < l.length) :
    (l.set i x).getD i d = x := by
  simp [List.getD_eq_getElem?_getD, List.getElem?_set, h]

theorem getD_set_ne {α : Type} (l : List α) (i j : Nat) (x d : α) (h : i ≠ j) :
    (l.set i x).getD j d = l.getD j d := by
  simp [List.getD_eq_getElem?_getD, List.getElem?_set, h]

theorem length_realloc {α : Type} (l : List α) (n : Nat) (d : α) (h : l.length ≤ n) :
    (realloc l n d).length = n := by
  simp [realloc]; omega

theorem getD_realloc {α : Type} (l : List α) (n j : Nat) (d d1 : α) (h : j < l.length)
    (hn : j < n) : (realloc l n d).getD j d1 = l.getD j d1 := by
  have h1 : j < (l.take n).length := by simp; omega
  simp [realloc, List.getD_eq_getElem?_getD, List.getElem?_append_left h1, List.getElem?_take, hn]

theorem bo_upd_length (heap : List iris_bo) (p : Nat) (f : iris_bo → iris_bo) :
    (bo_upd heap p f).length = heap.length := by
  simp [bo_upd]

theorem bo_get_upd_eq (heap : List iris_bo) (p : Nat) (f : iris_bo → iris_bo)
    (h : p < heap.length) : bo_get (bo_upd heap p f) p = f (bo_get heap p) := by
  unfold bo_upd
  unfold bo_get
  exact getD_set_eq heap p _ default h

theorem bo_get_upd_ne (heap : List iris_bo) (p q : Nat) (f : iris_bo → iris_bo)
    (h : p ≠ q) : bo_get (bo_upd heap p f) q = bo_get heap q := by
  unfold bo_upd
  unfold bo_get
  exact getD_set_ne heap p q _ default h

theorem bo_get_append_left (heap : List iris_bo) (x : iris_bo) (q : Nat) (h : q < heap.length) :
    bo_get (heap ++ [x]) q = bo_get heap q := by
  simp [bo_get, List.getD_eq_getElem?_getD, List.getElem?_append_left h]

theorem bo_get_append_new (heap : List iris_bo) (x : iris_bo) :
    bo_get (heap ++ [x]) heap.length = x := by
  simp [bo_get, List.getD_eq_getElem?_getD]

theorem bo_get_invalid (heap : List iris_bo) (q : Nat) (h : heap.length ≤ q) :
    bo_get heap q = default := by
  simp [bo_get, List.getD_eq_getElem?_getD, List.getElem?_eq_none h]

/-! ## The scan loop -/

theorem scan_some (exec_bos : List (Option Nat)) (bo : Nat) (fuel start i : Nat)
    (h : scan_exec_bos exec_bos bo fuel start = some i) :
    start ≤ i ∧ i < start + fuel ∧ exec_bos.getD i none = some bo ∧
      ∀ j, start ≤ j → j < i → exec_bos.getD j none ≠ some bo := by
  induction fuel generalizing start with
  | zero => simp [scan_exec_bos] at h
  | succ n ih =>
    unfold scan_exec_bos at h
    split at h
    · rename_i hit
      have e : start = i := by simpa using h
      subst e
      exact ⟨le_refl _, by omega, hit, fun j h1 h2 => by omega⟩
    · rename_i miss
      obtain ⟨h1, h2, h3, h4⟩ := ih (start + 1) h
      refine ⟨by omega, by omega, h3, fun j hj1 hj2 => ?_⟩
      by_cases e : j = start
      · subst e; exact miss
      · exact h4 j (by omega) hj2

theorem scan_none (exec_bos : List (Option Nat)) (bo : Nat) (fuel start : Nat)
    (h : scan_exec_bos exec_bos bo fuel start = none) :
    ∀ j, start ≤ j → j < start + fuel → exec_bos.getD j none ≠ some bo := by
  induction fuel generalizing start with
  | zero => intro j h1 h2; omega
  | succ n ih =>
    unfold scan_exec_bos at h
    split at h
    · simp at h
    · rename_i miss
      intro j h1 h2
      by_cases e : j = start
      · subst e; exact miss
      · exact ih (start + 1) h j (by omega) (by omega)

theorem scan_first (exec_bos : List (Option Nat)) (bo : Nat) (fuel start i : Nat)
    (h1 : start ≤ i) (h2 : i < start + fuel) (h3 : exec_bos.getD i none = some bo)
    (h4 : ∀ j, start ≤ j → j < i → exec_bos.getD j none ≠ some bo) :
    scan_exec_bos exec_bos bo fuel start = some i := by
  cases h : scan_exec_bos exec_bos bo fuel start with
  | none => exact absurd h3 (scan_none exec_bos bo fuel start h i h1 h2)
  | some k =>
    obtain ⟨k1, k2, k3, k4⟩ := scan_some exec_bos bo fuel start k h
    have : k = i := by
      rcases Nat.lt_trichotomy k i with c | c | c
      · exact absurd k3 (h4 k k1 c)
      · exact c
      · exact absurd h3 (k4 i h1 c)
    rw [this]

theorem bo_get_upd (heap : List iris_bo) (p q : Nat) (f : iris_bo → iris_bo) :
    bo_get (bo_upd heap p f) q =
      if p = q ∧ p < heap.length then f (bo_get heap p) else bo_get heap q := by
  by_cases e : p = q
  · subst e
    by_cases h : p < heap.length
    · simp [h, bo_get_upd_eq]
    · have h1 : heap.length ≤ p := by omega
      simp [h, bo_get_invalid _ _ h1, bo_get_invalid (bo_upd heap p f) p (by simpa [bo_upd_length] using h1)]
  · simp [e, bo_get_upd_ne _ _ _ _ e]

theorem heap_ext_refl (h : List iris_bo) : heap_ext h h :=
  ⟨le_refl _, fun _ _ => ⟨rfl, rfl, rfl, rfl⟩⟩

theorem heap_ext_trans {h1 h2 h3 : List iris_bo} (a : heap_ext h1 h2) (b : heap_ext h2 h3) :
    heap_ext h1 h3 := by
  refine ⟨le_trans a.1 b.1, fun p hp => ?_⟩
  have x := a.2 p hp
  have y := b.2 p (lt_of_lt_of_le hp a.1)
  exact ⟨y.1.trans x.1, y.2.1.trans x.2.1, y.2.2.1.trans x.2.2.1, y.2.2.2.trans x.2.2.2⟩

theorem heap_ext_upd (h : List iris_bo) (p : Nat) (f : iris_bo → iris_bo)
    (hf : ∀ b, (f b).gem_handle = b.gem_handle ∧ (f b).size = b.size ∧
      (f b).kflags = b.kflags ∧ (f b).gtt_offset = b.gtt_offset) :
    heap_ext h (bo_upd h p f) := by
  refine ⟨by simp [bo_upd_length], fun q _ => ?_⟩
  rw [bo_get_upd]
  split
  · rename_i c
    rw [← c.1]
    exact hf _
  · exact ⟨rfl, rfl, rfl, rfl⟩

theorem heap_ext_append (h : List iris_bo) (x : iris_bo) : heap_ext h (h ++ [x]) := by
  refine ⟨by simp, fun q hq => ?_⟩
  rw [bo_get_append_left h x q hq]
  exact ⟨rfl, rfl, rfl, rfl⟩

theorem append_spec (s : State) (b : Nat) (hwf : batch_wf s.batch) :
    (add_exec_bo_append s b).1 = s.batch.exec_count ∧
    (add_exec_bo_append s b).2.batch.exec_count = s.batch.exec_count + 1 ∧
    batch_wf (add_exec_bo_append s b).2.batch ∧
    (add_exec_bo_append s b).2.batch.exec_bos.getD s.batch.exec_count none = some b ∧
    (∀ j, j < s.batch.exec_count →
      (add_exec_bo_append s b).2.batch.exec_bos.getD j none = s.batch.exec_bos.getD j none) ∧
    (add_exec_bo_append s b).2.batch.validation_list.getD s.batch.exec_count default =
      { handle := (bo_get s.heap b).gem_handle
        offset := (bo_get s.heap b).gtt_offset
        flags := (bo_get s.heap b).kflags } ∧
    (∀ j, j < s.batch.exec_count →
      (add_exec_bo_append s b).2.batch.validation_list.getD j default =
        s.batch.validation_list.getD j default) ∧
    (add_exec_bo_append s b).2.batch.aperture_space =
      to_int32 (s.batch.aperture_space + (bo_get s.heap b).size) ∧
    (add_exec_bo_append s b).2.heap =
      bo_upd (iris_bo_reference s.heap b) b (fun x => { x with index := s.batch.exec_count }) ∧
    (add_exec_bo_append s b).2.batch.exec_array_size =
      (if s.batch.exec_count = s.batch.exec_array_size then s.batch.exec_array_size * 2
       else s.batch.exec_array_size) := by
  obtain ⟨w1, w2, w3, w4⟩ := hwf
  have hh : (bo_get (iris_bo_reference s.heap b) b).gem_handle = (bo_get s.heap b).gem_handle ∧
      (bo_get (iris_bo_reference s.heap b) b).gtt_offset = (bo_get s.heap b).gtt_offset ∧
      (bo_get (iris_bo_reference s.heap b) b).kflags = (bo_get s.heap b).kflags ∧
      (bo_get (iris_bo_reference s.heap b) b).size = (bo_get s.heap b).size := by
    unfold iris_bo_reference
    rw [bo_get_upd]
    split <;> simp
  have hs : (bo_get (bo_upd (iris_bo_reference s.heap b) b
        (fun x => { x with index := s.batch.exec_count })) b).size = (bo_get s.heap b).size := by
    rw [bo_get_upd]
    split
    · simpa using hh.2.2.2
    · exact hh.2.2.2
  by_cases c : s.batch.exec_count = s.batch.exec_array_size
  · have l1 : (realloc s.batch.exec_bos (s.batch.exec_array_size * 2) none).length =
        s.batch.exec_array_size * 2 := length_realloc _ _ _ (by omega)
    have l2 : (realloc s.batch.validation_list (s.batch.exec_array_size * 2) default).length =
        s.batch.exec_array_size * 2 := length_realloc _ _ _ (by omega)
    unfold add_exec_bo_append
    rw [if_pos c, if_pos c]
    dsimp only
    refine ⟨rfl, rfl, ⟨?_, ?_, ?_, ?_⟩, ?_, ?_, ?_, ?_, ?_, rfl, rfl⟩
    · show 0 < s.batch.exec_array_size * 2
      omega
    · show s.batch.exec_count + 1 ≤ s.batch.exec_array_size * 2
      omega
    · rw [List.length_set, l1]
    · rw [List.length_set, l2]
    · exact getD_set_eq _ _ _ _ (by rw [l1]; omega)
    · intro j hj
      rw [getD_set_ne _ _ _ _ _ (by omega)]
      exact getD_realloc _ _ _ _ _ (by omega) (by omega)
    · rw [getD_set_eq _ _ _ _ (by rw [l2]; omega), hh.1, hh.2.1, hh.2.2.1]
    · intro j hj
      rw [getD_set_ne _ _ _ _ _ (by omega)]
      exact getD_realloc _ _ _ _ _ (by omega) (by omega)
    · rw [hs]
  · unfold add_exec_bo_append
    rw [if_neg c, if_neg c]
    dsimp only
    refine ⟨rfl, rfl, ⟨w1, ?_, ?_, ?_⟩, ?_, ?_, ?_, ?_, ?_, rfl, rfl⟩
    · show s.batch.exec_count + 1 ≤ s.batch.exec_array_size
      omega
    · rw [List.length_set, w3]
    · rw [List.length_set, w4]
    · exact getD_set_eq _ _ _ _ (by omega)
    · intro j hj
      exact getD_set_ne _ _ _ _ _ (by omega)
    · rw [getD_set_eq _ _ _ _ (by omega), hh.1, hh.2.1, hh.2.2.1]
    · intro j hj
      exact getD_set_ne _ _ _ _ _ (by omega)
    · rw [hs]

/-! ## add_exec_bo -/

theorem add_exec_bo_cases (s : State) (b : Nat) :
    (∃ i, i < s.batch.exec_count ∧ s.batch.exec_bos.getD i none = some b ∧
        add_exec_bo s b = (i, s)) ∨
    ((∀ j, j < s.batch.exec_count → s.batch.exec_bos.getD j none ≠ some b) ∧
        add_exec_bo s b = add_exec_bo_append s b) := by
  unfold add_exec_bo
  dsimp only
  split
  · rename_i hit
    exact Or.inl ⟨_, hit.1, hit.2, rfl⟩
  · cases h : scan_exec_bos s.batch.exec_bos b s.batch.exec_count 0 with
    | some i =>
      obtain ⟨_, h2, h3, _⟩ := scan_some _ _ _ _ _ h
      exact Or.inl ⟨i, by omega, h3, rfl⟩
    | none =>
      refine Or.inr ⟨fun j hj => scan_none _ _ _ _ h j (Nat.zero_le _) (by omega), rfl⟩

theorem add_exec_bo_unique (s : State) (b i : Nat) (hi : i < s.batch.exec_count)
    (he : s.batch.exec_bos.getD i none = some b)
    (hu : ∀ j, j < s.batch.exec_count → s.batch.exec_bos.getD j none = some b → j = i) :
    add_exec_bo s b = (i, s) := by
  rcases add_exec_bo_cases s b with ⟨k, k1, k2, k3⟩ | ⟨n1, _⟩
  · rw [k3, hu k k1 k2]
  · exact absurd he (n1 i hi)

theorem scan_only_cases (s : State) (b : Nat) :
    (∃ i, i < s.batch.exec_count ∧ s.batch.exec_bos.getD i none = some b ∧
        (∀ j, j < i → s.batch.exec_bos.getD j none ≠ some b) ∧
        add_exec_bo_scan_only s b = (i, s)) ∨
    ((∀ j, j < s.batch.exec_count → s.batch.exec_bos.getD j none ≠ some b) ∧
        add_exec_bo_scan_only s b = add_exec_bo_append s b) := by
  unfold add_exec_bo_scan_only
  cases h : scan_exec_bos s.batch.exec_bos b s.batch.exec_count 0 with
  | some i =>
    obtain ⟨_, h2, h3, h4⟩ := scan_some _ _ _ _ _ h
    exact Or.inl ⟨i, by omega, h3, fun j hj => h4 j (Nat.zero_le _) hj, rfl⟩
  | none =>
    exact Or.inr ⟨fun j hj => scan_none _ _ _ _ h j (Nat.zero_le _) (by omega), rfl⟩

/-- After an append the object is found again at the index it was given. -/
theorem add_after_append (s : State) (b : Nat) (hwf : batch_wf s.batch)
    (hn : ∀ j, j < s.batch.exec_count → s.batch.exec_bos.getD j none ≠ some b) :
    add_exec_bo (add_exec_bo_append s b).2 b =
      (s.batch.exec_count, (add_exec_bo_append s b).2) := by
  obtain ⟨_, a2, _, a4, a5, _⟩ := append_spec s b hwf
  apply add_exec_bo_unique
  · omega
  · exact a4
  · intro j hj hb
    by_contra c
    have hlt : j < s.batch.exec_count := by omega
    rw [a5 j hlt] at hb
    exact hn j hlt hb

/-- C1: Idempotent residency.  For every batch whose arrays have the capacity
it records and every buffer object `b`, a second `add_exec_bo(batch, b)` right
after the first returns the same index and leaves the whole state unchanged:
`exec_count`, `exec_bos`, `validation_list`, `aperture_space` and the
reference count of `b` among the rest. -/
theorem add_exec_bo_idempotent (s : State) (b : Nat) (hwf : batch_wf s.batch) :
    (add_exec_bo (add_exec_bo s b).2 b).1 = (add_exec_bo s b).1 ∧
    (add_exec_bo (add_exec_bo s b).2 b).2 = (add_exec_bo s b).2 ∧
    (add_exec_bo (add_exec_bo s b).2 b).2.batch.exec_count = (add_exec_bo s b).2.batch.exec_count ∧
    (add_exec_bo (add_exec_bo s b).2 b).2.batch.exec_bos = (add_exec_bo s b).2.batch.exec_bos ∧
    (add_exec_bo (add_exec_bo s b).2 b).2.batch.validation_list =
      (add_exec_bo s b).2.batch.validation_list ∧
    (add_exec_bo (add_exec_bo s b).2 b).2.batch.aperture_space =
      (add_exec_bo s b).2.batch.aperture_space ∧
    (bo_get (add_exec_bo (add_exec_bo s b).2 b).2.heap b).refcount =
      (bo_get (add_exec_bo s b).2.heap b).refcount := by
  have key : add_exec_bo (add_exec_bo s b).2 b = ((add_exec_bo s b).1, (add_exec_bo s b).2) := by
    rcases add_exec_bo_cases s b with ⟨i, _, _, h3⟩ | ⟨n1, n2⟩
    · rw [h3]
      exact h3
    · rw [n2, add_after_append s b hwf n1, (append_spec s b hwf).1]
  rw [key]
  exact ⟨rfl, rfl, rfl, rfl, rfl, rfl, rfl⟩

/-! ## Preservation of the invariant -/

theorem list_inv_of_eq {h : List iris_bo} {b b1 : iris_batch} (hi : list_inv h b)
    (e1 : b1.exec_count = b.exec_count) (e2 : b1.exec_bos = b.exec_bos)
    (e3 : b1.validation_list = b.validation_list)
    (e4 : b1.exec_array_size = b.exec_array_size) : list_inv h b1 := by
  unfold list_inv batch_wf at *
  rw [e1, e2, e3, e4]
  exact hi

theorem list_inv_heap_ext {h h1 : List iris_bo} {b : iris_batch} (hi : list_inv h b)
    (he : heap_ext h h1) : list_inv h1 b := by
  obtain ⟨w, v, n, g⟩ := hi
  refine ⟨w, fun i hi => ?_, n, fun i p hi hp => ?_⟩
  · obtain ⟨p, p1, p2⟩ := v i hi
    exact ⟨p, p1, lt_of_lt_of_le p2 he.1⟩
  · obtain ⟨q, q1, q2⟩ := v i hi
    have e : q = p := by rw [q1] at hp; exact Option.some.inj hp
    subst e
    rw [g i q hi hp, (he.2 q q2).1]

theorem list_inv_empty (h : List iris_bo) (b : iris_batch) (hw : batch_wf b)
    (h0 : b.exec_count = 0) : list_inv h b := by
  refine ⟨hw, fun i hi => ?_, fun i j hi => ?_, fun i p hi => ?_⟩ <;> omega

theorem heap_ext_reference (h : List iris_bo) (p : Nat) : heap_ext h (iris_bo_reference h p) :=
  heap_ext_upd _ _ _ (fun _ => ⟨rfl, rfl, rfl, rfl⟩)

theorem heap_ext_unreference (h : List iris_bo) (p : Option Nat) :
    heap_ext h (iris_bo_unreference h p) := by
  cases p with
  | none => exact heap_ext_refl h
  | some q =>
    show heap_ext h (bo_upd h q (fun b => { b with refcount := b.refcount - 1 }))
    exact heap_ext_upd _ _ _ (fun _ => ⟨rfl, rfl, rfl, rfl⟩)

theorem heap_ext_store32 (h : List iris_bo) (p : map_ptr) (v : Nat) :
    heap_ext h (store32 h p v) :=
  heap_ext_upd _ _ _ (fun _ => ⟨rfl, rfl, rfl, rfl⟩)

theorem heap_ext_store64 (h : List iris_bo) (p : map_ptr) (v : Nat) :
    heap_ext h (store64 h p v) :=
  heap_ext_upd _ _ _ (fun _ => ⟨rfl, rfl, rfl, rfl⟩)

theorem append_heap_ext (s : State) (b : Nat) (hwf : batch_wf s.batch) :
    heap_ext s.heap (add_exec_bo_append s b).2.heap := by
  rw [(append_spec s b hwf).2.2.2.2.2.2.2.2.1]
  exact heap_ext_trans (heap_ext_reference s.heap b) (heap_ext_upd _ _ _ (fun _ => ⟨rfl, rfl, rfl, rfl⟩))

theorem append_frame (s : State) (b : Nat) :
    (add_exec_bo_append s b).2.batch.bo = s.batch.bo ∧
    (add_exec_bo_append s b).2.batch.last_bo = s.batch.last_bo ∧
    (add_exec_bo_append s b).2.batch.map = s.batch.map ∧
    (add_exec_bo_append s b).2.batch.map_next = s.batch.map_next ∧
    (add_exec_bo_append s b).2.batch.primary_batch_size = s.batch.primary_batch_size ∧
    (add_exec_bo_append s b).2.batch.engine = s.batch.engine ∧
    (add_exec_bo_append s b).2.batch.hw_ctx_id = s.batch.hw_ctx_id ∧
    (add_exec_bo_append s b).2.execbuf_calls = s.execbuf_calls := by
  unfold add_exec_bo_append
  dsimp only
  split <;> exact ⟨rfl, rfl, rfl, rfl, rfl, rfl, rfl, rfl⟩

theorem list_inv_append (s : State) (b : Nat) (hi : list_inv s.heap s.batch)
    (hb : b < s.heap.length)
    (hn : ∀ j, j < s.batch.exec_count → s.batch.exec_bos.getD j none ≠ some b) :
    list_inv (add_exec_bo_append s b).2.heap (add_exec_bo_append s b).2.batch := by
  have hx := append_heap_ext s b hi.1
  obtain ⟨_, a2, a3, a4, a5, a6, a7, _, _, _⟩ := append_spec s b hi.1
  obtain ⟨w, v, n, g⟩ := hi
  refine ⟨a3, fun i hi => ?_, fun i j hi hj e => ?_, fun i p hi hp => ?_⟩
  · by_cases c : i < s.batch.exec_count
    · obtain ⟨p, p1, p2⟩ := v i c
      exact ⟨p, by rw [a5 i c]; exact p1, lt_of_lt_of_le p2 hx.1⟩
    · have e : i = s.batch.exec_count := by omega
      subst e
      exact ⟨b, a4, lt_of_lt_of_le hb hx.1⟩
  · by_cases ci : i < s.batch.exec_count
    · by_cases cj : j < s.batch.exec_count
      · rw [a5 i ci, a5 j cj] at e
        exact n i j ci cj e
      · have ej : j = s.batch.exec_count := by omega
        subst ej
        rw [a5 i ci, a4] at e
        exact absurd e (hn i ci)
    · have ei : i = s.batch.exec_count := by omega
      subst ei
      by_cases cj : j < s.batch.exec_count
      · rw [a5 j cj, a4] at e
        exact absurd e.symm (hn j cj)
      · omega
  · by_cases c : i < s.batch.exec_count
    · rw [a5 i c] at hp
      obtain ⟨q, q1, q2⟩ := v i c
      have e : q = p := by rw [q1] at hp; exact Option.some.inj hp
      subst e
      rw [a7 i c, g i q c hp, (hx.2 q q2).1]
    · have e : i = s.batch.exec_count := by omega
      subst e
      rw [a4] at hp
      have e : b = p := Option.some.inj hp
      subst e
      rw [a6, (hx.2 b hb).1]

/-- What `add_exec_bo` keeps: the invariant of the list, the objects of the
heap, the entries already present, and the fields of the batch that are not
part of the residency list. -/
theorem add_exec_bo_keeps (s : State) (b : Nat) (hi : list_inv s.heap s.batch)
    (hb : b < s.heap.length) :
    list_inv (add_exec_bo s b).2.heap (add_exec_bo s b).2.batch ∧
    heap_ext s.heap (add_exec_bo s b).2.heap ∧
    (add_exec_bo s b).2.heap.length = s.heap.length ∧
    s.batch.exec_count ≤ (add_exec_bo s b).2.batch.exec_count ∧
    (∀ j, j < s.batch.exec_count →
      (add_exec_bo s b).2.batch.exec_bos.getD j none = s.batch.exec_bos.getD j none) ∧
    (add_exec_bo s b).1 < (add_exec_bo s b).2.batch.exec_count ∧
    (add_exec_bo s b).2.batch.exec_bos.getD (add_exec_bo s b).1 none = some b ∧
    (add_exec_bo s b).2.batch.bo = s.batch.bo ∧
    (add_exec_bo s b).2.batch.map = s.batch.map ∧
    (add_exec_bo s b).2.batch.map_next = s.batch.map_next := by
  rcases add_exec_bo_cases s b with ⟨i, h1, h2, h3⟩ | ⟨n1, n2⟩
  · rw [h3]
    exact ⟨hi, heap_ext_refl _, rfl, le_refl _, fun _ _ => rfl, h1, h2, rfl, rfl, rfl⟩
  · rw [n2]
    obtain ⟨a1, a2, _, a4, a5, _, _, _, a9, _⟩ := append_spec s b hi.1
    obtain ⟨f1, _, f3, f4, _⟩ := append_frame s b
    refine ⟨list_inv_append s b hi hb n1, append_heap_ext s b hi.1, ?_, by omega, a5, by omega,
      by rw [a1]; exact a4, f1, f3, f4⟩
    rw [a9]
    simp [bo_upd_length, iris_bo_reference]

/-- The state `create_batch` hands to `add_exec_bo`: the new command buffer
is allocated, flagged for capture and mapped. -/
theorem create_batch_eq (cfg : Config) (s : State) :
    create_batch cfg s =
      (add_exec_bo
        { s with
            heap := bo_upd (iris_bo_alloc cfg s.heap (cfg.BATCH_SZ + BATCH_RESERVED)).1 s.heap.length
              (fun b => { b with kflags := b.kflags ||| EXEC_OBJECT_CAPTURE })
            batch := { s.batch with
              bo := some s.heap.length
              map := iris_bo_map s.heap.length
              map_next := iris_bo_map s.heap.length
              contains_draw := false } } s.heap.length).2 := rfl

theorem heap_ext_alloc (cfg : Config) (h : List iris_bo) (size : Nat) :
    heap_ext h (iris_bo_alloc cfg h size).1 :=
  heap_ext_append h _

theorem create_batch_spec (cfg : Config) (s : State) (hi : list_inv s.heap s.batch) :
    (create_batch cfg s).batch.bo = some s.heap.length ∧
    (create_batch cfg s).heap.length = s.heap.length + 1 ∧
    heap_ext s.heap (create_batch cfg s).heap ∧
    list_inv (create_batch cfg s).heap (create_batch cfg s).batch ∧
    (create_batch cfg s).batch.exec_count = s.batch.exec_count + 1 ∧
    (create_batch cfg s).batch.exec_bos.getD s.batch.exec_count none = some s.heap.length ∧
    (∀ j, j < s.batch.exec_count →
      (create_batch cfg s).batch.exec_bos.getD j none = s.batch.exec_bos.getD j none) ∧
    (create_batch cfg s).batch.map = iris_bo_map s.heap.length ∧
    (create_batch cfg s).batch.map_next = iris_bo_map s.heap.length ∧
    (create_batch cfg s).batch.aperture_space =
      to_int32 (s.batch.aperture_space + ((cfg.BATCH_SZ + BATCH_RESERVED : Nat) : Int)) ∧
    (bo_get (create_batch cfg s).heap s.heap.length).index = s.batch.exec_count ∧
    (create_batch cfg s).batch.last_bo = s.batch.last_bo ∧
    (create_batch cfg s).batch.primary_batch_size = s.batch.primary_batch_size ∧
    (create_batch cfg s).execbuf_calls = s.execbuf_calls ∧
    (bo_get (create_batch cfg s).heap s.heap.length).size = cfg.BATCH_SZ + BATCH_RESERVED := by
  rw [create_batch_eq]
  generalize hs1 :
    ({ s with
        heap := bo_upd (iris_bo_alloc cfg s.heap (cfg.BATCH_SZ + BATCH_RESERVED)).1 s.heap.length
          (fun b => { b with kflags := b.kflags ||| EXEC_OBJECT_CAPTURE })
        batch := { s.batch with
          bo := some s.heap.length
          map := iris_bo_map s.heap.length
          map_next := iris_bo_map s.heap.length
          contains_draw := false } } : State) = s1
  have e_heap : s1.heap = bo_upd (iris_bo_alloc cfg s.heap (cfg.BATCH_SZ + BATCH_RESERVED)).1
      s.heap.length (fun b => { b with kflags := b.kflags ||| EXEC_OBJECT_CAPTURE }) := by
    rw [← hs1]
  have e_cnt : s1.batch.exec_count = s.batch.exec_count := by rw [← hs1]
  have e_bos : s1.batch.exec_bos = s.batch.exec_bos := by rw [← hs1]
  have e_val : s1.batch.validation_list = s.batch.validation_list := by rw [← hs1]
  have e_sz : s1.batch.exec_array_size = s.batch.exec_array_size := by rw [← hs1]
  have e_bo : s1.batch.bo = some s.heap.length := by rw [← hs1]
  have e_map : s1.batch.map = iris_bo_map s.heap.length := by rw [← hs1]
  have e_mapn : s1.batch.map_next = iris_bo_map s.heap.length := by rw [← hs1]
  have e_ap : s1.batch.aperture_space = s.batch.aperture_space := by rw [← hs1]
  have e_last : s1.batch.last_bo = s.batch.last_bo := by rw [← hs1]
  have e_prim : s1.batch.primary_batch_size = s.batch.primary_batch_size := by rw [← hs1]
  have e_calls : s1.execbuf_calls = s.execbuf_calls := by rw [← hs1]
  have hlen : s1.heap.length = s.heap.length + 1 := by
    rw [e_heap, bo_upd_length]
    simp [iris_bo_alloc]
  have hx : heap_ext s.heap s1.heap := by
    rw [e_heap]
    refine ⟨by simp [bo_upd_length, iris_bo_alloc], fun p hp => ?_⟩
    rw [bo_get_upd_ne _ _ _ _ (by omega)]
    exact (heap_ext_alloc cfg s.heap _).2 p hp
  have hi1 : list_inv s1.heap s1.batch :=
    list_inv_of_eq (list_inv_heap_ext hi hx) e_cnt e_bos e_val e_sz
  have hsize : (bo_get s1.heap s.heap.length).size = cfg.BATCH_SZ + BATCH_RESERVED := by
    rw [e_heap, bo_get_upd_eq _ _ _ (by simp [iris_bo_alloc])]
    simp [iris_bo_alloc, bo_get_append_new]
  have hnew : ∀ j, j < s1.batch.exec_count →
      s1.batch.exec_bos.getD j none ≠ some s.heap.length := by
    intro j hj hc
    rw [e_cnt] at hj
    rw [e_bos] at hc
    obtain ⟨p, p1, p2⟩ := hi.2.1 j hj
    rw [p1] at hc
    have : p = s.heap.length := Option.some.inj hc
    omega
  have happ : add_exec_bo s1 s.heap.length = add_exec_bo_append s1 s.heap.length := by
    rcases add_exec_bo_cases s1 s.heap.length with ⟨i, h1, h2, _⟩ | ⟨_, n2⟩
    · exact absurd h2 (hnew i h1)
    · exact n2
  rw [happ]
  obtain ⟨_, a2, _, a4, a5, _, _, a8, a9, _⟩ := append_spec s1 s.heap.length hi1.1
  obtain ⟨f1, f2, f3, f4, f5, _, _, f8⟩ := append_frame s1 s.heap.length
  have hx2 := append_heap_ext s1 s.heap.length hi1.1
  have hlen2 : (add_exec_bo_append s1 s.heap.length).2.heap.length = s.heap.length + 1 := by
    rw [a9, bo_upd_length]
    unfold iris_bo_reference
    rw [bo_upd_length, hlen]
  refine ⟨by rw [f1, e_bo], hlen2, heap_ext_trans hx hx2,
    list_inv_append s1 s.heap.length hi1 (by omega) hnew, by rw [a2, e_cnt],
    by rw [← e_cnt]; exact a4, fun j hj => ?_, by rw [f3, e_map], by rw [f4, e_mapn],
    by rw [a8, e_ap, hsize], ?_, by rw [f2, e_last], by rw [f5, e_prim], by rw [f8, e_calls],
    by rw [(hx2.2 s.heap.length (by omega)).2.1, hsize]⟩
  · rw [a5 j (by omega), e_bos]
  · rw [a9, bo_get_upd_eq _ _ _ (by unfold iris_bo_reference; rw [bo_upd_length]; omega)]
    exact e_cnt

theorem reset_spec (cfg : Config) (s s1 : State) (hi : list_inv s.heap s.batch)
    (h : iris_batch_reset cfg s = .ok s1) :
    s1.batch.bo = some s.heap.length ∧
    s1.heap.length = s.heap.length + 1 ∧
    heap_ext s.heap s1.heap ∧
    list_inv s1.heap s1.batch ∧
    s1.batch.exec_count = s.batch.exec_count + 1 ∧
    s1.batch.exec_bos.getD s.batch.exec_count none = some s.heap.length ∧
    (∀ j, j < s.batch.exec_count →
      s1.batch.exec_bos.getD j none = s.batch.exec_bos.getD j none) ∧
    s1.batch.map = iris_bo_map s.heap.length ∧
    s1.batch.map_next = iris_bo_map s.heap.length ∧
    s1.batch.aperture_space =
      to_int32 (s.batch.aperture_space + ((cfg.BATCH_SZ + BATCH_RESERVED : Nat) : Int)) ∧
    s1.batch.primary_batch_size = 0 ∧
    s1.execbuf_calls = s.execbuf_calls ∧
    (bo_get s1.heap s.heap.length).size = cfg.BATCH_SZ + BATCH_RESERVED := by
  have e : ∃ s2 : State, s1 = create_batch cfg s2 ∧
      s2.heap.length = s.heap.length ∧ heap_ext s.heap s2.heap ∧
      s2.batch.exec_count = s.batch.exec_count ∧ s2.batch.exec_bos = s.batch.exec_bos ∧
      s2.batch.validation_list = s.batch.validation_list ∧
      s2.batch.exec_array_size = s.batch.exec_array_size ∧
      s2.batch.aperture_space = s.batch.aperture_space ∧
      s2.batch.primary_batch_size = 0 ∧ s2.execbuf_calls = s.execbuf_calls := by
    unfold iris_batch_reset at h
    cases hl : s.batch.last_bo with
    | none =>
      simp only [hl] at h
      split at h
      · simp at h
      · split at h
        · exact ⟨_, (Except.ok.inj h).symm, rfl, heap_ext_refl _, rfl, rfl, rfl, rfl, rfl, rfl, rfl⟩
        · simp at h
    | some p =>
      simp only [hl] at h
      split at h
      · simp at h
      · split at h
        · refine ⟨_, (Except.ok.inj h).symm, ?_, heap_ext_unreference _ (some p), rfl, rfl, rfl,
            rfl, rfl, rfl, rfl⟩
          simp [iris_bo_unreference, bo_upd_length]
        · simp at h
  obtain ⟨s2, hs, e⟩ := e
  obtain ⟨e1, e2, e3, e4, e5, e6, e7, e8, e9⟩ := e
  have hi2 : list_inv s2.heap s2.batch := list_inv_of_eq (list_inv_heap_ext hi e2) e3 e4 e5 e6
  obtain ⟨c1, c2, c3, c4, c5, c6, c7, c8, c9, c10, _, _, c13, c14, c15⟩ :=
    create_batch_spec cfg s2 hi2
  subst hs
  refine ⟨by rw [c1, e1], by rw [c2, e1], heap_ext_trans e2 c3, c4, by rw [c5, e3],
    by rw [← e3, ← e1]; exact c6, fun j hj => ?_, by rw [c8, e1], by rw [c9, e1],
    by rw [c10, e7], by rw [c13, e8], by rw [c14, e9], by rw [← e1]; exact c15⟩
  rw [c7 j (by omega), e4]

theorem init_spec (cfg : Config) (s0 s1 : State) (engine : Nat)
    (h : iris_init_batch cfg s0 engine = .ok s1) :
    Inv s1 ∧ s1.batch.exec_count = 1 ∧
    s1.batch.exec_bos.getD 0 none = some s0.heap.length ∧
    s1.batch.bo = some s0.heap.length ∧
    s1.heap.length = s0.heap.length + 1 ∧
    heap_ext s0.heap s1.heap ∧
    s1.batch.aperture_space =
      to_int32 (s0.batch.aperture_space + ((cfg.BATCH_SZ + BATCH_RESERVED : Nat) : Int)) ∧
    s1.batch.map = iris_bo_map s0.heap.length ∧
    s1.batch.map_next = iris_bo_map s0.heap.length ∧
    s1.execbuf_calls = s0.execbuf_calls ∧
    (bo_get s1.heap s0.heap.length).size = cfg.BATCH_SZ + BATCH_RESERVED := by
  unfold iris_init_batch at h
  split at h
  · simp at h
  · split at h
    · simp at h
    · dsimp only at h
      generalize hb : ({ s0 with batch := { s0.batch with
              engine := engine % 256
              exec_count := 0
              exec_array_size := 100
              exec_bos := List.replicate 100 none
              validation_list := List.replicate 100 default } } : State) = sb at h
      have b1 : sb.heap = s0.heap := by rw [← hb]
      have b2 : sb.batch.exec_count = 0 := by rw [← hb]
      have b3 : sb.batch.aperture_space = s0.batch.aperture_space := by rw [← hb]
      have b4 : sb.execbuf_calls = s0.execbuf_calls := by rw [← hb]
      have b5 : batch_wf sb.batch := by
        rw [← hb]
        exact ⟨Nat.lt_of_sub_eq_succ rfl, Nat.zero_le _, List.length_replicate _ _,
          List.length_replicate _ _⟩
      have hw : list_inv sb.heap sb.batch := list_inv_empty _ _ b5 b2
      obtain ⟨r1, r2, r3, r4, r5, r6, _, r8, r9, r10, _, r12, r13⟩ := reset_spec cfg sb s1 hw h
      rw [b1] at r1 r2 r3 r6 r8 r9 r13
      rw [b2] at r5 r6
      refine ⟨⟨r4, by omega, ⟨_, r1, by omega⟩⟩, r5, r6, r1, r2, r3, by rw [r10, b3], r8, r9,
        by rw [r12, b4], r13⟩

theorem chain_spec (cfg : Config) (s s1 : State) (hi : Inv s)
    (h : iris_chain_to_new_batch cfg s = .ok s1) :
    Inv s1 ∧
    s.batch.bo = s.batch.exec_bos.getD 0 none ∧
    s1.batch.bo = some s.heap.length ∧
    s1.heap.length = s.heap.length + 1 ∧
    heap_ext s.heap s1.heap ∧
    s1.batch.exec_count = s.batch.exec_count + 1 ∧
    s1.batch.exec_bos.getD s.batch.exec_count none = some s.heap.length ∧
    (∀ j, j < s.batch.exec_count →
      s1.batch.exec_bos.getD j none = s.batch.exec_bos.getD j none) ∧
    s1.batch.map = iris_bo_map s.heap.length ∧
    s1.batch.map_next = iris_bo_map s.heap.length ∧
    s1.batch.aperture_space =
      to_int32 (s.batch.aperture_space + ((cfg.BATCH_SZ + BATCH_RESERVED : Nat) : Int)) ∧
    s1.batch.primary_batch_size = s.batch.map_next.off + 8 - s.batch.map.off ∧
    s1.execbuf_calls = s.execbuf_calls ∧
    (bo_get s1.heap s.heap.length).size = cfg.BATCH_SZ + BATCH_RESERVED := by
  unfold iris_chain_to_new_batch at h
  split at h
  · simp at h
  · rename_i hbo
    have hbo1 : s.batch.bo = s.batch.exec_bos.getD 0 none := by
      by_contra c
      exact hbo c
    dsimp only at h
    generalize hs2 : ({ s with
        heap := iris_bo_unreference s.heap s.batch.bo
        batch := { s.batch with
          map_next := { s.batch.map_next with off := s.batch.map_next.off + 8 }
          primary_batch_size := iris_batch_bytes_used
            { s.batch with
              map_next := { s.batch.map_next with off := s.batch.map_next.off + 8 } } } } : State)
      = s2 at h
    have e1 : s2.heap.length = s.heap.length := by
      rw [← hs2]
      cases s.batch.bo <;> simp [iris_bo_unreference, bo_upd_length]
    have e2 : heap_ext s.heap s2.heap := by
      rw [← hs2]
      exact heap_ext_unreference _ _
    have e3 : s2.batch.exec_count = s.batch.exec_count := by rw [← hs2]
    have e4 : s2.batch.exec_bos = s.batch.exec_bos := by rw [← hs2]
    have e5 : s2.batch.validation_list = s.batch.validation_list := by rw [← hs2]
    have e6 : s2.batch.exec_array_size = s.batch.exec_array_size := by rw [← hs2]
    have e7 : s2.batch.aperture_space = s.batch.aperture_space := by rw [← hs2]
    have e8 : s2.batch.primary_batch_size = s.batch.map_next.off + 8 - s.batch.map.off := by
      rw [← hs2]
      rfl
    have e9 : s2.execbuf_calls = s.execbuf_calls := by rw [← hs2]
    have hi2 : list_inv s2.heap s2.batch :=
      list_inv_of_eq (list_inv_heap_ext hi.1 e2) e3 e4 e5 e6
    obtain ⟨c1, c2, c3, c4, c5, c6, c7, c8, c9, c10, _, _, c13, c14, c15⟩ :=
      create_batch_spec cfg s2 hi2
    rw [c1] at h
    dsimp only at h
    have hs := (Except.ok.inj h).symm
    have x1 : heap_ext (create_batch cfg s2).heap s1.heap := by
      rw [hs]
      exact heap_ext_trans (heap_ext_store32 _ _ _) (heap_ext_store64 _ _ _)
    have x2 : s1.batch = (create_batch cfg s2).batch := by rw [hs]
    have x3 : s1.heap.length = (create_batch cfg s2).heap.length := by
      rw [hs]
      simp [store32, store64, bo_upd_length]
    have x4 : s1.execbuf_calls = (create_batch cfg s2).execbuf_calls := by rw [hs]
    rw [e1] at c1 c2 c6 c8 c9 c15
    rw [e3] at c5 c6 c7
    rw [e4] at c7
    have hinv : list_inv s1.heap s1.batch := by
      rw [x2]
      exact list_inv_heap_ext c4 x1
    refine ⟨⟨hinv, by rw [x2, c5]; omega, ⟨_, by rw [x2]; exact c1, by rw [x3, c2]; omega⟩⟩,
      hbo1, by rw [x2]; exact c1, by rw [x3, c2], heap_ext_trans e2 (heap_ext_trans c3 x1),
      by rw [x2, c5], by rw [x2]; exact c6, fun j hj => by rw [x2]; exact c7 j hj,
      by rw [x2]; exact c8, by rw [x2]; exact c9, by rw [x2, c10, e7], by rw [x2, c13, e8],
      by rw [x4, c14, e9], by rw [(x1.2 s.heap.length (by omega)).2.1]; exact c15⟩

theorem finish_spec (s : State) :
    heap_ext s.heap (iris_finish_batch s).heap ∧
    (iris_finish_batch s).heap.length = s.heap.length ∧
    (iris_finish_batch s).batch.exec_count = s.batch.exec_count ∧
    (iris_finish_batch s).batch.exec_bos = s.batch.exec_bos ∧
    (iris_finish_batch s).batch.validation_list = s.batch.validation_list ∧
    (iris_finish_batch s).batch.exec_array_size = s.batch.exec_array_size ∧
    (iris_finish_batch s).batch.bo = s.batch.bo ∧
    (iris_finish_batch s).execbuf_calls = s.execbuf_calls := by
  unfold iris_finish_batch
  dsimp only
  refine ⟨heap_ext_store32 _ _ _, by simp [store32, bo_upd_length], ?_, ?_, ?_, ?_, ?_, rfl⟩ <;>
    split <;> rfl

theorem mark_submitted_spec (exec_bos : List (Option Nat)) (fuel : Nat) :
    ∀ (heap : List iris_bo) (i : Nat),
      heap_ext heap (mark_submitted heap exec_bos fuel i) ∧
      (mark_submitted heap exec_bos fuel i).length = heap.length := by
  induction fuel with
  | zero => intro heap i; exact ⟨heap_ext_refl _, rfl⟩
  | succ n ih =>
    intro heap i
    unfold mark_submitted
    split
    · exact ih heap (i + 1)
    · rename_i p _
      have a := ih (bo_upd heap p (fun b => { b with idle := false, index := INDEX_NONE })) (i + 1)
      have u : heap_ext heap
          (bo_upd heap p (fun b => { b with idle := false, index := INDEX_NONE })) :=
        heap_ext_upd _ _ _ (fun _ => ⟨rfl, rfl, rfl, rfl⟩)
      exact ⟨heap_ext_trans u a.1, by rw [a.2, bo_upd_length]⟩

theorem release_spec (fuel : Nat) :
    ∀ (heap : List iris_bo) (exec_bos : List (Option Nat)) (i : Nat),
      heap_ext heap (release_exec_bos heap exec_bos fuel i).1 ∧
      (release_exec_bos heap exec_bos fuel i).1.length = heap.length ∧
      (release_exec_bos heap exec_bos fuel i).2.length = exec_bos.length := by
  induction fuel with
  | zero => intro heap exec_bos i; exact ⟨heap_ext_refl _, rfl, rfl⟩
  | succ n ih =>
    intro heap exec_bos i
    unfold release_exec_bos
    have a := ih (iris_bo_unreference heap (exec_bos.getD i none)) (exec_bos.set i none) (i + 1)
    refine ⟨heap_ext_trans (heap_ext_unreference _ _) a.1, ?_, ?_⟩
    · rw [a.2.1]
      cases exec_bos.getD i none <;> simp [iris_bo_unreference, bo_upd_length]
    · rw [a.2.2, List.length_set]

theorem submit_spec (s s2 : State) (in_fence_fd : Int) (out_fence_fd slot : Option Int)
    (ioctl_ret ret : Int) (ioctl_rsvd2 : Nat)
    (h : submit_batch s in_fence_fd out_fence_fd ioctl_ret ioctl_rsvd2 = .ok (ret, s2, slot)) :
    ioctl_ret = 0 ∧ ret = 0 ∧ s2.batch = s.batch ∧ heap_ext s.heap s2.heap ∧
    s2.heap.length = s.heap.length ∧
    s2.heap = mark_submitted s.heap s.batch.exec_bos s.batch.exec_count 0 ∧
    s2.execbuf_calls.length = s.execbuf_calls.length + 1 := by
  unfold submit_batch at h
  dsimp only at h
  split at h
  · simp at h
  · rename_i hr
    have hr0 : ioctl_ret = 0 := by
      by_contra c
      exact hr c
    have e := Except.ok.inj h
    have e1 : ret = ioctl_ret := (congrArg Prod.fst e).symm
    have e2 := (congrArg (fun x => x.2.1) e).symm
    dsimp only at e2
    have m := mark_submitted_spec s.batch.exec_bos s.batch.exec_count s.heap 0
    refine ⟨hr0, by rw [e1, hr0], by rw [e2], by rw [e2]; exact m.1, by rw [e2]; exact m.2,
      by rw [e2], by rw [e2]; simp⟩

theorem flush_spec (cfg : Config) (s s1 : State) (in_fence_fd : Int)
    (out_fence_fd slot : Option Int) (ioctl_ret ret : Int) (ioctl_rsvd2 : Nat) (hi : Inv s)
    (h : _iris_batch_flush_fence cfg s in_fence_fd out_fence_fd ioctl_ret ioctl_rsvd2 =
      .ok (ret, s1, slot)) :
    Inv s1 ∧ heap_ext s.heap s1.heap ∧ ret = 0 ∧
    (iris_batch_bytes_used s.batch = 0 → s1 = s ∧ slot = out_fence_fd) ∧
    (iris_batch_bytes_used s.batch ≠ 0 →
      s1.batch.exec_count = 1 ∧ s1.batch.bo = some s.heap.length ∧
      s1.batch.exec_bos.getD 0 none = some s.heap.length ∧
      s1.batch.aperture_space = ((cfg.BATCH_SZ + BATCH_RESERVED : Nat) : Int) ∧
      s1.batch.map = iris_bo_map s.heap.length ∧
      s1.batch.map_next = iris_bo_map s.heap.length ∧
      s1.execbuf_calls.length = s.execbuf_calls.length + 1) := by
  unfold _iris_batch_flush_fence at h
  split at h
  · rename_i hz
    have e := Except.ok.inj h
    have e1 : ret = 0 := (congrArg Prod.fst e).symm
    have e2 : s1 = s := (congrArg (fun x => x.2.1) e).symm
    have e3 : slot = out_fence_fd := (congrArg (fun x => x.2.2) e).symm
    subst e2
    exact ⟨hi, heap_ext_refl _, e1, fun _ => ⟨rfl, e3⟩, fun c => absurd hz c⟩
  · rename_i hz
    dsimp only at h
    split at h
    · simp at h
    · obtain ⟨f1, f2, f3, f4, f5, f6, _, f8⟩ := finish_spec s
      split at h
      · simp at h
      · rename_i r0 s2 slot2 hsub
        obtain ⟨_, _, u3, u4, u5, _, u7⟩ := submit_spec _ _ _ _ _ _ _ _ hsub
        obtain ⟨l1, l2, l3⟩ := release_spec s2.batch.exec_count s2.heap s2.batch.exec_bos 0
        generalize hs3 : ({ s2 with
            heap := (release_exec_bos s2.heap s2.batch.exec_bos s2.batch.exec_count 0).1
            batch := { s2.batch with
              exec_bos := (release_exec_bos s2.heap s2.batch.exec_bos s2.batch.exec_count 0).2
              exec_count := 0
              aperture_space := 0 } } : State) = s3 at h
        have g1 : s3.heap = (release_exec_bos s2.heap s2.batch.exec_bos s2.batch.exec_count 0).1 := by
          rw [← hs3]
        have g2 : s3.batch.exec_count = 0 := by rw [← hs3]
        have g3 : s3.batch.aperture_space = 0 := by rw [← hs3]
        have g4 : s3.execbuf_calls = s2.execbuf_calls := by rw [← hs3]
        have g5 : batch_wf s3.batch := by
          obtain ⟨w1, w2, w3, w4⟩ := hi.1.1
          rw [← hs3]
          refine ⟨?_, Nat.zero_le _, ?_, ?_⟩
          · show 0 < s2.batch.exec_array_size
            rw [u3, f6]
            exact w1
          · show (release_exec_bos s2.heap s2.batch.exec_bos s2.batch.exec_count 0).2.length =
              s2.batch.exec_array_size
            rw [l3, u3, f4, f6]
            exact w3
          · show s2.batch.validation_list.length = s2.batch.exec_array_size
            rw [u3, f5, f6]
            exact w4
        have g6 : s3.heap.length = s.heap.length := by rw [g1, l2, u5, f2]
        have g7 : heap_ext s.heap s3.heap := by
          rw [g1]
          exact heap_ext_trans f1 (heap_ext_trans u4 l1)
        split at h
        · simp at h
        · rename_i s4 hres
          have e := Except.ok.inj h
          have e1 : ret = 0 := (congrArg Prod.fst e).symm
          have e2 : s1 = s4 := (congrArg (fun x => x.2.1) e).symm
          subst e2
          obtain ⟨r1, r2, r3, r4, r5, r6, _, r8, r9, r10, _, r12, _⟩ :=
            reset_spec cfg s3 s1 (list_inv_empty _ _ g5 g2) hres
          rw [g6] at r1 r2 r6 r8 r9
          rw [g2] at r5 r6
          rw [g3] at r10
          refine ⟨⟨r4, by omega, ⟨_, r1, by omega⟩⟩, heap_ext_trans g7 r3, e1,
            fun c => absurd c hz,
            fun _ => ⟨r5, r1, r6, by rw [r10]; exact to_int32_batch cfg, r8, r9, ?_⟩⟩
          rw [r12, g4, u7, f8]

theorem pinned_valid (heap : List iris_bo) (b : Nat)
    (h : ¬ ((bo_get heap b).kflags &&& EXEC_OBJECT_PINNED = 0)) : b < heap.length := by
  by_contra c
  apply h
  rw [bo_get_invalid heap b (by omega)]
  rfl

theorem list_inv_set_flags (heap : List iris_bo) (b : iris_batch) (i fl : Nat)
    (hi : list_inv heap b) :
    list_inv heap { b with
      validation_list := b.validation_list.set i
        { b.validation_list.getD i default with flags := fl } } := by
  obtain ⟨w, v, n, g⟩ := hi
  refine ⟨⟨w.1, w.2.1, w.2.2.1, ?_⟩, v, n, fun j p hj hp => ?_⟩
  · show (b.validation_list.set i _).length = b.exec_array_size
    rw [List.length_set]
    exact w.2.2.2
  · show ((b.validation_list.set i _).getD j default).handle = _
    by_cases c : i = j
    · subst c
      rw [getD_set_eq _ _ _ _ (by rw [w.2.2.2]; exact lt_of_lt_of_le hj w.2.1)]
      exact g i p hj hp
    · rw [getD_set_ne _ _ _ _ _ c]
      exact g j p hj hp

theorem use_pinned_spec (s s1 : State) (b : Nat) (writable : Bool)
    (hi : list_inv s.heap s.batch) (h : iris_use_pinned_bo s b writable = .ok s1) :
    b < s.heap.length ∧
    list_inv s1.heap s1.batch ∧
    s1.heap = (add_exec_bo s b).2.heap ∧
    s1.batch.exec_count = (add_exec_bo s b).2.batch.exec_count ∧
    s1.batch.exec_bos = (add_exec_bo s b).2.batch.exec_bos ∧
    s1.batch.aperture_space = (add_exec_bo s b).2.batch.aperture_space ∧
    s1.batch.bo = s.batch.bo ∧ s1.batch.map = s.batch.map ∧
    s1.batch.map_next = s.batch.map_next := by
  unfold iris_use_pinned_bo at h
  split at h
  · simp at h
  · rename_i hp
    have hb := pinned_valid s.heap b hp
    obtain ⟨k1, _, _, _, _, _, _, k8, k9, k10⟩ := add_exec_bo_keeps s b hi hb
    dsimp only at h
    split at h
    · have e := (Except.ok.inj h).symm
      subst e
      exact ⟨hb, list_inv_set_flags _ _ _ _ k1, rfl, rfl, rfl, rfl, k8, k9, k10⟩
    · have e := (Except.ok.inj h).symm
      subst e
      exact ⟨hb, k1, rfl, rfl, rfl, rfl, k8, k9, k10⟩

theorem emit_spec (s : State) (bytes : List Nat) :
    heap_ext s.heap (emit_bytes s bytes).heap ∧
    (emit_bytes s bytes).heap.length = s.heap.length ∧
    (emit_bytes s bytes).execbuf_calls = s.execbuf_calls := by
  unfold emit_bytes
  dsimp only
  exact ⟨heap_ext_upd _ _ _ (fun _ => ⟨rfl, rfl, rfl, rfl⟩), bo_upd_length _ _ _, rfl⟩

theorem poke_spec (s : State) (b v : Nat) :
    heap_ext s.heap (poke_index s b v).heap ∧
    (poke_index s b v).heap.length = s.heap.length ∧
    (poke_index s b v).batch = s.batch := by
  unfold poke_index
  dsimp only
  exact ⟨heap_ext_upd _ _ _ (fun _ => ⟨rfl, rfl, rfl, rfl⟩), bo_upd_length _ _ _, rfl⟩

theorem inv_step (cfg : Config) (s s1 : State) (op : Op) (hi : Inv s)
    (h : step cfg s op = .ok s1) : Inv s1 := by
  obtain ⟨i1, i2, p, i3, i4⟩ := hi
  cases op with
  | use_pinned_bo b w =>
    obtain ⟨hb, u2, u3, u4, _, _, u7, _⟩ := use_pinned_spec s s1 b w i1 h
    obtain ⟨_, _, k3, k4, _⟩ := add_exec_bo_keeps s b i1 hb
    exact ⟨u2, by rw [u4]; omega, p, by rw [u7]; exact i3, by rw [u3, k3]; exact i4⟩
  | add_bo b =>
    dsimp only [step] at h
    split at h
    · rename_i hb
      have e := (Except.ok.inj h).symm
      subst e
      obtain ⟨k1, _, k3, k4, _, _, _, k8, _⟩ := add_exec_bo_keeps s b i1 hb
      exact ⟨k1, by omega, p, by rw [k8]; exact i3, by rw [k3]; exact i4⟩
    · simp at h
  | chain => exact (chain_spec cfg s s1 ⟨i1, i2, p, i3, i4⟩ h).1
  | flush i o r w =>
    dsimp only [step] at h
    split at h
    · simp at h
    · rename_i r0 s2 slot hf
      have e := (Except.ok.inj h).symm
      subst e
      exact (flush_spec cfg s s1 i o slot r r0 w ⟨i1, i2, p, i3, i4⟩ hf).1
  | emit bytes =>
    have e := (Except.ok.inj h).symm
    subst e
    obtain ⟨x1, x2, x3⟩ := emit_spec s bytes
    exact ⟨list_inv_of_eq (list_inv_heap_ext i1 x1) rfl rfl rfl rfl, i2, p, i3, by rw [x2]; exact i4⟩
  | poke_index b v =>
    have e := (Except.ok.inj h).symm
    subst e
    obtain ⟨x1, x2, x3⟩ := poke_spec s b v
    exact ⟨list_inv_of_eq (list_inv_heap_ext i1 x1) rfl rfl rfl rfl, i2, p, i3, by rw [x2]; exact i4⟩

theorem inv_run (cfg : Config) (ops : List Op) :
    ∀ (s s1 : State), Inv s → run cfg s ops = .ok s1 → Inv s1 := by
  induction ops with
  | nil =>
    intro s s1 hi h
    have e := (Except.ok.inj h).symm
    subst e
    exact hi
  | cons op ops ih =>
    intro s s1 hi h
    unfold run at h
    split at h
    · simp at h
    · rename_i s2 hs
      exact ih s2 s1 (inv_step cfg s s2 op hi hs) h

theorem inv_reachable (cfg : Config) (s : State) (h : Reachable cfg s) : Inv s := by
  obtain ⟨s0, engine, s1, ops, h1, h2⟩ := h
  exact inv_run cfg ops s1 s (init_spec cfg s0 s1 engine h1).1 h2

/-! ## The cached index is only a hint -/

theorem references_eq_scan (s : State) (b : Nat) :
    iris_batch_references s b = iris_batch_references_scan_only s b := by
  unfold iris_batch_references iris_batch_references_scan_only
  dsimp only
  split
  · rename_i hit
    cases h : scan_exec_bos s.batch.exec_bos b s.batch.exec_count 0 with
    | none =>
      exact absurd hit.2 (scan_none _ _ _ _ h _ (Nat.zero_le _) (by omega))
    | some i => rfl
  · rfl

theorem add_eq_scan (s : State) (b : Nat)
    (hn : ∀ i j, i < s.batch.exec_count → j < s.batch.exec_count →
      s.batch.exec_bos.getD i none = s.batch.exec_bos.getD j none → i = j) :
    add_exec_bo s b = add_exec_bo_scan_only s b := by
  rcases scan_only_cases s b with ⟨k, k1, k2, _, k4⟩ | ⟨m1, m2⟩
  · rw [k4]
    exact add_exec_bo_unique s b k k1 k2 (fun j hj hb => hn j k hj k1 (by rw [hb, k2]))
  · rcases add_exec_bo_cases s b with ⟨i, i1, i2, _⟩ | ⟨_, n2⟩
    · exact absurd i2 (m1 i i1)
    · rw [n2, m2]

theorem bo_get_reference (heap : List iris_bo) (b q : Nat) :
    (bo_get (iris_bo_reference heap b) q).gem_handle = (bo_get heap q).gem_handle ∧
    (bo_get (iris_bo_reference heap b) q).gtt_offset = (bo_get heap q).gtt_offset ∧
    (bo_get (iris_bo_reference heap b) q).kflags = (bo_get heap q).kflags ∧
    (bo_get (iris_bo_reference heap b) q).size = (bo_get heap q).size ∧
    (bo_get (iris_bo_reference heap b) q).refcount =
      (bo_get heap q).refcount + (if b = q ∧ b < heap.length then 1 else 0) := by
  unfold iris_bo_reference
  rw [bo_get_upd]
  split
  · rename_i c
    rw [c.1]
    simp
  · simp

theorem append_congr (s s1 : State) (b : Nat) (hb : s1.batch = s.batch)
    (h1 : (bo_get s1.heap b).gem_handle = (bo_get s.heap b).gem_handle)
    (h2 : (bo_get s1.heap b).gtt_offset = (bo_get s.heap b).gtt_offset)
    (h3 : (bo_get s1.heap b).kflags = (bo_get s.heap b).kflags)
    (h4 : (bo_get s1.heap b).size = (bo_get s.heap b).size) :
    (add_exec_bo_append s1 b).1 = (add_exec_bo_append s b).1 ∧
    (add_exec_bo_append s1 b).2.batch = (add_exec_bo_append s b).2.batch := by
  have r1 := bo_get_reference s1.heap b b
  have r := bo_get_reference s.heap b b
  have z1 : ∀ n, (bo_get (bo_upd (iris_bo_reference s1.heap b) b
      (fun x => { x with index := n })) b).size = (bo_get s.heap b).size := by
    intro n
    rw [bo_get_upd]
    split
    · show (bo_get (iris_bo_reference s1.heap b) b).size = _
      rw [r1.2.2.2.1, h4]
    · rw [r1.2.2.2.1, h4]
  have z : ∀ n, (bo_get (bo_upd (iris_bo_reference s.heap b) b
      (fun x => { x with index := n })) b).size = (bo_get s.heap b).size := by
    intro n
    rw [bo_get_upd]
    split
    · show (bo_get (iris_bo_reference s.heap b) b).size = _
      rw [r.2.2.2.1]
    · rw [r.2.2.2.1]
  unfold add_exec_bo_append
  dsimp only
  rw [hb, r1.1, r1.2.1, r1.2.2.1, r.1, r.2.1, r.2.2.1, h1, h2, h3]
  split
  · rw [z1, z]
    exact ⟨rfl, rfl⟩
  · rw [z1, z]
    exact ⟨rfl, rfl⟩

theorem refcount_after_append (s : State) (b p : Nat) (hwf : batch_wf s.batch) :
    (bo_get (add_exec_bo_append s b).2.heap p).refcount =
      (bo_get s.heap p).refcount + (if b = p ∧ b < s.heap.length then 1 else 0) := by
  rw [(append_spec s b hwf).2.2.2.2.2.2.2.2.1, bo_get_upd]
  split
  · rename_i c
    show (bo_get (iris_bo_reference s.heap b) b).refcount = _
    rw [(bo_get_reference s.heap b b).2.2.2.2, ← c.1]
  · exact (bo_get_reference s.heap b p).2.2.2.2

theorem bo_get_poke (heap : List iris_bo) (b v q : Nat) :
    (bo_get (bo_upd heap b (fun x => { x with index := v })) q).gem_handle =
      (bo_get heap q).gem_handle ∧
    (bo_get (bo_upd heap b (fun x => { x with index := v })) q).gtt_offset =
      (bo_get heap q).gtt_offset ∧
    (bo_get (bo_upd heap b (fun x => { x with index := v })) q).kflags = (bo_get heap q).kflags ∧
    (bo_get (bo_upd heap b (fun x => { x with index := v })) q).size = (bo_get heap q).size ∧
    (bo_get (bo_upd heap b (fun x => { x with index := v })) q).refcount =
      (bo_get heap q).refcount := by
  rw [bo_get_upd]
  split
  · rename_i c
    rw [c.1]
    exact ⟨rfl, rfl, rfl, rfl, rfl⟩
  · exact ⟨rfl, rfl, rfl, rfl, rfl⟩

/-- C2: The cached index is only a hint.  In every reachable state, for every
buffer object `b` and every value `v` written into the cached index field of
`b` (stale, torn, `-1` or arbitrary): `add_exec_bo` and
`iris_batch_references` give what their variants without the fast path give,
and the returned index, the resulting batch (residency list, validation list,
aperture), all reference counts and the answer of `iris_batch_references` are
those obtained by the scan-only variants on the state where the field was not
overwritten. -/
theorem cached_index_is_only_a_hint (cfg : Config) (s : State) (b v : Nat)
    (h : Reachable cfg s) :
    add_exec_bo (poke_index s b v) b = add_exec_bo_scan_only (poke_index s b v) b ∧
    iris_batch_references (poke_index s b v) b =
      iris_batch_references_scan_only (poke_index s b v) b ∧
    (add_exec_bo (poke_index s b v) b).1 = (add_exec_bo_scan_only s b).1 ∧
    (add_exec_bo (poke_index s b v) b).2.batch = (add_exec_bo_scan_only s b).2.batch ∧
    (∀ p, (bo_get (add_exec_bo (poke_index s b v) b).2.heap p).refcount =
      (bo_get (add_exec_bo_scan_only s b).2.heap p).refcount) ∧
    iris_batch_references (poke_index s b v) b = iris_batch_references_scan_only s b := by
  have hi := (inv_reachable cfg s h).1
  have e1 : add_exec_bo (poke_index s b v) b = add_exec_bo_scan_only (poke_index s b v) b :=
    add_eq_scan _ _ hi.2.2.1
  have hp : ∀ q, (bo_get (poke_index s b v).heap q).gem_handle = (bo_get s.heap q).gem_handle ∧
      (bo_get (poke_index s b v).heap q).gtt_offset = (bo_get s.heap q).gtt_offset ∧
      (bo_get (poke_index s b v).heap q).kflags = (bo_get s.heap q).kflags ∧
      (bo_get (poke_index s b v).heap q).size = (bo_get s.heap q).size ∧
      (bo_get (poke_index s b v).heap q).refcount = (bo_get s.heap q).refcount :=
    fun q => bo_get_poke s.heap b v q
  have hl : (poke_index s b v).heap.length = s.heap.length := (poke_spec s b v).2.1
  refine ⟨e1, references_eq_scan _ _, ?_, ?_, ?_, ?_⟩
  · rw [e1]
    rcases scan_only_cases s b with ⟨k, k1, k2, k3, k4⟩ | ⟨m1, m2⟩
    · rw [k4]
      unfold add_exec_bo_scan_only
      show (match scan_exec_bos s.batch.exec_bos b s.batch.exec_count 0 with
        | some i => (i, poke_index s b v)
        | none => add_exec_bo_append (poke_index s b v) b).1 = k
      rw [scan_first _ _ _ _ k (Nat.zero_le _) (by omega) k2 (fun j _ hj => k3 j hj)]
    · rw [m2]
      rcases scan_only_cases (poke_index s b v) b with ⟨k, k1, k2, _⟩ | ⟨_, n2⟩
      · exact absurd k2 (m1 k k1)
      · rw [n2]
        exact (append_congr s (poke_index s b v) b rfl (hp b).1 (hp b).2.1 (hp b).2.2.1
          (hp b).2.2.2.1).1
  · rw [e1]
    rcases scan_only_cases s b with ⟨k, k1, k2, k3, k4⟩ | ⟨m1, m2⟩
    · rw [k4]
      unfold add_exec_bo_scan_only
      show (match scan_exec_bos s.batch.exec_bos b s.batch.exec_count 0 with
        | some i => (i, poke_index s b v)
        | none => add_exec_bo_append (poke_index s b v) b).2.batch = s.batch
      rw [scan_first _ _ _ _ k (Nat.zero_le _) (by omega) k2 (fun j _ hj => k3 j hj)]
      rfl
    · rw [m2]
      rcases scan_only_cases (poke_index s b v) b with ⟨k, k1, k2, _⟩ | ⟨_, n2⟩
      · exact absurd k2 (m1 k k1)
      · rw [n2]
        exact (append_congr s (poke_index s b v) b rfl (hp b).1 (hp b).2.1 (hp b).2.2.1
          (hp b).2.2.2.1).2
  · intro p
    rw [e1]
    rcases scan_only_cases s b with ⟨k, k1, k2, k3, k4⟩ | ⟨m1, m2⟩
    · rw [k4]
      unfold add_exec_bo_scan_only
      show (bo_get (match scan_exec_bos s.batch.exec_bos b s.batch.exec_count 0 with
        | some i => (i, poke_index s b v)
        | none => add_exec_bo_append (poke_index s b v) b).2.heap p).refcount = _
      rw [scan_first _ _ _ _ k (Nat.zero_le _) (by omega) k2 (fun j _ hj => k3 j hj)]
      exact (hp p).2.2.2.2
    · rw [m2]
      rcases scan_only_cases (poke_index s b v) b with ⟨k, k1, k2, _⟩ | ⟨_, n2⟩
      · exact absurd k2 (m1 k k1)
      · rw [n2, refcount_after_append (poke_index s b v) b p hi.1,
          refcount_after_append s b p hi.1, hl, (hp p).2.2.2.2]
  · rw [references_eq_scan]
    rfl

/-- Witness for C1 on the sample batch: object X is added twice. -/
theorem add_exec_bo_idempotent_witness :
    batch_wf sample_init.batch ∧
    (add_exec_bo (add_exec_bo sample_init 0).2 0).1 = (add_exec_bo sample_init 0).1 ∧
    (add_exec_bo (add_exec_bo sample_init 0).2 0).2 = (add_exec_bo sample_init 0).2 :=
  ⟨by unfold batch_wf; decide,
   (add_exec_bo_idempotent sample_init 0 (by unfold batch_wf; decide)).1,
   (add_exec_bo_idempotent sample_init 0 (by unfold batch_wf; decide)).2.1⟩

/-- Witness for C2 on the sample batch: the cached index of X is overwritten
with 0, the slot of the command buffer. -/
theorem cached_index_is_only_a_hint_witness :
    Reachable sample_cfg sample_init ∧
    add_exec_bo (poke_index sample_init 0 0) 0 =
      add_exec_bo_scan_only (poke_index sample_init 0 0) 0 ∧
    (add_exec_bo (poke_index sample_init 0 0) 0).1 = (add_exec_bo_scan_only sample_init 0).1 :=
  ⟨⟨sample_prior, 1, sample_init, [], rfl, rfl⟩,
   (cached_index_is_only_a_hint sample_cfg sample_init 0 0
      ⟨sample_prior, 1, sample_init, [], rfl, rfl⟩).1,
   (cached_index_is_only_a_hint sample_cfg sample_init 0 0
      ⟨sample_prior, 1, sample_init, [], rfl, rfl⟩).2.2.1⟩

/-! ## The validation list mirrors the residency list -/

theorem dump_ok (s : State) (hi : list_inv s.heap s.batch) : dump_validation_list s = true := by
  unfold dump_validation_list
  rw [List.all_eq_true]
  intro i hmem
  have hlt : i < s.batch.exec_count := List.mem_range.mp hmem
  obtain ⟨p, p1, _⟩ := hi.2.1 i hlt
  rw [p1]
  exact decide_eq_true (hi.2.2.2 i p hlt p1)

/-- C3: Index validity invariant.  In every reachable state, for every `i` in
`[0, exec_count)`, `exec_bos[i]` is an object and
`validation_list[i].handle == exec_bos[i]->gem_handle`; hence the assertion
of `dump_validation_list` holds, in the state itself and in the state in
which flush calls it (after `iris_finish_batch`). -/
theorem validation_handles_match (cfg : Config) (s : State) (h : Reachable cfg s) :
    (∀ i, i < s.batch.exec_count →
      ∃ p, s.batch.exec_bos.getD i none = some p ∧
        (s.batch.validation_list.getD i default).handle = (bo_get s.heap p).gem_handle) ∧
    dump_validation_list s = true ∧
    dump_validation_list (iris_finish_batch s) = true := by
  have hi := (inv_reachable cfg s h).1
  obtain ⟨f1, _, f3, f4, f5, f6, _⟩ := finish_spec s
  refine ⟨fun i hlt => ?_, dump_ok s hi,
    dump_ok _ (list_inv_of_eq (list_inv_heap_ext hi f1) f3 f4 f5 f6)⟩
  obtain ⟨p, p1, _⟩ := hi.2.1 i hlt
  exact ⟨p, p1, hi.2.2.2 i p hlt p1⟩

/-- Witness for C3: the sample batch after X and Y were added. -/
theorem validation_handles_match_witness :
    Reachable sample_cfg sample_xy ∧ dump_validation_list sample_xy = true :=
  ⟨⟨sample_prior, 1, sample_init, [.use_pinned_bo 0 false, .use_pinned_bo 1 true], rfl, rfl⟩,
   (validation_handles_match sample_cfg sample_xy
      ⟨sample_prior, 1, sample_init, [.use_pinned_bo 0 false, .use_pinned_bo 1 true], rfl, rfl⟩).2.1⟩

/-! ## Aperture accounting -/

theorem aperture_sum_congr (h h1 : List iris_bo) (bos bos1 : List (Option Nat)) (n : Nat)
    (hb : ∀ j, j < n → bos1.getD j none = bos.getD j none)
    (hs : ∀ j p, j < n → bos.getD j none = some p → (bo_get h1 p).size = (bo_get h p).size) :
    aperture_sum h1 bos1 n = aperture_sum h bos n := by
  induction n with
  | zero => rfl
  | succ m ih =>
    unfold aperture_sum
    rw [ih (fun j hj => hb j (by omega)) (fun j p hj => hs j p (by omega)), hb m (by omega)]
    cases hm : bos.getD m none with
    | none => rfl
    | some p =>
      show _ + (bo_get h1 p).size = _ + (bo_get h p).size
      rw [hs m p (by omega) hm]

theorem aperture_sum_succ (h : List iris_bo) (bos : List (Option Nat)) (n : Nat) :
    aperture_sum h bos (n + 1) =
      aperture_sum h bos n +
        (match bos.getD n none with
         | none => 0
         | some p => (bo_get h p).size) := rfl

theorem aperture_sum_ext (h h1 : List iris_bo) (b : iris_batch) (bos1 : List (Option Nat))
    (hi : list_inv h b) (hx : heap_ext h h1)
    (hb : ∀ j, j < b.exec_count → bos1.getD j none = b.exec_bos.getD j none) :
    aperture_sum h1 bos1 b.exec_count = aperture_sum h b.exec_bos b.exec_count := by
  refine aperture_sum_congr h h1 b.exec_bos bos1 b.exec_count hb (fun j p hj hp => ?_)
  obtain ⟨q, q1, q2⟩ := hi.2.1 j hj
  have e : q = p := by rw [q1] at hp; exact Option.some.inj hp
  subst e
  exact (hx.2 q q2).2.1

theorem acc_add (s : State) (b : Nat) (hi : list_inv s.heap s.batch) (hb : b < s.heap.length)
    (ha : s.batch.aperture_space =
      to_int32 (aperture_sum s.heap s.batch.exec_bos s.batch.exec_count)) :
    (add_exec_bo s b).2.batch.aperture_space =
      to_int32 (aperture_sum (add_exec_bo s b).2.heap (add_exec_bo s b).2.batch.exec_bos
        (add_exec_bo s b).2.batch.exec_count) := by
  rcases add_exec_bo_cases s b with ⟨i, _, _, h3⟩ | ⟨_, n2⟩
  · rw [h3]
    exact ha
  · rw [n2]
    obtain ⟨_, a2, _, a4, a5, _, _, a8, _⟩ := append_spec s b hi.1
    have hx := append_heap_ext s b hi.1
    have e : aperture_sum (add_exec_bo_append s b).2.heap (add_exec_bo_append s b).2.batch.exec_bos
        (add_exec_bo_append s b).2.batch.exec_count =
        aperture_sum s.heap s.batch.exec_bos s.batch.exec_count + (bo_get s.heap b).size := by
      rw [a2, aperture_sum_succ, a4, aperture_sum_ext s.heap _ s.batch _ hi hx a5]
      show _ + (bo_get (add_exec_bo_append s b).2.heap b).size = _
      rw [(hx.2 b hb).2.1]
    rw [a8, e, ha, to_int32_add, Nat.cast_add]

theorem acc_new_buffer (s s1 : State) (size : Nat) (hi : list_inv s.heap s.batch)
    (ha : s.batch.aperture_space =
      to_int32 (aperture_sum s.heap s.batch.exec_bos s.batch.exec_count))
    (hx : heap_ext s.heap s1.heap)
    (hc : s1.batch.exec_count = s.batch.exec_count + 1)
    (hn : s1.batch.exec_bos.getD s.batch.exec_count none = some s.heap.length)
    (ho : ∀ j, j < s.batch.exec_count →
      s1.batch.exec_bos.getD j none = s.batch.exec_bos.getD j none)
    (hp : s1.batch.aperture_space = to_int32 (s.batch.aperture_space + (size : Int)))
    (hs : (bo_get s1.heap s.heap.length).size = size) :
    s1.batch.aperture_space =
      to_int32 (aperture_sum s1.heap s1.batch.exec_bos s1.batch.exec_count) := by
  have e : aperture_sum s1.heap s1.batch.exec_bos s1.batch.exec_count =
      aperture_sum s.heap s.batch.exec_bos s.batch.exec_count + size := by
    rw [hc, aperture_sum_succ, hn, aperture_sum_ext s.heap _ s.batch _ hi hx ho]
    show _ + (bo_get s1.heap s.heap.length).size = _
    rw [hs]
  rw [hp, e, ha, to_int32_add, Nat.cast_add]

theorem acc_step (cfg : Config) (s s1 : State) (op : Op) (hi : Inv s)
    (ha : s.batch.aperture_space =
      to_int32 (aperture_sum s.heap s.batch.exec_bos s.batch.exec_count))
    (hf : op.is_flush = false) (h : step cfg s op = .ok s1) :
    s1.batch.aperture_space =
      to_int32 (aperture_sum s1.heap s1.batch.exec_bos s1.batch.exec_count) := by
  cases op with
  | use_pinned_bo b w =>
    obtain ⟨hb, _, u3, u4, u5, u6, _⟩ := use_pinned_spec s s1 b w hi.1 h
    rw [u3, u4, u5, u6]
    exact acc_add s b hi.1 hb ha
  | add_bo b =>
    dsimp only [step] at h
    split at h
    · rename_i hb
      have e := (Except.ok.inj h).symm
      subst e
      exact acc_add s b hi.1 hb ha
    · simp at h
  | chain =>
    obtain ⟨_, _, _, _, c5, c6, c7, c8, _, _, c11, _, _, c14⟩ := chain_spec cfg s s1 hi h
    exact acc_new_buffer s s1 _ hi.1 ha c5 c6 c7 c8 c11 c14
  | flush i o r w => simp [Op.is_flush] at hf
  | emit bytes =>
    have e := (Except.ok.inj h).symm
    subst e
    obtain ⟨x1, _, _⟩ := emit_spec s bytes
    show s.batch.aperture_space = to_int32 (aperture_sum _ s.batch.exec_bos s.batch.exec_count)
    rw [aperture_sum_ext s.heap _ s.batch _ hi.1 x1 (fun _ _ => rfl)]
    exact ha
  | poke_index b v =>
    have e := (Except.ok.inj h).symm
    subst e
    obtain ⟨x1, _, _⟩ := poke_spec s b v
    show s.batch.aperture_space = to_int32 (aperture_sum _ s.batch.exec_bos s.batch.exec_count)
    rw [aperture_sum_ext s.heap _ s.batch _ hi.1 x1 (fun _ _ => rfl)]
    exact ha

theorem acc_run (cfg : Config) (ops : List Op) :
    ∀ (s s1 : State), Inv s →
      s.batch.aperture_space =
        to_int32 (aperture_sum s.heap s.batch.exec_bos s.batch.exec_count) →
      (∀ op, op ∈ ops → op.is_flush = false) → run cfg s ops = .ok s1 →
      s1.batch.aperture_space =
        to_int32 (aperture_sum s1.heap s1.batch.exec_bos s1.batch.exec_count) := by
  induction ops with
  | nil =>
    intro s s1 _ ha _ h
    have e := (Except.ok.inj h).symm
    subst e
    exact ha
  | cons op ops ih =>
    intro s s1 hi ha hf h
    unfold run at h
    split at h
    · simp at h
    · rename_i s2 hs
      exact ih s2 s1 (inv_step cfg s s2 op hi hs)
        (acc_step cfg s s2 op hi ha (hf op (List.mem_cons_self _ _)) hs)
        (fun o ho => hf o (List.mem_cons_of_mem _ ho)) h

/-- C4, as stated, fails: `iris_init_batch` does not reset `aperture_space`.
On batch memory where the field still holds 4096, `iris_init_batch` and
`iris_use_pinned_bo(X)` return and leave the field at 28688, while the
resident objects (the command buffer and X) sum to 24592. -/
theorem aperture_space_not_reset_by_init :
    iris_init_batch sample_cfg stale_prior 1 = .ok stale_init ∧
    run sample_cfg stale_init [.use_pinned_bo 0 false] = .ok stale_run ∧
    stale_run.batch.aperture_space = 28688 ∧
    aperture_sum stale_run.heap stale_run.batch.exec_bos stale_run.batch.exec_count = 24592 ∧
    stale_run.batch.aperture_space ≠
      aperture_sum stale_run.heap stale_run.batch.exec_bos stale_run.batch.exec_count :=
  ⟨rfl, rfl, by decide, by decide, by decide⟩

/-- C4 (amended): Aperture accounting.  After `iris_init_batch` on batch
memory whose `aperture_space` is 0 (a zero-initialised batch), followed by
any operations none of which is a flush (`add_exec_bo` and
`iris_use_pinned_bo` calls among them), `aperture_space` equals the sum of
the sizes of the buffer objects `exec_bos[0..exec_count)`, as long as that
sum is below 2^31 and so fits the `int` field. -/
theorem aperture_accounting (cfg : Config) (s0 s1 s : State) (engine : Nat) (ops : List Op)
    (hz : s0.batch.aperture_space = 0)
    (hinit : iris_init_batch cfg s0 engine = .ok s1)
    (hops : ∀ op, op ∈ ops → op.is_flush = false)
    (hrun : run cfg s1 ops = .ok s)
    (hfit : aperture_sum s.heap s.batch.exec_bos s.batch.exec_count < 2147483648) :
    s.batch.aperture_space = aperture_sum s.heap s.batch.exec_bos s.batch.exec_count := by
  obtain ⟨i1, i2, i3, _, _, _, i7, _, _, _, i11⟩ := init_spec cfg s0 s1 engine hinit
  have h1 : s1.batch.aperture_space =
      to_int32 (aperture_sum s1.heap s1.batch.exec_bos s1.batch.exec_count) := by
    have e : aperture_sum s1.heap s1.batch.exec_bos s1.batch.exec_count =
        0 + (cfg.BATCH_SZ + BATCH_RESERVED) := by
      rw [i2]
      show aperture_sum s1.heap s1.batch.exec_bos 0 +
        (match s1.batch.exec_bos.getD 0 none with
         | none => 0
         | some p => (bo_get s1.heap p).size) = _
      rw [i3]
      show 0 + (bo_get s1.heap s0.heap.length).size = _
      rw [i11]
    rw [i7, hz, e]
    push_cast
    rfl
  rw [acc_run cfg ops s1 s i1 h1 hops hrun]
  exact to_int32_fits _ (by omega) (by omega)

/-- Witness for C4 (amended): the sample batch after X and Y were added; the
three resident objects sum to 32784 bytes. -/
theorem aperture_accounting_witness :
    sample_prior.batch.aperture_space = 0 ∧
    aperture_sum sample_xy.heap sample_xy.batch.exec_bos sample_xy.batch.exec_count = 32784 ∧
    sample_xy.batch.aperture_space =
      aperture_sum sample_xy.heap sample_xy.batch.exec_bos sample_xy.batch.exec_count :=
  ⟨rfl, by decide,
   aperture_accounting sample_cfg sample_prior sample_init sample_xy 1
     [.use_pinned_bo 0 false, .use_pinned_bo 1 true] rfl rfl (by decide) rfl (by decide)⟩

/-! ## Flush and chaining -/

theorem add_exec_bo_cursor (s : State) (b : Nat) :
    (add_exec_bo s b).2.batch.map = s.batch.map ∧
    (add_exec_bo s b).2.batch.map_next = s.batch.map_next := by
  rcases add_exec_bo_cases s b with ⟨i, _, _, h3⟩ | ⟨_, n2⟩
  · rw [h3]
    exact ⟨rfl, rfl⟩
  · rw [n2]
    exact ⟨(append_frame s b).2.2.1, (append_frame s b).2.2.2.1⟩

theorem create_batch_cursor (cfg : Config) (s : State) :
    iris_batch_bytes_used (create_batch cfg s).batch = 0 := by
  rw [create_batch_eq]
  unfold iris_batch_bytes_used
  rw [(add_exec_bo_cursor _ _).1, (add_exec_bo_cursor _ _).2]
  exact Nat.sub_self _

theorem reset_cursor (cfg : Config) (s0 s : State) (h : iris_batch_reset cfg s0 = .ok s) :
    iris_batch_bytes_used s.batch = 0 := by
  unfold iris_batch_reset at h
  dsimp only at h
  split at h
  · simp at h
  · split at h
    · rw [← Except.ok.inj h]
      exact create_batch_cursor _ _
    · simp at h

/-- C5: Zero-length flush.  On a batch with zero bytes used in the active
command buffer, in particular a freshly reset batch, `_iris_batch_flush_fence`
returns 0 whatever the fences and whatever the kernel would answer, and the
state it leaves is the state it found: no request reached the kernel
(`execbuf_calls`), the residency list, the cursor, the command buffer
objects and all reference counts are unchanged, and so is the caller's
output-fence slot. -/
theorem zero_length_flush (cfg : Config) (s : State) (in_fence_fd : Int)
    (out_fence_fd : Option Int) (ioctl_ret : Int) (ioctl_rsvd2 : Nat)
    (h : iris_batch_bytes_used s.batch = 0 ∨ ∃ s0, iris_batch_reset cfg s0 = .ok s) :
    _iris_batch_flush_fence cfg s in_fence_fd out_fence_fd ioctl_ret ioctl_rsvd2 =
      .ok (0, s, out_fence_fd) := by
  have hz : iris_batch_bytes_used s.batch = 0 := by
    rcases h with h | ⟨s0, h⟩
    · exact h
    · exact reset_cursor cfg s0 s h
  unfold _iris_batch_flush_fence
  rw [if_pos hz]

/-- Witness for C5: the sample batch right after `iris_init_batch`, flushed
with an output fence requested and a kernel that would fail. -/
theorem zero_length_flush_witness :
    iris_batch_bytes_used sample_init.batch = 0 ∧
    _iris_batch_flush_fence sample_cfg sample_init 5 (some 7) (-1) 0 =
      .ok (0, sample_init, some 7) :=
  ⟨by decide, zero_length_flush sample_cfg sample_init 5 (some 7) (-1) 0 (Or.inl (by decide))⟩

/-- C6 fails on the code: a chained batch whose secondary buffer is still
empty is not flushed.  After eight command bytes and
`iris_chain_to_new_batch` the primary buffer holds 16 committed bytes and the
batch is chained (`batch->bo != exec_bos[0]`), yet `_iris_batch_flush_fence`
returns 0 at its `iris_batch_bytes_used(batch) == 0` test: no request reaches
the kernel and the batch is left as it was, still chained. -/
theorem flush_skips_chained_batch :
    run sample_cfg sample_init [.emit [1, 0, 0, 0, 2, 0, 0, 0], .chain] = .ok sample_chained ∧
    sample_chained.batch.primary_batch_size = 16 ∧
    sample_chained.batch.bo ≠ sample_chained.batch.exec_bos.getD 0 none ∧
    _iris_batch_flush_fence sample_cfg sample_chained (-1) none 0 0 =
      .ok (0, sample_chained, none) ∧
    sample_chained.execbuf_calls = [] :=
  ⟨rfl, by decide, by decide, rfl, by decide⟩

theorem chained_step (cfg : Config) (s s1 : State) (op : Op) (hi : Inv s)
    (hc : s.batch.bo ≠ s.batch.exec_bos.getD 0 none) (hf : op.is_flush = false)
    (h : step cfg s op = .ok s1) : s1.batch.bo ≠ s1.batch.exec_bos.getD 0 none := by
  cases op with
  | use_pinned_bo b w =>
    obtain ⟨hb, _, _, _, u5, _, u7, _⟩ := use_pinned_spec s s1 b w hi.1 h
    obtain ⟨_, _, _, _, k5, _⟩ := add_exec_bo_keeps s b hi.1 hb
    rw [u7, u5, k5 0 (by have := hi.2.1; omega)]
    exact hc
  | add_bo b =>
    dsimp only [step] at h
    split at h
    · rename_i hb
      have e := (Except.ok.inj h).symm
      subst e
      obtain ⟨_, _, _, _, k5, _, _, k8, _⟩ := add_exec_bo_keeps s b hi.1 hb
      rw [k8, k5 0 (by have := hi.2.1; omega)]
      exact hc
    · simp at h
  | chain => exact absurd (chain_spec cfg s s1 hi h).2.1 hc
  | flush i o r w => simp [Op.is_flush] at hf
  | emit bytes =>
    have e := (Except.ok.inj h).symm
    subst e
    exact hc
  | poke_index b v =>
    have e := (Except.ok.inj h).symm
    subst e
    exact hc

theorem chained_run (cfg : Config) (ops : List Op) :
    ∀ (s s1 : State), Inv s → s.batch.bo ≠ s.batch.exec_bos.getD 0 none →
      (∀ op, op ∈ ops → op.is_flush = false) → run cfg s ops = .ok s1 →
      s1.batch.bo ≠ s1.batch.exec_bos.getD 0 none := by
  induction ops with
  | nil =>
    intro s s1 _ hc _ h
    have e := (Except.ok.inj h).symm
    subst e
    exact hc
  | cons op ops ih =>
    intro s s1 hi hc hf h
    unfold run at h
    split at h
    · simp at h
    · rename_i s2 hs
      exact ih s2 s1 (inv_step cfg s s2 op hi hs)
        (chained_step cfg s s2 op hi hc (hf op (List.mem_cons_self _ _)) hs)
        (fun o ho => hf o (List.mem_cons_of_mem _ ho)) h

/-- C7: Chaining bounds.  In every reachable state, after an
`iris_chain_to_new_batch` that returned and any operations that are not a
flush, a second `iris_chain_to_new_batch` fails the assertion
`batch->bo == exec_bos[0]`, and it fails in the very state it was called in:
no byte written, cursor, `primary_batch_size` and residency list
untouched. -/
theorem second_chain_asserts (cfg : Config) (s s1 s2 : State) (ops : List Op)
    (hr : Reachable cfg s)
    (h1 : iris_chain_to_new_batch cfg s = .ok s1)
    (hops : ∀ op, op ∈ ops → op.is_flush = false)
    (h2 : run cfg s1 ops = .ok s2) :
    iris_chain_to_new_batch cfg s2 = .error (Fault.assertion, s2) := by
  have hi := inv_reachable cfg s hr
  obtain ⟨c1, _, c3, _, _, _, _, c8, _⟩ := chain_spec cfg s s1 hi h1
  have hc1 : s1.batch.bo ≠ s1.batch.exec_bos.getD 0 none := by
    rw [c3, c8 0 (by have := hi.2.1; omega)]
    obtain ⟨p, p1, p2⟩ := hi.1.2.1 0 (by have := hi.2.1; omega)
    rw [p1]
    intro e
    have : s.heap.length = p := Option.some.inj e
    omega
  have hc2 := chained_run cfg ops s1 s2 c1 hc1 hops h2
  unfold iris_chain_to_new_batch
  rw [if_pos hc2]

/-- Witness for C7: the sample batch is chained, X is added, and the second
chaining is attempted. -/
theorem second_chain_asserts_witness :
    Reachable sample_cfg sample_init ∧
    iris_chain_to_new_batch sample_cfg sample_init =
      .ok (result_state (iris_chain_to_new_batch sample_cfg sample_init)) ∧
    iris_chain_to_new_batch sample_cfg
        (result_state (run sample_cfg (result_state (iris_chain_to_new_batch sample_cfg sample_init))
          [.use_pinned_bo 0 false])) =
      .error (Fault.assertion,
        result_state (run sample_cfg (result_state (iris_chain_to_new_batch sample_cfg sample_init))
          [.use_pinned_bo 0 false])) :=
  ⟨⟨sample_prior, 1, sample_init, [], rfl, rfl⟩, rfl,
   second_chain_asserts sample_cfg sample_init _ _ [.use_pinned_bo 0 false]
     ⟨sample_prior, 1, sample_init, [], rfl, rfl⟩ rfl (by decide) rfl⟩

/-! ## Capacity growth -/

/-- C8: Capacity growth.  When `exec_count == exec_array_size`, `add_exec_bo`
of an object not yet in the list returns the old `exec_count`, doubles
`exec_array_size`, leaves `exec_bos[i]` and `validation_list[i]` unchanged for
every `i` below the old `exec_count`, and stores the object and its entry at
the old `exec_count`; with the initial capacity of 100 the entries `[0,100)`
are unchanged and the new entry is at index 100, in arrays of 200. -/
theorem capacity_growth (s : State) (b : Nat) (hwf : batch_wf s.batch)
    (hfull : s.batch.exec_count = s.batch.exec_array_size)
    (hnew : ¬ resident s.batch b) :
    (add_exec_bo s b).1 = s.batch.exec_count ∧
    (add_exec_bo s b).2.batch.exec_array_size = 2 * s.batch.exec_array_size ∧
    (add_exec_bo s b).2.batch.exec_bos.length = 2 * s.batch.exec_array_size ∧
    (add_exec_bo s b).2.batch.validation_list.length = 2 * s.batch.exec_array_size ∧
    (add_exec_bo s b).2.batch.exec_count = s.batch.exec_count + 1 ∧
    (∀ i, i < s.batch.exec_count →
      (add_exec_bo s b).2.batch.exec_bos.getD i none = s.batch.exec_bos.getD i none ∧
      (add_exec_bo s b).2.batch.validation_list.getD i default =
        s.batch.validation_list.getD i default) ∧
    (add_exec_bo s b).2.batch.exec_bos.getD s.batch.exec_count none = some b ∧
    (add_exec_bo s b).2.batch.validation_list.getD s.batch.exec_count default =
      { handle := (bo_get s.heap b).gem_handle
        offset := (bo_get s.heap b).gtt_offset
        flags := (bo_get s.heap b).kflags } ∧
    (s.batch.exec_array_size = 100 →
      (add_exec_bo s b).1 = 100 ∧
      (add_exec_bo s b).2.batch.exec_array_size = 200 ∧
      (∀ i, i < 100 →
        (add_exec_bo s b).2.batch.exec_bos.getD i none = s.batch.exec_bos.getD i none ∧
        (add_exec_bo s b).2.batch.validation_list.getD i default =
          s.batch.validation_list.getD i default) ∧
      (add_exec_bo s b).2.batch.exec_bos.getD 100 none = some b) := by
  have happ : add_exec_bo s b = add_exec_bo_append s b := by
    rcases add_exec_bo_cases s b with ⟨i, h1, h2, _⟩ | ⟨_, n2⟩
    · exact absurd ⟨i, h1, h2⟩ hnew
    · exact n2
  rw [happ]
  obtain ⟨a1, a2, a3, a4, a5, a6, a7, _, _, a10⟩ := append_spec s b hwf
  rw [if_pos hfull] at a10
  have l1 : (add_exec_bo_append s b).2.batch.exec_bos.length = 2 * s.batch.exec_array_size := by
    rw [a3.2.2.1, a10]
    omega
  have l2 : (add_exec_bo_append s b).2.batch.validation_list.length =
      2 * s.batch.exec_array_size := by
    rw [a3.2.2.2, a10]
    omega
  refine ⟨a1, by rw [a10]; omega, l1, l2, a2, fun i hlt => ⟨a5 i hlt, a7 i hlt⟩, a4, a6,
    fun h100 => ⟨by rw [a1, hfull, h100], by rw [a10, h100], fun i hlt => ?_, ?_⟩⟩
  · have hlt1 : i < s.batch.exec_count := by omega
    exact ⟨a5 i hlt1, a7 i hlt1⟩
  · have e : s.batch.exec_count = 100 := by omega
    rw [← e]
    exact a4

set_option maxRecDepth 100000 in
/-- Witness for C8: the 101st resident of a batch of initial capacity 100. -/
theorem capacity_growth_witness :
    batch_wf sample_full.batch ∧
    sample_full.batch.exec_count = sample_full.batch.exec_array_size ∧
    ¬ resident sample_full.batch 99 ∧
    sample_full.batch.exec_array_size = 100 ∧
    (add_exec_bo sample_full 99).1 = 100 ∧
    (add_exec_bo sample_full 99).2.batch.exec_array_size = 200 ∧
    (∀ i, i < 100 →
      (add_exec_bo sample_full 99).2.batch.exec_bos.getD i none =
        sample_full.batch.exec_bos.getD i none ∧
      (add_exec_bo sample_full 99).2.batch.validation_list.getD i default =
        sample_full.batch.validation_list.getD i default) ∧
    (add_exec_bo sample_full 99).2.batch.exec_bos.getD 100 none = some 99 := by
  have f : batch_wf sample_full.batch ∧
      sample_full.batch.exec_count = sample_full.batch.exec_array_size ∧
      (∀ j, j < 100 → sample_full.batch.exec_bos.getD j none ≠ some 99) ∧
      sample_full.batch.exec_count = 100 ∧
      sample_full.batch.exec_array_size = 100 := by
    unfold batch_wf
    decide
  have hnew : ¬ resident sample_full.batch 99 := by
    rintro ⟨i, h1, h2⟩
    rw [f.2.2.2.1] at h1
    exact f.2.2.1 i h1 h2
  exact ⟨f.1, f.2.1, hnew, f.2.2.2.2,
    (capacity_growth sample_full 99 f.1 f.2.1 hnew).2.2.2.2.2.2.2.2 f.2.2.2.2⟩

/-! ## A buffer object shared by two batches -/

/-- C9: Shared-resource renumbering.  Two batches `A` and `B` work on the
same heap, each with its own arrays.  Given a buffer object `b` resident at
index `i` of `A` (index 3 in the specification's scenario), adding `b` to a batch `B` that does not
contain it yet gives `b` the index `B.exec_count` in `B` and writes that
number into the cached index of `b`; the call has no access to the record of
`A`, whose `exec_bos`, `validation_list` and `exec_count` are therefore as
before, and on the heap the call leaves, `add_exec_bo(A, b)` still returns
`i` without appending or changing anything, and `iris_batch_references(A, b)`
is true. -/
theorem shared_bo_renumbering (heap : List iris_bo) (A B : iris_batch) (b i : Nat)
    (hb : b < heap.length)
    (hi : i < A.exec_count) (hA : A.exec_bos.getD i none = some b)
    (hdup : ∀ j k, j < A.exec_count → k < A.exec_count →
      A.exec_bos.getD j none = A.exec_bos.getD k none → j = k)
    (hB : batch_wf B) (hnew : ¬ resident B b) :
    (add_exec_bo (batch_view heap B) b).1 = B.exec_count ∧
    (add_exec_bo (batch_view heap B) b).2.batch.exec_count = B.exec_count + 1 ∧
    (add_exec_bo (batch_view heap B) b).2.batch.exec_bos.getD B.exec_count none = some b ∧
    (bo_get (add_exec_bo (batch_view heap B) b).2.heap b).index = B.exec_count ∧
    add_exec_bo (batch_view (add_exec_bo (batch_view heap B) b).2.heap A) b =
      (i, batch_view (add_exec_bo (batch_view heap B) b).2.heap A) ∧
    iris_batch_references (batch_view (add_exec_bo (batch_view heap B) b).2.heap A) b = true := by
  have happ : add_exec_bo (batch_view heap B) b = add_exec_bo_append (batch_view heap B) b := by
    rcases add_exec_bo_cases (batch_view heap B) b with ⟨k, h1, h2, _⟩ | ⟨_, n2⟩
    · exact absurd ⟨k, h1, h2⟩ hnew
    · exact n2
  rw [happ]
  obtain ⟨a1, a2, _, a4, _, _, _, _, a9, _⟩ := append_spec (batch_view heap B) b hB
  have hu := add_exec_bo_unique (batch_view (add_exec_bo_append (batch_view heap B) b).2.heap A)
    b i hi hA (fun j hj hjb => hdup j i hj hi (Eq.trans hjb hA.symm))
  refine ⟨a1, a2, a4, ?_, hu, ?_⟩
  · rw [a9, bo_get_upd_eq _ _ _ (by
      show b < (iris_bo_reference heap b).length
      unfold iris_bo_reference
      rw [bo_upd_length]
      exact hb)]
    rfl
  · rw [references_eq_scan]
    unfold iris_batch_references_scan_only
    cases hs : scan_exec_bos A.exec_bos b A.exec_count 0 with
    | none => exact absurd hA (scan_none _ _ _ _ hs i (Nat.zero_le _) (by omega))
    | some k =>
      show (scan_exec_bos A.exec_bos b A.exec_count 0).isSome = true
      rw [hs]
      rfl

/-- Witness for C9: Z is at index 3 of the first sample batch and is then
added to a second batch, where it gets index 1 (after the second batch's own
command buffer). -/
theorem shared_bo_renumbering_witness :
    sample_xyz.batch.exec_bos.getD 3 none = some 2 ∧
    ¬ resident sample_second.batch 2 ∧
    (add_exec_bo (batch_view sample_second.heap sample_second.batch) 2).1 = 1 ∧
    (bo_get (add_exec_bo (batch_view sample_second.heap sample_second.batch) 2).2.heap 2).index
      = 1 ∧
    add_exec_bo
      (batch_view (add_exec_bo (batch_view sample_second.heap sample_second.batch) 2).2.heap
        sample_xyz.batch) 2 =
      (3, batch_view (add_exec_bo (batch_view sample_second.heap sample_second.batch) 2).2.heap
        sample_xyz.batch) := by
  have f : sample_xyz.batch.exec_bos.getD 3 none = some 2 ∧
      sample_second.batch.exec_count = 1 ∧
      (∀ j, j < 1 → sample_second.batch.exec_bos.getD j none ≠ some 2) ∧
      (2 : Nat) < sample_second.heap.length ∧ 3 < sample_xyz.batch.exec_count ∧
      (∀ j, j < sample_xyz.batch.exec_count → ∀ k, k < sample_xyz.batch.exec_count →
        sample_xyz.batch.exec_bos.getD j none = sample_xyz.batch.exec_bos.getD k none → j = k) ∧
      batch_wf sample_second.batch := by
    unfold batch_wf
    decide
  have hnew : ¬ resident sample_second.batch 2 := by
    rintro ⟨j, h1, h2⟩
    rw [f.2.1] at h1
    exact f.2.2.1 j h1 h2
  have t := shared_bo_renumbering sample_second.heap sample_xyz.batch sample_second.batch 2 3
    f.2.2.2.1 f.2.2.2.2.1 f.1 (fun j k hj hk => f.2.2.2.2.2.1 j hj k hk) f.2.2.2.2.2.2 hnew
  rw [f.2.1] at t
  exact ⟨f.1, hnew, t.1, t.2.2.2.1, t.2.2.2.2.1⟩

/-! ## End to end: the shape of the list -/

theorem or_and_self_bit (k m : Nat) : (k ||| m) &&& m = m := by
  apply Nat.eq_of_testBit_eq
  intro i
  rw [Nat.testBit_and, Nat.testBit_or]
  cases k.testBit i <;> cases m.testBit i <;> rfl

/-- `iris_use_pinned_bo` on a pinned object that is not in the list yet. -/
theorem use_pinned_new (s : State) (b : Nat) (writable : Bool) (hwf : batch_wf s.batch)
    (hp : ¬ ((bo_get s.heap b).kflags &&& EXEC_OBJECT_PINNED = 0))
    (hnew : ∀ j, j < s.batch.exec_count → s.batch.exec_bos.getD j none ≠ some b) :
    ∃ s1, iris_use_pinned_bo s b writable = .ok s1 ∧
      s1.batch.exec_count = s.batch.exec_count + 1 ∧
      batch_wf s1.batch ∧
      s1.batch.exec_bos.getD s.batch.exec_count none = some b ∧
      (∀ j, j < s.batch.exec_count →
        s1.batch.exec_bos.getD j none = s.batch.exec_bos.getD j none ∧
        s1.batch.validation_list.getD j default = s.batch.validation_list.getD j default) ∧
      (s1.batch.validation_list.getD s.batch.exec_count default).flags =
        (if writable then (bo_get s.heap b).kflags ||| EXEC_OBJECT_WRITE
         else (bo_get s.heap b).kflags) ∧
      (s1.batch.validation_list.getD s.batch.exec_count default).handle =
        (bo_get s.heap b).gem_handle ∧
      heap_ext s.heap s1.heap ∧ s1.heap.length = s.heap.length ∧
      s1.batch.bo = s.batch.bo := by
  have happ : add_exec_bo s b = add_exec_bo_append s b := by
    rcases add_exec_bo_cases s b with ⟨k, h1, h2, _⟩ | ⟨_, n2⟩
    · exact absurd h2 (hnew k h1)
    · exact n2
  obtain ⟨a1, a2, a3, a4, a5, a6, a7, _, a9, _⟩ := append_spec s b hwf
  have hx := append_heap_ext s b hwf
  have hlen : (add_exec_bo_append s b).2.heap.length = s.heap.length := by
    rw [a9]
    simp [bo_upd_length, iris_bo_reference]
  have hbo := (append_frame s b).1
  have hlt : s.batch.exec_count < (add_exec_bo_append s b).2.batch.validation_list.length := by
    rw [a3.2.2.2]
    have := a3.2.1
    omega
  unfold iris_use_pinned_bo
  rw [if_neg hp, happ]
  dsimp only
  cases writable with
  | false =>
    refine ⟨_, rfl, a2, a3, a4, fun j hj => ⟨a5 j hj, a7 j hj⟩, ?_, ?_, hx, hlen, hbo⟩
    · rw [a6]
      rfl
    · rw [a6]
  | true =>
    rw [if_pos rfl, a1]
    refine ⟨_, rfl, a2, ⟨a3.1, a3.2.1, a3.2.2.1, ?_⟩, a4, fun j hj => ⟨a5 j hj, ?_⟩, ?_, ?_, hx,
      hlen, hbo⟩
    · show (List.set _ _ _).length = _
      rw [List.length_set]
      exact a3.2.2.2
    · show (List.set _ _ _).getD j default = _
      rw [getD_set_ne _ _ _ _ _ (by omega)]
      exact a7 j hj
    · show (List.getD (List.set _ _ _) s.batch.exec_count
        (default : drm_i915_gem_exec_object2)).flags = _
      rw [getD_set_eq _ _ _ _ hlt, a6]
      rfl
    · show (List.getD (List.set _ _ _) s.batch.exec_count
        (default : drm_i915_gem_exec_object2)).handle = _
      rw [getD_set_eq _ _ _ _ hlt, a6]

/-- C10: End-to-end, list shape.  After `iris_init_batch`, for two distinct
pinned buffer objects X and Y (of any size, 4096 and 8192 in the scenario),
`iris_use_pinned_bo(X, false)` and `iris_use_pinned_bo(Y, true)` return and
leave `exec_count == 3`, `exec_bos` equal to [command buffer, X, Y] in that
order, the entry of Y with `EXEC_OBJECT_WRITE` set, and the flags of the entry
of X equal to the `kflags` of X. -/
theorem end_to_end_list_shape (cfg : Config) (s0 s1 : State) (engine X Y : Nat)
    (hinit : iris_init_batch cfg s0 engine = .ok s1)
    (hX : X < s0.heap.length) (hY : Y < s0.heap.length) (hXY : X ≠ Y)
    (hpX : (bo_get s0.heap X).kflags &&& EXEC_OBJECT_PINNED ≠ 0)
    (hpY : (bo_get s0.heap Y).kflags &&& EXEC_OBJECT_PINNED ≠ 0) :
    ∃ s2 s3, iris_use_pinned_bo s1 X false = .ok s2 ∧
      iris_use_pinned_bo s2 Y true = .ok s3 ∧
      s3.batch.exec_count = 3 ∧
      s3.batch.exec_bos.getD 0 none = s3.batch.bo ∧
      s3.batch.bo = some s0.heap.length ∧
      s3.batch.exec_bos.getD 1 none = some X ∧
      s3.batch.exec_bos.getD 2 none = some Y ∧
      (s3.batch.validation_list.getD 2 default).flags &&& EXEC_OBJECT_WRITE =
        EXEC_OBJECT_WRITE ∧
      (s3.batch.validation_list.getD 1 default).flags = (bo_get s3.heap X).kflags ∧
      (bo_get s3.heap X).kflags = (bo_get s0.heap X).kflags := by
  obtain ⟨i1, i2, i3, i4, i5, i6, _⟩ := init_spec cfg s0 s1 engine hinit
  have kX1 : (bo_get s1.heap X).kflags = (bo_get s0.heap X).kflags := (i6.2 X hX).2.2.1
  have n1 : ∀ j, j < s1.batch.exec_count → s1.batch.exec_bos.getD j none ≠ some X := by
    intro j hj e
    have j0 : j = 0 := by omega
    subst j0
    rw [i3] at e
    have : s0.heap.length = X := Option.some.inj e
    omega
  obtain ⟨s2, u1, u2, u3, u4, u5, u6, _, u8, u9, u10⟩ :=
    use_pinned_new s1 X false i1.1.1 (by rw [kX1]; exact hpX) n1
  rw [i2] at u2 u4 u5 u6
  have hY1 : Y < s1.heap.length := by omega
  have hX1 : X < s1.heap.length := by omega
  have kY2 : (bo_get s2.heap Y).kflags = (bo_get s0.heap Y).kflags := by
    rw [(u8.2 Y hY1).2.2.1, (i6.2 Y hY).2.2.1]
  have n2 : ∀ j, j < s2.batch.exec_count → s2.batch.exec_bos.getD j none ≠ some Y := by
    intro j hj e
    rw [u2] at hj
    by_cases j0 : j = 0
    · subst j0
      rw [(u5 0 (by omega)).1, i3] at e
      have : s0.heap.length = Y := Option.some.inj e
      omega
    · have j1 : j = 1 := by omega
      subst j1
      rw [u4] at e
      exact hXY (Option.some.inj e)
  obtain ⟨s3, v1, v2, _, v4, v5, v6, _, v8, v9, v10⟩ :=
    use_pinned_new s2 Y true u3 (by rw [kY2]; exact hpY) n2
  rw [u2] at v2 v4 v5 v6
  have kX3 : (bo_get s3.heap X).kflags = (bo_get s0.heap X).kflags := by
    rw [(v8.2 X (by omega)).2.2.1, (u8.2 X hX1).2.2.1, kX1]
  refine ⟨s2, s3, u1, v1, v2, ?_, by rw [v10, u10, i4], ?_, v4, ?_, ?_, kX3⟩
  · rw [(v5 0 (by omega)).1, (u5 0 (by omega)).1, i3, v10, u10, i4]
  · rw [(v5 1 (by omega)).1, u4]
  · rw [v6, if_pos rfl]
    exact or_and_self_bit _ _
  · rw [(v5 1 (by omega)).2, u6, kX3, kX1]
    rfl

/-- Witness for C10: X of 4096 bytes and Y of 8192 bytes on the sample
batch. -/
theorem end_to_end_list_shape_witness :
    (bo_get sample_prior.heap 0).size = 4096 ∧ (bo_get sample_prior.heap 1).size = 8192 ∧
    ∃ s2 s3, iris_use_pinned_bo sample_init 0 false = .ok s2 ∧
      iris_use_pinned_bo s2 1 true = .ok s3 ∧
      s3.batch.exec_count = 3 ∧
      s3.batch.exec_bos.getD 0 none = s3.batch.bo ∧
      s3.batch.bo = some sample_prior.heap.length ∧
      s3.batch.exec_bos.getD 1 none = some 0 ∧
      s3.batch.exec_bos.getD 2 none = some 1 ∧
      (s3.batch.validation_list.getD 2 default).flags &&& EXEC_OBJECT_WRITE =
        EXEC_OBJECT_WRITE ∧
      (s3.batch.validation_list.getD 1 default).flags = (bo_get s3.heap 0).kflags ∧
      (bo_get s3.heap 0).kflags = (bo_get sample_prior.heap 0).kflags :=
  ⟨by decide, by decide,
   end_to_end_list_shape sample_cfg sample_prior sample_init 1 0 1 rfl (by decide) (by decide)
     (by decide) (by decide) (by decide)⟩

/-! ## What reaches the kernel -/

theorem submit_eq (s : State) (in_fence_fd : Int) (out_fence_fd : Option Int)
    (ioctl_ret : Int) (ioctl_rsvd2 : Nat) :
    submit_batch s in_fence_fd out_fence_fd ioctl_ret ioctl_rsvd2 =
      if ioctl_ret ≠ 0 then
        .error (Fault.abort,
          { s with execbuf_calls := spec_request s.batch in_fence_fd out_fence_fd :: s.execbuf_calls })
      else
        .ok (ioctl_ret, submit_done s in_fence_fd out_fence_fd,
          (out_fence_fd.map (fun _ => (-1 : Int))).map
            (fun _ => to_int32 ((ioctl_rsvd2 / 4294967296 : Nat) : Int))) := by
  unfold submit_batch submit_done spec_request
  by_cases h1 : in_fence_fd = -1 <;> by_cases h2 : out_fence_fd = none <;>
    by_cases h3 : ioctl_ret = 0 <;> simp [h1, h2, h3]

theorem reset_eq (cfg : Config) (s : State) :
    iris_batch_reset cfg s =
      match (create_batch cfg (reset_prepare s)).batch.bo with
      | none => .error (Fault.bad_pointer, create_batch cfg (reset_prepare s))
      | some p =>
        if (bo_get (create_batch cfg (reset_prepare s)).heap p).index = 0 then
          .ok (create_batch cfg (reset_prepare s))
        else .error (Fault.assertion, create_batch cfg (reset_prepare s)) := rfl

theorem chain_eq (cfg : Config) (s : State) :
    iris_chain_to_new_batch cfg s =
      if s.batch.bo ≠ s.batch.exec_bos.getD 0 none then .error (Fault.assertion, s)
      else
        match (create_batch cfg (chain_prepare s)).batch.bo with
        | none =>
          .error (Fault.bad_pointer,
            { create_batch cfg (chain_prepare s) with
                heap := store32 (create_batch cfg (chain_prepare s)).heap s.batch.map_next
                  ((0x31 <<< 23) ||| (1 <<< 8) ||| (3 - 2)) })
        | some p =>
          .ok { create_batch cfg (chain_prepare s) with
                heap := store64
                  (store32 (create_batch cfg (chain_prepare s)).heap s.batch.map_next
                    ((0x31 <<< 23) ||| (1 <<< 8) ||| (3 - 2)))
                  { s.batch.map_next with off := s.batch.map_next.off + 4 }
                  (bo_get (store32 (create_batch cfg (chain_prepare s)).heap s.batch.map_next
                    ((0x31 <<< 23) ||| (1 <<< 8) ||| (3 - 2))) p).gtt_offset } := rfl

theorem flush_eq (cfg : Config) (s : State) (in_fence_fd : Int) (out_fence_fd : Option Int)
    (ioctl_ret : Int) (ioctl_rsvd2 : Nat) (hz : iris_batch_bytes_used s.batch ≠ 0)
    (hd : dump_validation_list (iris_finish_batch s) = true) :
    _iris_batch_flush_fence cfg s in_fence_fd out_fence_fd ioctl_ret ioctl_rsvd2 =
      match submit_batch (iris_finish_batch s) in_fence_fd out_fence_fd ioctl_ret ioctl_rsvd2 with
      | .error e => .error e
      | .ok (_, s2, slot) =>
        match iris_batch_reset cfg (flush_cleanup s2) with
        | .error e => .error e
        | .ok s4 => .ok (0, s4, slot) := by
  unfold _iris_batch_flush_fence
  rw [if_neg hz]
  dsimp only
  rw [hd]
  simp only [Bool.not_true, Bool.and_false, Bool.false_eq_true, if_false]
  rfl

theorem reset_prepare_spec (s : State) :
    heap_ext s.heap (reset_prepare s).heap ∧
    (reset_prepare s).heap.length = s.heap.length ∧
    (reset_prepare s).heap = iris_bo_unreference s.heap s.batch.last_bo ∧
    (reset_prepare s).batch.exec_count = s.batch.exec_count ∧
    (reset_prepare s).batch.exec_bos = s.batch.exec_bos ∧
    (reset_prepare s).batch.validation_list = s.batch.validation_list ∧
    (reset_prepare s).batch.exec_array_size = s.batch.exec_array_size ∧
    (reset_prepare s).batch.last_bo = s.batch.bo ∧
    (reset_prepare s).batch.engine = s.batch.engine ∧
    (reset_prepare s).batch.hw_ctx_id = s.batch.hw_ctx_id ∧
    (reset_prepare s).execbuf_calls = s.execbuf_calls := by
  unfold reset_prepare
  cases hl : s.batch.last_bo with
  | none => exact ⟨heap_ext_refl _, rfl, rfl, rfl, rfl, rfl, rfl, rfl, rfl, rfl, rfl⟩
  | some l =>
    dsimp only
    refine ⟨heap_ext_unreference _ _, ?_, rfl, rfl, rfl, rfl, rfl, rfl, rfl, rfl, rfl⟩
    simp [iris_bo_unreference, bo_upd_length]

theorem list_inv_reset_prepare (s : State) (hi : list_inv s.heap s.batch) :
    list_inv (reset_prepare s).heap (reset_prepare s).batch := by
  obtain ⟨p1, _, _, p4, p5, p6, p7, _⟩ := reset_prepare_spec s
  exact list_inv_of_eq (list_inv_heap_ext hi p1) p4 p5 p6 p7

theorem reset_returns (cfg : Config) (s : State) (hi : list_inv s.heap s.batch)
    (h0 : s.batch.exec_count = 0) :
    iris_batch_reset cfg s = .ok (create_batch cfg (reset_prepare s)) := by
  obtain ⟨c1, _, _, _, _, _, _, _, _, _, c11, _⟩ :=
    create_batch_spec cfg (reset_prepare s) (list_inv_reset_prepare s hi)
  rw [reset_eq, c1]
  dsimp only
  rw [c11, (reset_prepare_spec s).2.2.2.1, h0, if_pos rfl]

theorem add_exec_bo_frame (s : State) (b : Nat) :
    (add_exec_bo s b).2.batch.bo = s.batch.bo ∧
    (add_exec_bo s b).2.batch.last_bo = s.batch.last_bo ∧
    (add_exec_bo s b).2.batch.map = s.batch.map ∧
    (add_exec_bo s b).2.batch.map_next = s.batch.map_next ∧
    (add_exec_bo s b).2.batch.primary_batch_size = s.batch.primary_batch_size ∧
    (add_exec_bo s b).2.batch.engine = s.batch.engine ∧
    (add_exec_bo s b).2.batch.hw_ctx_id = s.batch.hw_ctx_id ∧
    (add_exec_bo s b).2.execbuf_calls = s.execbuf_calls := by
  rcases add_exec_bo_cases s b with ⟨i, _, _, h3⟩ | ⟨_, n2⟩
  · rw [h3]
    exact ⟨rfl, rfl, rfl, rfl, rfl, rfl, rfl, rfl⟩
  · rw [n2]
    exact append_frame s b

theorem use_pinned_frame (s s1 : State) (b : Nat) (writable : Bool)
    (h : iris_use_pinned_bo s b writable = .ok s1) :
    s1.batch.bo = s.batch.bo ∧
    s1.batch.last_bo = s.batch.last_bo ∧
    s1.batch.map = s.batch.map ∧
    s1.batch.map_next = s.batch.map_next ∧
    s1.batch.primary_batch_size = s.batch.primary_batch_size ∧
    s1.batch.engine = s.batch.engine ∧
    s1.batch.hw_ctx_id = s.batch.hw_ctx_id ∧
    s1.execbuf_calls = s.execbuf_calls ∧
    s1.heap = (add_exec_bo s b).2.heap ∧
    s1.batch.exec_count = (add_exec_bo s b).2.batch.exec_count ∧
    s1.batch.exec_bos = (add_exec_bo s b).2.batch.exec_bos := by
  unfold iris_use_pinned_bo at h
  split at h
  · simp at h
  · dsimp only at h
    obtain ⟨f1, f2, f3, f4, f5, f6, f7, f8⟩ := add_exec_bo_frame s b
    split at h
    · have e := (Except.ok.inj h).symm
      subst e
      exact ⟨f1, f2, f3, f4, f5, f6, f7, f8, rfl, rfl, rfl⟩
    · have e := (Except.ok.inj h).symm
      subst e
      exact ⟨f1, f2, f3, f4, f5, f6, f7, f8, rfl, rfl, rfl⟩

theorem create_batch_frame (cfg : Config) (s : State) :
    (create_batch cfg s).batch.last_bo = s.batch.last_bo ∧
    (create_batch cfg s).batch.primary_batch_size = s.batch.primary_batch_size ∧
    (create_batch cfg s).batch.engine = s.batch.engine ∧
    (create_batch cfg s).batch.hw_ctx_id = s.batch.hw_ctx_id ∧
    (create_batch cfg s).execbuf_calls = s.execbuf_calls := by
  rw [create_batch_eq]
  obtain ⟨_, f2, _, _, f5, f6, f7, f8⟩ := add_exec_bo_frame
    { s with
        heap := bo_upd (iris_bo_alloc cfg s.heap (cfg.BATCH_SZ + BATCH_RESERVED)).1 s.heap.length
          (fun b => { b with kflags := b.kflags ||| EXEC_OBJECT_CAPTURE })
        batch := { s.batch with
          bo := some s.heap.length
          map := iris_bo_map s.heap.length
          map_next := iris_bo_map s.heap.length
          contains_draw := false } } s.heap.length
  exact ⟨f2, f5, f6, f7, f8⟩

theorem finish_frame (s : State) :
    (iris_finish_batch s).batch.last_bo = s.batch.last_bo ∧
    (iris_finish_batch s).batch.engine = s.batch.engine ∧
    (iris_finish_batch s).batch.hw_ctx_id = s.batch.hw_ctx_id ∧
    (iris_finish_batch s).heap = store32 s.heap s.batch.map_next (0xA <<< 23) ∧
    (iris_finish_batch s).batch.map_next =
      { s.batch.map_next with off := s.batch.map_next.off + 4 } ∧
    (iris_finish_batch s).batch.map = s.batch.map := by
  unfold iris_finish_batch
  dsimp only
  refine ⟨?_, ?_, ?_, rfl, ?_, ?_⟩ <;> split <;> rfl

theorem list_inv_finish (s : State) (hi : list_inv s.heap s.batch) :
    list_inv (iris_finish_batch s).heap (iris_finish_batch s).batch := by
  obtain ⟨f1, _, f3, f4, f5, f6, _⟩ := finish_spec s
  exact list_inv_of_eq (list_inv_heap_ext hi f1) f3 f4 f5 f6

theorem submit_done_spec (s : State) (in_fence_fd : Int) (out_fence_fd : Option Int) :
    (submit_done s in_fence_fd out_fence_fd).batch = s.batch ∧
    heap_ext s.heap (submit_done s in_fence_fd out_fence_fd).heap ∧
    (submit_done s in_fence_fd out_fence_fd).heap.length = s.heap.length ∧
    (submit_done s in_fence_fd out_fence_fd).execbuf_calls =
      spec_request s.batch in_fence_fd out_fence_fd :: s.execbuf_calls :=
  ⟨rfl, (mark_submitted_spec _ _ _ _).1, (mark_submitted_spec _ _ _ _).2, rfl⟩

theorem flush_cleanup_spec (s : State) (hi : list_inv s.heap s.batch) :
    list_inv (flush_cleanup s).heap (flush_cleanup s).batch ∧
    (flush_cleanup s).batch.exec_count = 0 ∧
    heap_ext s.heap (flush_cleanup s).heap ∧
    (flush_cleanup s).heap.length = s.heap.length ∧
    (flush_cleanup s).batch.aperture_space = 0 ∧
    (flush_cleanup s).batch.bo = s.batch.bo ∧
    (flush_cleanup s).batch.last_bo = s.batch.last_bo ∧
    (flush_cleanup s).batch.engine = s.batch.engine ∧
    (flush_cleanup s).batch.hw_ctx_id = s.batch.hw_ctx_id ∧
    (flush_cleanup s).execbuf_calls = s.execbuf_calls := by
  obtain ⟨l1, l2, l3⟩ := release_spec s.batch.exec_count s.heap s.batch.exec_bos 0
  obtain ⟨w1, _, w3, w4⟩ := hi.1
  refine ⟨list_inv_empty _ _ ⟨w1, Nat.zero_le _, ?_, w4⟩ rfl, rfl, l1, l2, rfl, rfl, rfl, rfl,
    rfl, rfl⟩
  show (release_exec_bos s.heap s.batch.exec_bos s.batch.exec_count 0).2.length = _
  rw [l3]
  exact w3

/-- The flush of a batch with bytes in its active buffer, when the kernel
accepts the request. -/
theorem flush_ok_eq (cfg : Config) (s : State) (in_fence_fd : Int) (out_fence_fd : Option Int)
    (ioctl_rsvd2 : Nat) (hi : list_inv s.heap s.batch)
    (hz : iris_batch_bytes_used s.batch ≠ 0) :
    _iris_batch_flush_fence cfg s in_fence_fd out_fence_fd 0 ioctl_rsvd2 =
      .ok (0,
        create_batch cfg (reset_prepare (flush_cleanup
          (submit_done (iris_finish_batch s) in_fence_fd out_fence_fd))),
        (out_fence_fd.map (fun _ => (-1 : Int))).map
          (fun _ => to_int32 ((ioctl_rsvd2 / 4294967296 : Nat) : Int))) := by
  have hf := list_inv_finish s hi
  rw [flush_eq cfg s _ _ _ _ hz (dump_ok _ hf), submit_eq, if_neg (by decide)]
  dsimp only
  have hd : list_inv (submit_done (iris_finish_batch s) in_fence_fd out_fence_fd).heap
      (submit_done (iris_finish_batch s) in_fence_fd out_fence_fd).batch :=
    list_inv_heap_ext hf (submit_done_spec _ _ _).2.1
  obtain ⟨k1, k2, _⟩ := flush_cleanup_spec _ hd
  rw [reset_returns cfg _ k1 k2]

/-- The flush of a batch with bytes in its active buffer, when the kernel
refuses the request. -/
theorem flush_fail_eq (cfg : Config) (s : State) (in_fence_fd : Int)
    (out_fence_fd : Option Int) (ioctl_ret : Int) (ioctl_rsvd2 : Nat)
    (hi : list_inv s.heap s.batch) (hz : iris_batch_bytes_used s.batch ≠ 0)
    (hr : ioctl_ret ≠ 0) :
    _iris_batch_flush_fence cfg s in_fence_fd out_fence_fd ioctl_ret ioctl_rsvd2 =
      .error (Fault.abort,
        { iris_finish_batch s with
            execbuf_calls :=
              spec_request (iris_finish_batch s).batch in_fence_fd out_fence_fd ::
                (iris_finish_batch s).execbuf_calls }) := by
  have hf := list_inv_finish s hi
  rw [flush_eq cfg s _ _ _ _ hz (dump_ok _ hf), submit_eq, if_pos hr]

theorem flush_calls (cfg : Config) (s : State) (in_fence_fd : Int) (out_fence_fd : Option Int)
    (ioctl_ret : Int) (ioctl_rsvd2 : Nat) (hi : list_inv s.heap s.batch)
    (hz : iris_batch_bytes_used s.batch ≠ 0) :
    (flush_state (_iris_batch_flush_fence cfg s in_fence_fd out_fence_fd ioctl_ret
        ioctl_rsvd2)).execbuf_calls =
      spec_request (iris_finish_batch s).batch in_fence_fd out_fence_fd :: s.execbuf_calls := by
  by_cases hr : ioctl_ret = 0
  · subst hr
    rw [flush_ok_eq cfg s _ _ _ hi hz]
    show (create_batch cfg _).execbuf_calls = _
    rw [(create_batch_frame cfg _).2.2.2.2, (reset_prepare_spec _).2.2.2.2.2.2.2.2.2.2]
    show (submit_done _ _ _).execbuf_calls = _
    rw [(submit_done_spec _ _ _).2.2.2, (finish_spec s).2.2.2.2.2.2.2]
  · rw [flush_fail_eq cfg s _ _ _ _ hi hz hr]
    show _ :: (iris_finish_batch s).execbuf_calls = _
    rw [(finish_spec s).2.2.2.2.2.2.2]

/-! ## End to end: the submission -/

theorem emit_used (s : State) (bytes : List Nat) (hm : s.batch.map_next = s.batch.map) :
    iris_batch_bytes_used (emit_bytes s bytes).batch = bytes.length := by
  unfold emit_bytes iris_batch_bytes_used
  dsimp only
  rw [hm]
  omega

/-- The scenario of X and Y added after `iris_init_batch`. -/
theorem xy_scenario (cfg : Config) (s0 s1 : State) (engine X Y : Nat)
    (hinit : iris_init_batch cfg s0 engine = .ok s1)
    (hX : X < s0.heap.length) (hY : Y < s0.heap.length) (hXY : X ≠ Y)
    (hpX : (bo_get s0.heap X).kflags &&& EXEC_OBJECT_PINNED ≠ 0)
    (hpY : (bo_get s0.heap Y).kflags &&& EXEC_OBJECT_PINNED ≠ 0) :
    ∃ s2 s3, iris_use_pinned_bo s1 X false = .ok s2 ∧
      iris_use_pinned_bo s2 Y true = .ok s3 ∧
      list_inv s3.heap s3.batch ∧
      s3.batch.exec_count = 3 ∧
      s3.batch.map_next = s3.batch.map ∧
      s3.execbuf_calls = s0.execbuf_calls := by
  obtain ⟨i1, i2, i3, i4, i5, i6, _, i8, i9, i10, _⟩ := init_spec cfg s0 s1 engine hinit
  have kX1 : (bo_get s1.heap X).kflags = (bo_get s0.heap X).kflags := (i6.2 X hX).2.2.1
  have n1 : ∀ j, j < s1.batch.exec_count → s1.batch.exec_bos.getD j none ≠ some X := by
    intro j hj e
    have j0 : j = 0 := by omega
    subst j0
    rw [i3] at e
    have : s0.heap.length = X := Option.some.inj e
    omega
  obtain ⟨s2, u1, u2, u3, u4, u5, _, _, u8, u9, _⟩ :=
    use_pinned_new s1 X false i1.1.1 (by rw [kX1]; exact hpX) n1
  rw [i2] at u2 u4 u5
  have hY1 : Y < s1.heap.length := by omega
  have kY2 : (bo_get s2.heap Y).kflags = (bo_get s0.heap Y).kflags := by
    rw [(u8.2 Y hY1).2.2.1, (i6.2 Y hY).2.2.1]
  have n2 : ∀ j, j < s2.batch.exec_count → s2.batch.exec_bos.getD j none ≠ some Y := by
    intro j hj e
    rw [u2] at hj
    by_cases j0 : j = 0
    · subst j0
      rw [(u5 0 (by omega)).1, i3] at e
      have : s0.heap.length = Y := Option.some.inj e
      omega
    · have j1 : j = 1 := by omega
      subst j1
      rw [u4] at e
      exact hXY (Option.some.inj e)
  obtain ⟨s3, v1, v2, _⟩ := use_pinned_new s2 Y true u3 (by rw [kY2]; exact hpY) n2
  rw [u2] at v2
  have li2 := (use_pinned_spec s1 s2 X false i1.1 u1).2.1
  have li3 := (use_pinned_spec s2 s3 Y true li2 v1).2.1
  obtain ⟨_, _, a3, a4, _, _, _, a8, _⟩ := use_pinned_frame s1 s2 X false u1
  obtain ⟨_, _, b3, b4, _, _, _, b8, _⟩ := use_pinned_frame s2 s3 Y true v1
  exact ⟨s2, s3, u1, v1, li3, v2, by rw [b4, b3, a4, a3, i9, i8], by rw [b8, a8, i10]⟩

/-- C11, as stated, fails: in the scenario no command byte is written, so the
flush is the zero-length flush.  On the sample batch with X and Y added and Y
marked writable the residency list has three entries, and
`_iris_batch_flush_fence(batch, -1, NULL)` returns 0 leaving the state as it
was, the trace of kernel requests empty: the transport is not invoked. -/
theorem flush_without_commands_submits_nothing :
    run sample_cfg sample_init [.use_pinned_bo 0 false, .use_pinned_bo 1 true] = .ok sample_xy ∧
    sample_xy.batch.exec_count = 3 ∧
    _iris_batch_flush_fence sample_cfg sample_xy (-1) none 0 0 = .ok (0, sample_xy, none) ∧
    sample_xy.execbuf_calls = [] :=
  ⟨rfl, by decide, rfl, by decide⟩

/-- C11 (amended): End-to-end, submission.  After `iris_init_batch`, adding
two distinct pinned buffer objects X and Y, marking Y writable and writing
at least one command byte, a flush (with no input fence and no output fence
requested, as with any other fence arguments and whatever the kernel
answers) invokes the submission transport exactly once, with
`buffer_count == 3`: the trace of kernel requests is the one before
`iris_init_batch` plus that single request. -/
theorem end_to_end_submission (cfg : Config) (s0 s1 : State) (engine X Y : Nat)
    (bytes : List Nat) (in_fence_fd : Int) (out_fence_fd : Option Int) (ioctl_ret : Int)
    (ioctl_rsvd2 : Nat)
    (hinit : iris_init_batch cfg s0 engine = .ok s1)
    (hX : X < s0.heap.length) (hY : Y < s0.heap.length) (hXY : X ≠ Y)
    (hpX : (bo_get s0.heap X).kflags &&& EXEC_OBJECT_PINNED ≠ 0)
    (hpY : (bo_get s0.heap Y).kflags &&& EXEC_OBJECT_PINNED ≠ 0)
    (hbytes : bytes ≠ []) :
    ∃ s2 s3 req, iris_use_pinned_bo s1 X false = .ok s2 ∧
      iris_use_pinned_bo s2 Y true = .ok s3 ∧
      (flush_state (_iris_batch_flush_fence cfg (emit_bytes s3 bytes) in_fence_fd out_fence_fd
        ioctl_ret ioctl_rsvd2)).execbuf_calls = req :: s0.execbuf_calls ∧
      (flush_state (_iris_batch_flush_fence cfg (emit_bytes s3 bytes) (-1) none
        ioctl_ret ioctl_rsvd2)).execbuf_calls.length = s0.execbuf_calls.length + 1 ∧
      req.buffer_count = 3 := by
  obtain ⟨s2, s3, u1, v1, li3, c3, hm, hc⟩ :=
    xy_scenario cfg s0 s1 engine X Y hinit hX hY hXY hpX hpY
  obtain ⟨x1, _, x3⟩ := emit_spec s3 bytes
  have lie : list_inv (emit_bytes s3 bytes).heap (emit_bytes s3 bytes).batch :=
    list_inv_of_eq (list_inv_heap_ext li3 x1) rfl rfl rfl rfl
  have hz : iris_batch_bytes_used (emit_bytes s3 bytes).batch ≠ 0 := by
    rw [emit_used s3 bytes hm]
    intro e
    exact hbytes (List.length_eq_zero.mp e)
  refine ⟨s2, s3, spec_request (iris_finish_batch (emit_bytes s3 bytes)).batch in_fence_fd
    out_fence_fd, u1, v1, ?_, ?_, ?_⟩
  · rw [flush_calls cfg _ _ _ _ _ lie hz, x3, hc]
  · rw [flush_calls cfg _ _ _ _ _ lie hz, x3, hc]
    rfl
  · show (iris_finish_batch (emit_bytes s3 bytes)).batch.exec_count = 3
    rw [(finish_spec _).2.2.1]
    exact c3

/-- Witness for C11 (amended): the sample batch with X and Y added and four
command bytes written, flushed with no fences. -/
theorem end_to_end_submission_witness :
    ∃ s2 s3 req, iris_use_pinned_bo sample_init 0 false = .ok s2 ∧
      iris_use_pinned_bo s2 1 true = .ok s3 ∧
      (flush_state (_iris_batch_flush_fence sample_cfg (emit_bytes s3 [0, 0, 0, 0x7a]) (-1) none
        0 0)).execbuf_calls = req :: sample_prior.execbuf_calls ∧
      (flush_state (_iris_batch_flush_fence sample_cfg (emit_bytes s3 [0, 0, 0, 0x7a]) (-1) none
        0 0)).execbuf_calls.length = sample_prior.execbuf_calls.length + 1 ∧
      req.buffer_count = 3 :=
  end_to_end_submission sample_cfg sample_prior sample_init 1 0 1 [0, 0, 0, 0x7a] (-1) none 0 0
    rfl (by decide) (by decide) (by decide) (by decide) (by decide) (by decide)

/-! ## The batch after a flush -/

theorem reset_prepare_fields (s : State) :
    (reset_prepare s).batch.aperture_space = s.batch.aperture_space ∧
    (reset_prepare s).batch.primary_batch_size = 0 ∧
    (reset_prepare s).batch.bo = s.batch.bo := by
  unfold reset_prepare
  cases s.batch.last_bo with
  | none => exact ⟨rfl, rfl, rfl⟩
  | some l => exact ⟨rfl, rfl, rfl⟩

/-- The state a submitting flush returns in, described. -/
theorem flush_result_spec (cfg : Config) (s : State) (in_fence_fd : Int)
    (out_fence_fd : Option Int) (hi : list_inv s.heap s.batch) :
    (create_batch cfg (reset_prepare (flush_cleanup
      (submit_done (iris_finish_batch s) in_fence_fd out_fence_fd)))).batch.bo =
        some s.heap.length ∧
    (create_batch cfg (reset_prepare (flush_cleanup
      (submit_done (iris_finish_batch s) in_fence_fd out_fence_fd)))).heap.length =
        s.heap.length + 1 ∧
    heap_ext s.heap (create_batch cfg (reset_prepare (flush_cleanup
      (submit_done (iris_finish_batch s) in_fence_fd out_fence_fd)))).heap ∧
    list_inv
      (create_batch cfg (reset_prepare (flush_cleanup
        (submit_done (iris_finish_batch s) in_fence_fd out_fence_fd)))).heap
      (create_batch cfg (reset_prepare (flush_cleanup
        (submit_done (iris_finish_batch s) in_fence_fd out_fence_fd)))).batch ∧
    (create_batch cfg (reset_prepare (flush_cleanup
      (submit_done (iris_finish_batch s) in_fence_fd out_fence_fd)))).batch.exec_count = 1 ∧
    (create_batch cfg (reset_prepare (flush_cleanup
      (submit_done (iris_finish_batch s) in_fence_fd out_fence_fd)))).batch.exec_bos.getD 0 none =
        some s.heap.length ∧
    (create_batch cfg (reset_prepare (flush_cleanup
      (submit_done (iris_finish_batch s) in_fence_fd out_fence_fd)))).batch.map =
        iris_bo_map s.heap.length ∧
    (create_batch cfg (reset_prepare (flush_cleanup
      (submit_done (iris_finish_batch s) in_fence_fd out_fence_fd)))).batch.map_next =
        iris_bo_map s.heap.length ∧
    (create_batch cfg (reset_prepare (flush_cleanup
      (submit_done (iris_finish_batch s) in_fence_fd out_fence_fd)))).batch.aperture_space =
        ((cfg.BATCH_SZ + BATCH_RESERVED : Nat) : Int) ∧
    (bo_get (create_batch cfg (reset_prepare (flush_cleanup
      (submit_done (iris_finish_batch s) in_fence_fd out_fence_fd)))).heap s.heap.length).index
        = 0 ∧
    (bo_get (create_batch cfg (reset_prepare (flush_cleanup
      (submit_done (iris_finish_batch s) in_fence_fd out_fence_fd)))).heap s.heap.length).size
        = cfg.BATCH_SZ + BATCH_RESERVED ∧
    (create_batch cfg (reset_prepare (flush_cleanup
      (submit_done (iris_finish_batch s) in_fence_fd out_fence_fd)))).batch.primary_batch_size
        = 0 ∧
    (create_batch cfg (reset_prepare (flush_cleanup
      (submit_done (iris_finish_batch s) in_fence_fd out_fence_fd)))).batch.last_bo =
        s.batch.bo ∧
    (create_batch cfg (reset_prepare (flush_cleanup
      (submit_done (iris_finish_batch s) in_fence_fd out_fence_fd)))).batch.engine =
        s.batch.engine ∧
    (create_batch cfg (reset_prepare (flush_cleanup
      (submit_done (iris_finish_batch s) in_fence_fd out_fence_fd)))).batch.hw_ctx_id =
        s.batch.hw_ctx_id := by
  have hf := list_inv_finish s hi
  obtain ⟨f1, f2, _, _, _, _, f7, _⟩ := finish_spec s
  obtain ⟨ff1, ff2, ff3, _⟩ := finish_frame s
  obtain ⟨d1, d2, d3, _⟩ := submit_done_spec (iris_finish_batch s) in_fence_fd out_fence_fd
  have hd : list_inv (submit_done (iris_finish_batch s) in_fence_fd out_fence_fd).heap
      (submit_done (iris_finish_batch s) in_fence_fd out_fence_fd).batch :=
    list_inv_heap_ext hf d2
  obtain ⟨k1, k2, k3, k4, k5, k6, k7, k8, k9, _⟩ := flush_cleanup_spec _ hd
  obtain ⟨p1, p2, _, p4, _, _, _, p8, p9, p10, _⟩ := reset_prepare_spec
    (flush_cleanup (submit_done (iris_finish_batch s) in_fence_fd out_fence_fd))
  have hp := list_inv_reset_prepare _ k1
  obtain ⟨c1, c2, c3, c4, c5, c6, _, c8, c9, c10, c11, _, _, _, c15⟩ :=
    create_batch_spec cfg _ hp
  obtain ⟨g1, g2, g3, g4, _⟩ := create_batch_frame cfg (reset_prepare (flush_cleanup
      (submit_done (iris_finish_batch s) in_fence_fd out_fence_fd)))
  have hlen : (reset_prepare (flush_cleanup
      (submit_done (iris_finish_batch s) in_fence_fd out_fence_fd))).heap.length =
        s.heap.length := by
    rw [p2, k4, d3, f2]
  have hcnt : (reset_prepare (flush_cleanup
      (submit_done (iris_finish_batch s) in_fence_fd out_fence_fd))).batch.exec_count = 0 := by
    rw [p4, k2]
  rw [hlen] at c1 c2 c6 c8 c9 c11 c15
  rw [hcnt] at c5 c6 c11
  refine ⟨c1, c2, heap_ext_trans f1 (heap_ext_trans d2 (heap_ext_trans k3 (heap_ext_trans p1 c3))),
    c4, c5, c6, c8, c9, ?_, c11, c15, ?_, ?_, ?_, ?_⟩
  · rw [c10, (reset_prepare_fields _).1, k5]
    exact to_int32_batch cfg
  · rw [g2, (reset_prepare_fields _).2.1]
  · rw [g1, p8, k6, d1, f7]
  · rw [g3, p9, k8, d1, ff2]
  · rw [g4, p10, k9, d1, ff3]

/-- C12, as stated, fails: after a flush that submits, `exec_count` is 1, not
0, because `iris_batch_reset` registers the new command buffer in the list it
has just cleared.  On the sample batch with X and Y added and four command
bytes written, the flush returns with `exec_count == 1`. -/
theorem exec_count_after_flush_is_one :
    _iris_batch_flush_fence sample_cfg sample_xy_emit (-1) none 0 0 =
      .ok (0, sample_flushed, none) ∧
    sample_xy_emit.batch.exec_count = 3 ∧
    sample_flushed.batch.exec_count = 1 ∧
    sample_flushed.batch.exec_count ≠ 0 :=
  ⟨rfl, by decide, by decide, by decide⟩

/-- C12 (amended): After a flush that submits (bytes used in the active
buffer, kernel call accepted) the residency list holds exactly one object:
`exec_count == 1`, slot 0 is occupied by a new command buffer, which is
`batch->bo`, of `BATCH_SZ + 16` bytes and distinct from every object that
existed before, and no object that existed before is resident any more. -/
theorem flush_leaves_new_command_buffer (cfg : Config) (s : State) (in_fence_fd : Int)
    (out_fence_fd : Option Int) (ioctl_rsvd2 : Nat) (hr : Reachable cfg s)
    (hz : iris_batch_bytes_used s.batch ≠ 0) :
    ∃ s1 slot, _iris_batch_flush_fence cfg s in_fence_fd out_fence_fd 0 ioctl_rsvd2 =
        .ok (0, s1, slot) ∧
      s1.batch.exec_count = 1 ∧
      s1.batch.exec_bos.getD 0 none = s1.batch.bo ∧
      s1.batch.bo = some s.heap.length ∧
      (bo_get s1.heap s.heap.length).size = cfg.BATCH_SZ + BATCH_RESERVED ∧
      (∀ p, p < s.heap.length → s1.batch.bo ≠ some p ∧ ¬ resident s1.batch p) := by
  have hi := (inv_reachable cfg s hr).1
  obtain ⟨r1, _, _, _, r5, r6, _, _, _, _, r11, _⟩ :=
    flush_result_spec cfg s in_fence_fd out_fence_fd hi
  refine ⟨_, _, flush_ok_eq cfg s in_fence_fd out_fence_fd ioctl_rsvd2 hi hz, r5, by rw [r6, r1],
    r1, r11, fun p hp => ⟨?_, ?_⟩⟩
  · rw [r1]
    intro e
    have : s.heap.length = p := Option.some.inj e
    omega
  · rintro ⟨i, h1, h2⟩
    rw [r5] at h1
    have i0 : i = 0 := by omega
    subst i0
    rw [r6] at h2
    have : s.heap.length = p := Option.some.inj h2
    omega

/-- Witness for C12 (amended): the sample batch with X and Y added and four
command bytes written. -/
theorem flush_leaves_new_command_buffer_witness :
    Reachable sample_cfg sample_xy_emit ∧
    iris_batch_bytes_used sample_xy_emit.batch ≠ 0 ∧
    ∃ s1 slot, _iris_batch_flush_fence sample_cfg sample_xy_emit (-1) none 0 0 =
        .ok (0, s1, slot) ∧
      s1.batch.exec_count = 1 ∧
      s1.batch.exec_bos.getD 0 none = s1.batch.bo ∧
      s1.batch.bo = some sample_xy_emit.heap.length ∧
      (bo_get s1.heap sample_xy_emit.heap.length).size = sample_cfg.BATCH_SZ + BATCH_RESERVED ∧
      (∀ p, p < sample_xy_emit.heap.length → s1.batch.bo ≠ some p ∧ ¬ resident s1.batch p) :=
  ⟨⟨sample_prior, 1, sample_init,
      [.use_pinned_bo 0 false, .use_pinned_bo 1 true, .emit [0, 0, 0, 0x7a]], rfl, rfl⟩,
   by decide,
   flush_leaves_new_command_buffer sample_cfg sample_xy_emit (-1) none 0
     ⟨sample_prior, 1, sample_init,
      [.use_pinned_bo 0 false, .use_pinned_bo 1 true, .emit [0, 0, 0, 0x7a]], rfl, rfl⟩
     (by decide)⟩

/-! ## iris_batch_maybe_flush -/

/-- C13, as stated, fails: the test of `iris_batch_maybe_flush` is
`bytes used + estimate >= BATCH_SZ`, so it also flushes when the estimate
exactly fills the buffer.  On the sample batch, not chained and with 4 bytes
used, an estimate of 20476 gives `4 + 20476 == BATCH_SZ`, which does not
exceed the capacity, and the call flushes: the state changes and a request
reaches the kernel. -/
theorem maybe_flush_at_exact_capacity :
    sample_xy_emit.batch.bo = sample_xy_emit.batch.exec_bos.getD 0 none ∧
    iris_batch_bytes_used sample_xy_emit.batch + 20476 = sample_cfg.BATCH_SZ ∧
    ¬ (iris_batch_bytes_used sample_xy_emit.batch + 20476 > sample_cfg.BATCH_SZ) ∧
    iris_batch_maybe_flush sample_cfg sample_xy_emit 20476 0 0 = .ok sample_flushed ∧
    sample_flushed ≠ sample_xy_emit ∧
    sample_flushed.execbuf_calls.length = sample_xy_emit.execbuf_calls.length + 1 :=
  ⟨by decide, by decide, by decide, rfl, by decide, by decide⟩

/-- C13 (amended): `iris_batch_maybe_flush(batch, estimate)` invokes the flush
(with no fences) if and only if the batch is chained
(`batch->bo != exec_bos[0]`) or committing `estimate` more bytes would reach
or exceed the capacity (`bytes used + estimate >= BATCH_SZ`), for estimates
whose sum with the bytes used fits 32 bits; when neither holds it changes
nothing.  Bytes used is the cursor minus the start of the active buffer. -/
theorem maybe_flush_condition (cfg : Config) (s : State) (estimate : Nat) (ioctl_ret : Int)
    (ioctl_rsvd2 : Nat)
    (hrange : iris_batch_bytes_used s.batch + estimate < 4294967296) :
    ((s.batch.bo ≠ s.batch.exec_bos.getD 0 none ∨
        iris_batch_bytes_used s.batch + estimate ≥ cfg.BATCH_SZ) →
      iris_batch_maybe_flush cfg s estimate ioctl_ret ioctl_rsvd2 =
        iris_batch_flush cfg s ioctl_ret ioctl_rsvd2) ∧
    (¬ (s.batch.bo ≠ s.batch.exec_bos.getD 0 none ∨
        iris_batch_bytes_used s.batch + estimate ≥ cfg.BATCH_SZ) →
      iris_batch_maybe_flush cfg s estimate ioctl_ret ioctl_rsvd2 = .ok s) ∧
    iris_batch_flush cfg s ioctl_ret ioctl_rsvd2 =
      (match _iris_batch_flush_fence cfg s (-1) none ioctl_ret ioctl_rsvd2 with
       | .error e => .error e
       | .ok (_, s1, _) => .ok s1) ∧
    iris_batch_bytes_used s.batch = s.batch.map_next.off - s.batch.map.off := by
  refine ⟨fun h => ?_, fun h => ?_, rfl, rfl⟩
  · unfold iris_batch_maybe_flush
    rw [Nat.mod_eq_of_lt hrange, if_pos h]
  · unfold iris_batch_maybe_flush
    rw [Nat.mod_eq_of_lt hrange, if_neg h]

/-- Witness for C13 (amended): on the sample batch with 4 bytes used, an
estimate of 100 leaves the batch alone and an estimate of 20476 flushes. -/
theorem maybe_flush_condition_witness :
    iris_batch_bytes_used sample_xy_emit.batch + 100 < 4294967296 ∧
    iris_batch_maybe_flush sample_cfg sample_xy_emit 100 0 0 = .ok sample_xy_emit ∧
    iris_batch_maybe_flush sample_cfg sample_xy_emit 20476 0 0 =
      iris_batch_flush sample_cfg sample_xy_emit 0 0 :=
  ⟨by decide,
   (maybe_flush_condition sample_cfg sample_xy_emit 100 0 0 (by decide)).2.1 (by decide),
   (maybe_flush_condition sample_cfg sample_xy_emit 20476 0 0 (by decide)).1
     (Or.inr (by decide))⟩

/-! ## The engine and the request -/

set_option maxRecDepth 100000 in
theorem ring_selector_small : ∀ n, n < 256 → n &&& 192 = 0 → n ≤ 63 := by decide

set_option maxRecDepth 100000 in
theorem ring_bits_of_flags : ∀ e, e < 64 → ∀ a, a < 2 → ∀ b, b < 2 →
    (e ||| 2048 ||| 262144 ||| 4096 ||| a * 65536 ||| b * 131072) &&& 63 = e := by
  decide

set_option maxRecDepth 100000 in
theorem fence_bits_of_flags : ∀ e, e < 64 → ∀ a, a < 2 → ∀ b, b < 2 →
    ((e ||| 2048 ||| 262144 ||| 4096 ||| a * 65536 ||| b * 131072) &&& 65536 = a * 65536 ∧
     (e ||| 2048 ||| 262144 ||| 4096 ||| a * 65536 ||| b * 131072) &&& 131072 = b * 131072) := by
  decide

set_option maxRecDepth 100000 in
theorem fixed_bits_of_flags : ∀ e, e < 64 → ∀ a, a < 2 → ∀ b, b < 2 →
    ((e ||| 2048 ||| 262144 ||| 4096 ||| a * 65536 ||| b * 131072) &&& 2048 = 2048 ∧
     (e ||| 2048 ||| 262144 ||| 4096 ||| a * 65536 ||| b * 131072) &&& 262144 = 262144 ∧
     (e ||| 2048 ||| 262144 ||| 4096 ||| a * 65536 ||| b * 131072) &&& 4096 = 4096) := by
  decide

theorem init_engine (cfg : Config) (s0 s1 : State) (engine : Nat)
    (h : iris_init_batch cfg s0 engine = .ok s1) :
    s1.batch.engine = engine % 256 ∧ s1.batch.engine ≤ I915_EXEC_RING_MASK ∧
    util_bitcount s1.batch.engine = 1 ∧ s1.batch.hw_ctx_id = s0.batch.hw_ctx_id := by
  unfold iris_init_batch at h
  split at h
  · simp at h
  · rename_i h1
    split at h
    · simp at h
    · rename_i h2
      dsimp only at h
      rw [reset_eq] at h
      have e : s1.batch.engine = engine % 256 ∧ s1.batch.hw_ctx_id = s0.batch.hw_ctx_id := by
        split at h
        · simp at h
        · split at h
          · rw [← Except.ok.inj h, (create_batch_frame cfg _).2.2.1,
              (create_batch_frame cfg _).2.2.2.1, (reset_prepare_spec _).2.2.2.2.2.2.2.2.1,
              (reset_prepare_spec _).2.2.2.2.2.2.2.2.2.1]
            exact ⟨rfl, rfl⟩
          · simp at h
      have h1a : engine % 256 &&& 192 = 0 := by
        by_contra c
        exact h1 c
      have h2a : util_bitcount (engine % 256) = 1 := by
        by_contra c
        exact h2 c
      rw [e.1]
      exact ⟨rfl, ring_selector_small _ (Nat.mod_lt _ (by decide)) h1a, h2a, e.2⟩

theorem static_step (cfg : Config) (s s1 : State) (op : Op) (hi : Inv s)
    (h : step cfg s op = .ok s1) :
    s1.batch.engine = s.batch.engine ∧ s1.batch.hw_ctx_id = s.batch.hw_ctx_id := by
  cases op with
  | use_pinned_bo b w =>
    obtain ⟨_, _, _, _, _, f6, f7, _⟩ := use_pinned_frame s s1 b w h
    exact ⟨f6, f7⟩
  | add_bo b =>
    dsimp only [step] at h
    split at h
    · have e := (Except.ok.inj h).symm
      subst e
      obtain ⟨_, _, _, _, _, f6, f7, _⟩ := add_exec_bo_frame s b
      exact ⟨f6, f7⟩
    · simp at h
  | chain =>
    dsimp only [step] at h
    rw [chain_eq] at h
    split at h
    · simp at h
    · split at h
      · simp at h
      · have e := (Except.ok.inj h).symm
        subst e
        exact ⟨(create_batch_frame cfg (chain_prepare s)).2.2.1,
          (create_batch_frame cfg (chain_prepare s)).2.2.2.1⟩
  | flush i o r w =>
    dsimp only [step] at h
    split at h
    · simp at h
    · rename_i r0 s2 slot hf
      have e := (Except.ok.inj h).symm
      subst e
      by_cases hz : iris_batch_bytes_used s.batch = 0
      · rw [((flush_spec cfg s s1 i o slot r r0 w hi hf).2.2.2.1 hz).1]
        exact ⟨rfl, rfl⟩
      · by_cases hr : r = 0
        · subst hr
          rw [flush_ok_eq cfg s i o w hi.1 hz] at hf
          have e2 : s1 = _ := (congrArg (fun x => x.2.1) (Except.ok.inj hf)).symm
          obtain ⟨_, _, _, _, _, _, _, _, _, _, _, _, _, r14, r15⟩ :=
            flush_result_spec cfg s i o hi.1
          rw [e2]
          exact ⟨r14, r15⟩
        · rw [flush_fail_eq cfg s i o r w hi.1 hz hr] at hf
          simp at hf
  | emit bytes =>
    have e := (Except.ok.inj h).symm
    subst e
    exact ⟨rfl, rfl⟩
  | poke_index b v =>
    have e := (Except.ok.inj h).symm
    subst e
    exact ⟨rfl, rfl⟩

theorem static_run (cfg : Config) (ops : List Op) :
    ∀ (s s1 : State), Inv s → run cfg s ops = .ok s1 →
      s1.batch.engine = s.batch.engine ∧ s1.batch.hw_ctx_id = s.batch.hw_ctx_id := by
  induction ops with
  | nil =>
    intro s s1 _ h
    have e := (Except.ok.inj h).symm
    subst e
    exact ⟨rfl, rfl⟩
  | cons op ops ih =>
    intro s s1 hi h
    unfold run at h
    split at h
    · simp at h
    · rename_i s2 hs
      obtain ⟨a1, a2⟩ := static_step cfg s s2 op hi hs
      obtain ⟨b1, b2⟩ := ih s2 s1 (inv_step cfg s s2 op hi hs) h
      exact ⟨b1.trans a1, b2.trans a2⟩

theorem engine_reachable (cfg : Config) (s : State) (h : Reachable cfg s) :
    s.batch.engine ≤ I915_EXEC_RING_MASK ∧ util_bitcount s.batch.engine = 1 := by
  obtain ⟨s0, engine, s1, ops, h1, h2⟩ := h
  obtain ⟨_, e2, e3, _⟩ := init_engine cfg s0 s1 engine h1
  obtain ⟨r1, _⟩ := static_run cfg ops s1 s (init_spec cfg s0 s1 engine h1).1 h2
  rw [r1]
  exact ⟨e2, e3⟩

theorem submit_calls (s : State) (in_fence_fd : Int) (out_fence_fd : Option Int)
    (ioctl_ret : Int) (ioctl_rsvd2 : Nat) :
    (flush_state (submit_batch s in_fence_fd out_fence_fd ioctl_ret ioctl_rsvd2)).execbuf_calls =
      spec_request s.batch in_fence_fd out_fence_fd :: s.execbuf_calls := by
  rw [submit_eq]
  split <;> rfl

/-- C14: The request `submit_batch` hands to the kernel.  `submit_batch` is
called by the flush of a reachable batch, after `iris_finish_batch`.  The
request it puts on the trace, whatever the kernel answers, has
`batch_start_offset == 0`, `buffer_count == exec_count`,
`rsvd1 == hw_ctx_id`, the validation list as buffers, `batch_len` the
smallest multiple of 8 that is at least `primary_batch_size`, and `flags`
equal to `engine | I915_EXEC_NO_RELOC | I915_EXEC_BATCH_FIRST |
I915_EXEC_HANDLE_LUT` with `I915_EXEC_FENCE_IN` added exactly when
`in_fence_fd != -1` and `I915_EXEC_FENCE_OUT` exactly when an output fence is
requested; the ring-selector bits of `flags` equal `engine`. -/
theorem request_fields (cfg : Config) (s : State) (in_fence_fd : Int)
    (out_fence_fd : Option Int) (ioctl_ret : Int) (ioctl_rsvd2 : Nat)
    (hr : Reachable cfg s) :
    ∃ req,
      (flush_state (submit_batch (iris_finish_batch s) in_fence_fd out_fence_fd ioctl_ret
        ioctl_rsvd2)).execbuf_calls = req :: s.execbuf_calls ∧
      req.batch_start_offset = 0 ∧
      req.buffer_count = s.batch.exec_count ∧
      req.rsvd1 = s.batch.hw_ctx_id ∧
      req.buffers_ptr = s.batch.validation_list ∧
      req.batch_len % 8 = 0 ∧
      (iris_finish_batch s).batch.primary_batch_size ≤ req.batch_len ∧
      (∀ m, m % 8 = 0 → (iris_finish_batch s).batch.primary_batch_size ≤ m → req.batch_len ≤ m) ∧
      req.flags = s.batch.engine ||| I915_EXEC_NO_RELOC ||| I915_EXEC_BATCH_FIRST |||
        I915_EXEC_HANDLE_LUT ||| (if in_fence_fd ≠ -1 then I915_EXEC_FENCE_IN else 0) |||
        (if out_fence_fd ≠ none then I915_EXEC_FENCE_OUT else 0) ∧
      req.flags &&& I915_EXEC_FENCE_IN = (if in_fence_fd ≠ -1 then I915_EXEC_FENCE_IN else 0) ∧
      req.flags &&& I915_EXEC_FENCE_OUT =
        (if out_fence_fd ≠ none then I915_EXEC_FENCE_OUT else 0) ∧
      req.flags &&& I915_EXEC_NO_RELOC = I915_EXEC_NO_RELOC ∧
      req.flags &&& I915_EXEC_BATCH_FIRST = I915_EXEC_BATCH_FIRST ∧
      req.flags &&& I915_EXEC_HANDLE_LUT = I915_EXEC_HANDLE_LUT ∧
      req.flags &&& I915_EXEC_RING_MASK = s.batch.engine := by
  obtain ⟨he, _⟩ := engine_reachable cfg s hr
  obtain ⟨_, _, f3, _, f5, _, _, f8⟩ := finish_spec s
  obtain ⟨_, g2, g3, _⟩ := finish_frame s
  have he1 : s.batch.engine < 64 := by
    unfold I915_EXEC_RING_MASK at he
    omega
  have hfl : (spec_request (iris_finish_batch s).batch in_fence_fd out_fence_fd).flags =
      s.batch.engine ||| 2048 ||| 262144 ||| 4096 |||
        (if in_fence_fd ≠ -1 then 1 else 0) * 65536 |||
        (if out_fence_fd ≠ none then 1 else 0) * 131072 := by
    unfold spec_request
    dsimp only
    rw [g2]
    unfold I915_EXEC_NO_RELOC I915_EXEC_BATCH_FIRST I915_EXEC_HANDLE_LUT I915_EXEC_FENCE_IN
      I915_EXEC_FENCE_OUT
    split <;> split <;> rfl
  have ha : (if in_fence_fd ≠ -1 then 1 else 0) < 2 := by split <;> decide
  have hb : (if out_fence_fd ≠ none then 1 else 0) < 2 := by split <;> decide
  have k1 := ring_bits_of_flags _ he1 _ ha _ hb
  have k2 := fence_bits_of_flags _ he1 _ ha _ hb
  have k3 := fixed_bits_of_flags _ he1 _ ha _ hb
  refine ⟨spec_request (iris_finish_batch s).batch in_fence_fd out_fence_fd, ?_, rfl, f3, g3, f5,
    ?_, ?_, ?_, ?_, ?_, ?_, ?_, ?_, ?_, ?_⟩
  · rw [submit_calls, f8]
  · show ALIGN _ 8 % 8 = 0
    unfold ALIGN
    omega
  · show _ ≤ ALIGN _ 8
    unfold ALIGN
    omega
  · intro m h1 h2
    show ALIGN _ 8 ≤ m
    unfold ALIGN
    omega
  · show (spec_request _ _ _).flags = _
    unfold spec_request
    dsimp only
    rw [g2]
  · rw [hfl]
    unfold I915_EXEC_FENCE_IN
    rw [k2.1]
    split <;> rfl
  · rw [hfl]
    unfold I915_EXEC_FENCE_OUT
    rw [k2.2]
    split <;> rfl
  · rw [hfl]
    exact k3.1
  · rw [hfl]
    exact k3.2.1
  · rw [hfl]
    exact k3.2.2
  · rw [hfl]
    exact k1

/-- Witness for C14: the sample batch with X and Y added and four command
bytes written, submitted with an input fence and an output fence. -/
theorem request_fields_witness :
    Reachable sample_cfg sample_xy_emit ∧
    ∃ req,
      (flush_state (submit_batch (iris_finish_batch sample_xy_emit) 5 (some 0) 0
        0)).execbuf_calls = req :: sample_xy_emit.execbuf_calls ∧
      req.batch_start_offset = 0 ∧
      req.buffer_count = sample_xy_emit.batch.exec_count ∧
      req.rsvd1 = sample_xy_emit.batch.hw_ctx_id ∧
      req.buffers_ptr = sample_xy_emit.batch.validation_list ∧
      req.batch_len % 8 = 0 ∧
      (iris_finish_batch sample_xy_emit).batch.primary_batch_size ≤ req.batch_len ∧
      (∀ m, m % 8 = 0 →
        (iris_finish_batch sample_xy_emit).batch.primary_batch_size ≤ m → req.batch_len ≤ m) ∧
      req.flags = sample_xy_emit.batch.engine ||| I915_EXEC_NO_RELOC ||| I915_EXEC_BATCH_FIRST |||
        I915_EXEC_HANDLE_LUT ||| (if (5 : Int) ≠ -1 then I915_EXEC_FENCE_IN else 0) |||
        (if (some 0 : Option Int) ≠ none then I915_EXEC_FENCE_OUT else 0) ∧
      req.flags &&& I915_EXEC_FENCE_IN = (if (5 : Int) ≠ -1 then I915_EXEC_FENCE_IN else 0) ∧
      req.flags &&& I915_EXEC_FENCE_OUT =
        (if (some 0 : Option Int) ≠ none then I915_EXEC_FENCE_OUT else 0) ∧
      req.flags &&& I915_EXEC_NO_RELOC = I915_EXEC_NO_RELOC ∧
      req.flags &&& I915_EXEC_BATCH_FIRST = I915_EXEC_BATCH_FIRST ∧
      req.flags &&& I915_EXEC_HANDLE_LUT = I915_EXEC_HANDLE_LUT ∧
      req.flags &&& I915_EXEC_RING_MASK = sample_xy_emit.batch.engine :=
  ⟨⟨sample_prior, 1, sample_init,
      [.use_pinned_bo 0 false, .use_pinned_bo 1 true, .emit [0, 0, 0, 0x7a]], rfl, rfl⟩,
   request_fields sample_cfg sample_xy_emit 5 (some 0) 0 0
     ⟨sample_prior, 1, sample_init,
      [.use_pinned_bo 0 false, .use_pinned_bo 1 true, .emit [0, 0, 0, 0x7a]], rfl, rfl⟩⟩

/-! ## A failed submission -/

theorem refcount_upd (h : List iris_bo) (p q : Nat) (f : iris_bo → iris_bo)
    (hf : ∀ b, (f b).refcount = b.refcount) :
    (bo_get (bo_upd h p f) q).refcount = (bo_get h q).refcount := by
  rw [bo_get_upd]
  split
  · rename_i c
    rw [hf, c.1]
  · rfl

theorem finish_keeps (s : State) :
    (iris_finish_batch s).batch.aperture_space = s.batch.aperture_space ∧
    (∀ p, (bo_get (iris_finish_batch s).heap p).refcount = (bo_get s.heap p).refcount) := by
  refine ⟨?_, fun p => ?_⟩
  · unfold iris_finish_batch
    dsimp only
    split <;> rfl
  · rw [(finish_frame s).2.2.2.1]
    exact refcount_upd _ _ _ _ (fun _ => rfl)

/-- C15: Flush and the transport's status.  In every reachable state, a flush
that returns returns 0, and it returns only if nothing was to be submitted or
the kernel call succeeded; with bytes to submit it returns (0) when the
kernel call succeeds, and when the kernel call returns an error it does not
return: it stops at the `abort()` of `submit_batch`, with the request on the
trace and the batch as `iris_finish_batch` left it, `exec_count`, the
residency list, `batch->bo`, `last_bo`, `aperture_space` and every reference
count as before the flush: nothing released, nothing reset. -/
theorem failed_submission_is_fatal (cfg : Config) (s : State) (in_fence_fd : Int)
    (out_fence_fd : Option Int) (ioctl_ret : Int) (ioctl_rsvd2 : Nat)
    (hr : Reachable cfg s) :
    (∀ ret s1 slot,
      _iris_batch_flush_fence cfg s in_fence_fd out_fence_fd ioctl_ret ioctl_rsvd2 =
        .ok (ret, s1, slot) →
      ret = 0 ∧ (iris_batch_bytes_used s.batch = 0 ∨ ioctl_ret = 0)) ∧
    (iris_batch_bytes_used s.batch ≠ 0 → ioctl_ret = 0 →
      ∃ s1 slot,
        _iris_batch_flush_fence cfg s in_fence_fd out_fence_fd ioctl_ret ioctl_rsvd2 =
          .ok (0, s1, slot)) ∧
    (iris_batch_bytes_used s.batch ≠ 0 → ioctl_ret ≠ 0 →
      ∃ st,
        _iris_batch_flush_fence cfg s in_fence_fd out_fence_fd ioctl_ret ioctl_rsvd2 =
          .error (Fault.abort, st) ∧
        st.execbuf_calls.length = s.execbuf_calls.length + 1 ∧
        st.batch.exec_count = s.batch.exec_count ∧
        st.batch.exec_bos = s.batch.exec_bos ∧
        st.batch.bo = s.batch.bo ∧
        st.batch.last_bo = s.batch.last_bo ∧
        st.batch.aperture_space = s.batch.aperture_space ∧
        (∀ p, (bo_get st.heap p).refcount = (bo_get s.heap p).refcount)) := by
  have hi := inv_reachable cfg s hr
  refine ⟨fun ret s1 slot h => ?_, fun hz h0 => ?_, fun hz hne => ?_⟩
  · refine ⟨(flush_spec cfg s s1 _ _ slot _ ret _ hi h).2.2.1, ?_⟩
    by_cases hz : iris_batch_bytes_used s.batch = 0
    · exact Or.inl hz
    · by_cases h0 : ioctl_ret = 0
      · exact Or.inr h0
      · rw [flush_fail_eq cfg s _ _ _ _ hi.1 hz h0] at h
        simp at h
  · subst h0
    exact ⟨_, _, flush_ok_eq cfg s _ _ _ hi.1 hz⟩
  · obtain ⟨_, _, f3, f4, _, _, f7, f8⟩ := finish_spec s
    obtain ⟨g1, _⟩ := finish_frame s
    obtain ⟨k1, k2⟩ := finish_keeps s
    refine ⟨_, flush_fail_eq cfg s _ _ _ _ hi.1 hz hne, ?_, f3, f4, f7, g1, k1, k2⟩
    show (_ :: (iris_finish_batch s).execbuf_calls).length = _
    rw [f8]
    rfl

/-- Witness for C15: the sample batch with X and Y added and four command
bytes written, flushed against a kernel that refuses. -/
theorem failed_submission_is_fatal_witness :
    Reachable sample_cfg sample_xy_emit ∧
    iris_batch_bytes_used sample_xy_emit.batch ≠ 0 ∧
    ∃ st,
      _iris_batch_flush_fence sample_cfg sample_xy_emit (-1) none (-1) 0 =
        .error (Fault.abort, st) ∧
      st.execbuf_calls.length = sample_xy_emit.execbuf_calls.length + 1 ∧
      st.batch.exec_count = sample_xy_emit.batch.exec_count ∧
      st.batch.exec_bos = sample_xy_emit.batch.exec_bos ∧
      st.batch.bo = sample_xy_emit.batch.bo ∧
      st.batch.last_bo = sample_xy_emit.batch.last_bo ∧
      st.batch.aperture_space = sample_xy_emit.batch.aperture_space ∧
      (∀ p, (bo_get st.heap p).refcount = (bo_get sample_xy_emit.heap p).refcount) :=
  ⟨⟨sample_prior, 1, sample_init,
      [.use_pinned_bo 0 false, .use_pinned_bo 1 true, .emit [0, 0, 0, 0x7a]], rfl, rfl⟩,
   by decide,
   (failed_submission_is_fatal sample_cfg sample_xy_emit (-1) none (-1) 0
     ⟨sample_prior, 1, sample_init,
      [.use_pinned_bo 0 false, .use_pinned_bo 1 true, .emit [0, 0, 0, 0x7a]], rfl, rfl⟩).2.2
     (by decide) (by decide)⟩

/-! ## iris_batch_references -/

theorem scan_isSome_iff (b : iris_batch) (bo : Nat) :
    (scan_exec_bos b.exec_bos bo b.exec_count 0).isSome = true ↔ resident b bo := by
  constructor
  · intro h
    cases hs : scan_exec_bos b.exec_bos bo b.exec_count 0 with
    | none => rw [hs] at h; simp at h
    | some i =>
      obtain ⟨_, h2, h3, _⟩ := scan_some _ _ _ _ _ hs
      exact ⟨i, by omega, h3⟩
  · rintro ⟨i, h1, h2⟩
    cases hs : scan_exec_bos b.exec_bos bo b.exec_count 0 with
    | none => exact absurd h2 (scan_none _ _ _ _ hs i (Nat.zero_le _) (by omega))
    | some k => rfl

theorem references_iff (s : State) (b : Nat) :
    iris_batch_references s b = true ↔ resident s.batch b := by
  rw [references_eq_scan]
  exact scan_isSome_iff s.batch b

theorem add_exec_bo_resident (s : State) (b : Nat) (hwf : batch_wf s.batch) :
    resident (add_exec_bo s b).2.batch b ∧
    ((add_exec_bo s b).2.batch.exec_count = s.batch.exec_count ↔ resident s.batch b) := by
  rcases add_exec_bo_cases s b with ⟨i, h1, h2, h3⟩ | ⟨n1, n2⟩
  · rw [h3]
    exact ⟨⟨i, h1, h2⟩, fun _ => ⟨i, h1, h2⟩, fun _ => rfl⟩
  · rw [n2]
    obtain ⟨_, a2, _, a4, _⟩ := append_spec s b hwf
    refine ⟨⟨s.batch.exec_count, by omega, a4⟩, fun h => ?_, fun h => ?_⟩
    · omega
    · obtain ⟨i, h1, h2⟩ := h
      exact absurd h2 (n1 i h1)

/-- C16: `iris_batch_references`.  For every batch whose arrays have the
capacity it records and every buffer object `bo`,
`iris_batch_references(batch, bo)` is true if and only if `bo` is one of
`exec_bos[0..exec_count)`; it is a function of the state that returns only
the boolean, so it modifies neither the batch nor `bo`; it is true right
after `iris_use_pinned_bo(batch, bo, w)`, and its value tells whether
`add_exec_bo(batch, bo)` would leave `exec_count` unchanged. -/
theorem references_iff_resident (s : State) (bo : Nat) (w : Bool) (hwf : batch_wf s.batch) :
    (iris_batch_references s bo = true ↔ resident s.batch bo) ∧
    (∀ s1, iris_use_pinned_bo s bo w = .ok s1 → iris_batch_references s1 bo = true) ∧
    (iris_batch_references s bo = true ↔
      (add_exec_bo s bo).2.batch.exec_count = s.batch.exec_count) := by
  obtain ⟨r1, r2⟩ := add_exec_bo_resident s bo hwf
  refine ⟨references_iff s bo, fun s1 h => ?_, (references_iff s bo).trans r2.symm⟩
  obtain ⟨_, _, _, _, _, _, _, _, _, f10, f11⟩ := use_pinned_frame s s1 bo w h
  rw [references_iff]
  obtain ⟨i, h1, h2⟩ := r1
  exact ⟨i, by rw [f10]; exact h1, by rw [f11]; exact h2⟩

/-- Witness for C16: Y on the sample batch, before and after it is added. -/
theorem references_iff_resident_witness :
    batch_wf sample_init.batch ∧
    iris_batch_references sample_init 1 = false ∧
    (iris_batch_references sample_init 1 = true ↔ resident sample_init.batch 1) ∧
    (∀ s1, iris_use_pinned_bo sample_init 1 true = .ok s1 →
      iris_batch_references s1 1 = true) :=
  ⟨by unfold batch_wf; decide, by decide,
   (references_iff_resident sample_init 1 true (by unfold batch_wf; decide)).1,
   (references_iff_resident sample_init 1 true (by unfold batch_wf; decide)).2.1⟩

/-! ## iris_use_pinned_bo -/

/-- C17: `iris_use_pinned_bo(batch, bo, writable)`.  For every batch whose
arrays have the capacity it records: if the `kflags` of `bo` lack
`EXEC_OBJECT_PINNED` the call fails its assertion in the state it was called
in, for either value of `writable`; if `bo` is pinned the call returns, `bo`
is resident afterwards at the index `add_exec_bo` gives it, and the entry at
that index has `EXEC_OBJECT_WRITE` set if and only if `writable` is true or
the bit was set before, in that entry when `bo` was already resident and in
the `kflags` of `bo` when it is newly added; the flags of every other entry
are unchanged, and a call with `writable == false` changes no existing
entry, so it never clears the bit. -/
theorem use_pinned_write_bit (s : State) (bo : Nat) (writable : Bool)
    (hwf : batch_wf s.batch) :
    ((bo_get s.heap bo).kflags &&& EXEC_OBJECT_PINNED = 0 →
      iris_use_pinned_bo s bo writable = .error (Fault.assertion, s)) ∧
    ((bo_get s.heap bo).kflags &&& EXEC_OBJECT_PINNED ≠ 0 →
      ∃ s1, iris_use_pinned_bo s bo writable = .ok s1 ∧
        resident s1.batch bo ∧
        (add_exec_bo s bo).1 < s1.batch.exec_count ∧
        s1.batch.exec_bos.getD (add_exec_bo s bo).1 none = some bo ∧
        ((s1.batch.validation_list.getD (add_exec_bo s bo).1 default).flags &&&
            EXEC_OBJECT_WRITE = EXEC_OBJECT_WRITE ↔
          (writable = true ∨
            (if resident s.batch bo then
               (s.batch.validation_list.getD (add_exec_bo s bo).1 default).flags
             else (bo_get s.heap bo).kflags) &&& EXEC_OBJECT_WRITE = EXEC_OBJECT_WRITE)) ∧
        (∀ j, j ≠ (add_exec_bo s bo).1 → j < s.batch.exec_count →
          (s1.batch.validation_list.getD j default).flags =
            (s.batch.validation_list.getD j default).flags) ∧
        (writable = false → ∀ j, j < s.batch.exec_count →
          s1.batch.validation_list.getD j default = s.batch.validation_list.getD j default)) := by
  refine ⟨fun h => ?_, fun hp => ?_⟩
  · unfold iris_use_pinned_bo
    rw [if_pos h]
  · rcases add_exec_bo_cases s bo with ⟨i, h1, h2, h3⟩ | ⟨n1, n2⟩
    · have hres : resident s.batch bo := ⟨i, h1, h2⟩
      have hlt : i < s.batch.validation_list.length := by
        rw [hwf.2.2.2]
        exact lt_of_lt_of_le h1 hwf.2.1
      unfold iris_use_pinned_bo
      rw [if_neg hp, h3]
      dsimp only
      cases writable with
      | false =>
        refine ⟨s, rfl, hres, h1, h2, ?_, fun _ _ _ => rfl, fun _ _ _ => rfl⟩
        rw [if_pos hres]
        simp
      | true =>
        rw [if_pos rfl]
        refine ⟨_, rfl, hres, h1, h2, ?_, fun j hj _ => ?_, fun hw => ?_⟩
        · rw [if_pos hres]
          show (List.getD (List.set _ _ _) i (default : drm_i915_gem_exec_object2)).flags &&&
            EXEC_OBJECT_WRITE = EXEC_OBJECT_WRITE ↔ _
          rw [getD_set_eq _ _ _ _ hlt]
          exact ⟨fun _ => Or.inl rfl, fun _ => or_and_self_bit _ _⟩
        · show (List.getD (List.set _ _ _) j (default : drm_i915_gem_exec_object2)).flags = _
          rw [getD_set_ne _ _ _ _ _ (Ne.symm hj)]
        · simp at hw
    · have hres : ¬ resident s.batch bo := by
        rintro ⟨i, h1, h2⟩
        exact n1 i h1 h2
      obtain ⟨s1, u1, u2, _, u4, u5, u6, _⟩ := use_pinned_new s bo writable hwf hp n1
      have hidx : (add_exec_bo s bo).1 = s.batch.exec_count := by
        rw [n2]
        exact (append_spec s bo hwf).1
      rw [hidx, if_neg hres]
      refine ⟨s1, u1, ⟨s.batch.exec_count, by omega, u4⟩, by omega, u4, ?_,
        fun j _ hj => by rw [(u5 j hj).2], fun _ j hj => (u5 j hj).2⟩
      rw [u6]
      cases writable with
      | false => simp
      | true =>
        rw [if_pos rfl]
        exact ⟨fun _ => Or.inl rfl, fun _ => or_and_self_bit _ _⟩

/-- Witness for C17: Y is added writable to the sample batch, then used again
with `writable == false`: the write bit of its entry stays set. -/
theorem use_pinned_write_bit_witness :
    batch_wf sample_xy.batch ∧
    (bo_get sample_xy.heap 1).kflags &&& EXEC_OBJECT_PINNED ≠ 0 ∧
    (sample_xy.batch.validation_list.getD 2 default).flags &&& EXEC_OBJECT_WRITE =
      EXEC_OBJECT_WRITE ∧
    ∃ s1, iris_use_pinned_bo sample_xy 1 false = .ok s1 ∧
      ((s1.batch.validation_list.getD (add_exec_bo sample_xy 1).1 default).flags &&&
          EXEC_OBJECT_WRITE = EXEC_OBJECT_WRITE ↔
        (false = true ∨
          (if resident sample_xy.batch 1 then
             (sample_xy.batch.validation_list.getD (add_exec_bo sample_xy 1).1 default).flags
           else (bo_get sample_xy.heap 1).kflags) &&& EXEC_OBJECT_WRITE = EXEC_OBJECT_WRITE)) ∧
      (∀ j, j < sample_xy.batch.exec_count →
        s1.batch.validation_list.getD j default =
          sample_xy.batch.validation_list.getD j default) := by
  have t := (use_pinned_write_bit sample_xy 1 false (by unfold batch_wf; decide)).2 (by decide)
  obtain ⟨s1, t1, _, _, _, t5, _, t7⟩ := t
  exact ⟨by unfold batch_wf; decide, by decide, by decide, s1, t1, t5, t7 rfl⟩

/-! ## Slot 0 holds the primary command buffer -/

theorem run_of_run_ghost (cfg : Config) (ops : List Op) :
    ∀ (s s1 : State) (g g1 : Ghost), run_ghost cfg s g ops = .ok (s1, g1) →
      run cfg s ops = .ok s1 := by
  induction ops with
  | nil =>
    intro s s1 g g1 h
    have e := Except.ok.inj h
    have e1 : s = s1 := congrArg Prod.fst e
    rw [e1]
    rfl
  | cons op ops ih =>
    intro s s1 g g1 h
    unfold run_ghost at h
    unfold run
    split at h
    · simp at h
    · rename_i s2 hs
      exact ih s2 s1 _ g1 h

theorem run_ghost_of_run (cfg : Config) (ops : List Op) :
    ∀ (s s1 : State) (g : Ghost), run cfg s ops = .ok s1 →
      ∃ g1, run_ghost cfg s g ops = .ok (s1, g1) := by
  induction ops with
  | nil =>
    intro s s1 g h
    have e : s = s1 := Except.ok.inj h
    rw [e]
    exact ⟨g, rfl⟩
  | cons op ops ih =>
    intro s s1 g h
    unfold run at h
    unfold run_ghost
    split at h
    · simp at h
    · rename_i s2 hs
      exact ih s2 s1 _ h

theorem zero_flush_eq (cfg : Config) (s : State) (in_fence_fd : Int)
    (out_fence_fd : Option Int) (ioctl_ret : Int) (ioctl_rsvd2 : Nat)
    (hz : iris_batch_bytes_used s.batch = 0) :
    _iris_batch_flush_fence cfg s in_fence_fd out_fence_fd ioctl_ret ioctl_rsvd2 =
      .ok (0, s, out_fence_fd) := by
  unfold _iris_batch_flush_fence
  rw [if_pos hz]

theorem flush_never_asserts (cfg : Config) (s : State) (hi : Inv s) (in_fence_fd : Int)
    (out_fence_fd : Option Int) (ioctl_ret : Int) (ioctl_rsvd2 : Nat) (f : Fault) (st : State)
    (h : _iris_batch_flush_fence cfg s in_fence_fd out_fence_fd ioctl_ret ioctl_rsvd2 =
      .error (f, st)) : f = Fault.abort ∧ ioctl_ret ≠ 0 := by
  by_cases hz : iris_batch_bytes_used s.batch = 0
  · rw [zero_flush_eq cfg s _ _ _ _ hz] at h
    simp at h
  · by_cases h0 : ioctl_ret = 0
    · subst h0
      rw [flush_ok_eq cfg s _ _ _ hi.1 hz] at h
      simp at h
    · rw [flush_fail_eq cfg s _ _ _ _ hi.1 hz h0] at h
      have e := Except.error.inj h
      exact ⟨(congrArg Prod.fst e).symm, h0⟩

theorem ghost_step_inv (cfg : Config) (s s1 : State) (g : Ghost) (op : Op) (hi : Inv s)
    (h0 : s.batch.exec_bos.getD 0 none = g.primary)
    (hc : s.batch.bo = s.batch.exec_bos.getD 0 none ↔ g.chained = false)
    (h : step cfg s op = .ok s1) :
    s1.batch.exec_bos.getD 0 none = (ghost_step s g op s1).primary ∧
    (s1.batch.bo = s1.batch.exec_bos.getD 0 none ↔ (ghost_step s g op s1).chained = false) := by
  have hpos : 0 < s.batch.exec_count := hi.2.1
  cases op with
  | use_pinned_bo b w =>
    obtain ⟨hb, _, _, _, u5, _, u7, _⟩ := use_pinned_spec s s1 b w hi.1 h
    obtain ⟨_, _, _, _, k5, _⟩ := add_exec_bo_keeps s b hi.1 hb
    show s1.batch.exec_bos.getD 0 none = g.primary ∧
      (s1.batch.bo = s1.batch.exec_bos.getD 0 none ↔ g.chained = false)
    rw [u7, u5, k5 0 hpos]
    exact ⟨h0, hc⟩
  | add_bo b =>
    dsimp only [step] at h
    split at h
    · rename_i hb
      have e := (Except.ok.inj h).symm
      subst e
      obtain ⟨_, _, _, _, k5, _, _, k8, _⟩ := add_exec_bo_keeps s b hi.1 hb
      show (add_exec_bo s b).2.batch.exec_bos.getD 0 none = g.primary ∧
        ((add_exec_bo s b).2.batch.bo = (add_exec_bo s b).2.batch.exec_bos.getD 0 none ↔
          g.chained = false)
      rw [k8, k5 0 hpos]
      exact ⟨h0, hc⟩
    · simp at h
  | chain =>
    obtain ⟨_, _, c3, _, _, _, _, c8, _⟩ := chain_spec cfg s s1 hi h
    show s1.batch.exec_bos.getD 0 none = g.primary ∧
      (s1.batch.bo = s1.batch.exec_bos.getD 0 none ↔ true = false)
    rw [c3, c8 0 hpos]
    refine ⟨h0, fun e => ?_, fun e => by simp at e⟩
    obtain ⟨p, p1, p2⟩ := hi.1.2.1 0 hpos
    rw [p1] at e
    have : s.heap.length = p := Option.some.inj e
    omega
  | flush i o r w =>
    dsimp only [step] at h
    split at h
    · simp at h
    · rename_i r0 s2 slot hf
      have e := (Except.ok.inj h).symm
      subst e
      obtain ⟨_, _, _, f4, f5⟩ := flush_spec cfg s s1 i o slot r r0 w hi hf
      by_cases hz : iris_batch_bytes_used s.batch = 0
      · show s1.batch.exec_bos.getD 0 none =
            (if iris_batch_bytes_used s.batch = 0 then g
              else { primary := s1.batch.bo, chained := false }).primary ∧
          (s1.batch.bo = s1.batch.exec_bos.getD 0 none ↔
            (if iris_batch_bytes_used s.batch = 0 then g
              else { primary := s1.batch.bo, chained := false }).chained = false)
        rw [if_pos hz, (f4 hz).1]
        exact ⟨h0, hc⟩
      · obtain ⟨_, g2, g3, _⟩ := f5 hz
        show s1.batch.exec_bos.getD 0 none =
            (if iris_batch_bytes_used s.batch = 0 then g
              else { primary := s1.batch.bo, chained := false }).primary ∧
          (s1.batch.bo = s1.batch.exec_bos.getD 0 none ↔
            (if iris_batch_bytes_used s.batch = 0 then g
              else { primary := s1.batch.bo, chained := false }).chained = false)
        rw [if_neg hz, g3, g2]
        exact ⟨rfl, fun _ => rfl, fun _ => rfl⟩
  | emit bytes =>
    have e := (Except.ok.inj h).symm
    subst e
    exact ⟨h0, hc⟩
  | poke_index b v =>
    have e := (Except.ok.inj h).symm
    subst e
    exact ⟨h0, hc⟩

theorem ghost_run_inv (cfg : Config) (ops : List Op) :
    ∀ (s s1 : State) (g g1 : Ghost), Inv s →
      s.batch.exec_bos.getD 0 none = g.primary →
      (s.batch.bo = s.batch.exec_bos.getD 0 none ↔ g.chained = false) →
      run_ghost cfg s g ops = .ok (s1, g1) →
      Inv s1 ∧ s1.batch.exec_bos.getD 0 none = g1.primary ∧
      (s1.batch.bo = s1.batch.exec_bos.getD 0 none ↔ g1.chained = false) := by
  induction ops with
  | nil =>
    intro s s1 g g1 hi h0 hc h
    have e := Except.ok.inj h
    have e1 : s = s1 := congrArg Prod.fst e
    have e2 : g = g1 := congrArg Prod.snd e
    subst e1
    subst e2
    exact ⟨hi, h0, hc⟩
  | cons op ops ih =>
    intro s s1 g g1 hi h0 hc h
    unfold run_ghost at h
    split at h
    · simp at h
    · rename_i s2 hs
      obtain ⟨a1, a2⟩ := ghost_step_inv cfg s s2 g op hi h0 hc hs
      exact ih s2 s1 _ g1 (inv_step cfg s s2 op hi hs) a1 a2 h

theorem init_fails_early (cfg : Config) (s0 : State) (engine : Nat) (e : Fault × State)
    (h : iris_init_batch cfg s0 engine = .error e) : e = (Fault.assertion, s0) := by
  unfold iris_init_batch at h
  split at h
  · exact (Except.error.inj h).symm
  · split at h
    · exact (Except.error.inj h).symm
    · dsimp only at h
      generalize hb : ({ s0 with batch := { s0.batch with
              engine := engine % 256
              exec_count := 0
              exec_array_size := 100
              exec_bos := List.replicate 100 none
              validation_list := List.replicate 100 default } } : State) = sb at h
      have b2 : sb.batch.exec_count = 0 := by rw [← hb]
      have b5 : batch_wf sb.batch := by
        rw [← hb]
        exact ⟨Nat.lt_of_sub_eq_succ rfl, Nat.zero_le _, List.length_replicate _ _,
          List.length_replicate _ _⟩
      rw [reset_returns cfg sb (list_inv_empty _ _ b5 b2) b2] at h
      simp at h

/-- C18: Slot 0 holds the primary command buffer.  Along every run from
`iris_init_batch`, with the primary command buffer of the current batch
recorded as the `batch->bo` designated when the last reset completed and
"chained" as `iris_chain_to_new_batch` having returned since:
`exec_count >= 1`, `exec_bos[0]` is that primary command buffer, a valid
object, and it equals `batch->bo` exactly when the batch is not chained.
Consequently the assertion `batch->bo->index == 0` of `iris_batch_reset`
never fails: a flush of such a state stops only at the `abort()` of a refused
submission, and `iris_init_batch` stops only at its engine assertions, in the
state it was called in. -/
theorem slot_zero_is_primary (cfg : Config) (s0 s1 s : State) (engine : Nat) (ops : List Op)
    (g : Ghost)
    (hinit : iris_init_batch cfg s0 engine = .ok s1)
    (hrun : run_ghost cfg s1 { primary := s1.batch.bo, chained := false } ops = .ok (s, g)) :
    run cfg s1 ops = .ok s ∧
    1 ≤ s.batch.exec_count ∧
    s.batch.exec_bos.getD 0 none = g.primary ∧
    (∃ p, g.primary = some p ∧ p < s.heap.length) ∧
    (s.batch.bo = s.batch.exec_bos.getD 0 none ↔ g.chained = false) ∧
    (∀ i o r w f st, _iris_batch_flush_fence cfg s i o r w = .error (f, st) →
      f = Fault.abort ∧ r ≠ 0) ∧
    (∀ s2 engine2 e, iris_init_batch cfg s2 engine2 = .error e → e = (Fault.assertion, s2)) := by
  obtain ⟨i1, _, i3, i4, _⟩ := init_spec cfg s0 s1 engine hinit
  obtain ⟨r1, r2, r3⟩ := ghost_run_inv cfg ops s1 s _ g i1 (by rw [i3, i4])
    ⟨fun _ => rfl, fun _ => by rw [i3, i4]⟩ hrun
  refine ⟨run_of_run_ghost cfg ops s1 s _ g hrun, r1.2.1, r2, ?_, r3,
    fun i o r w f st h => flush_never_asserts cfg s r1 i o r w f st h,
    fun s2 engine2 e h => init_fails_early cfg s2 engine2 e h⟩
  obtain ⟨p, p1, p2⟩ := r1.1.2.1 0 r1.2.1
  exact ⟨p, by rw [← r2]; exact p1, p2⟩

/-- Witness for C18: the sample batch is filled, chained, and flushed after
two more bytes; the record ends with the new command buffer as primary and
the batch not chained. -/
theorem slot_zero_is_primary_witness :
    ∃ s g,
      run_ghost sample_cfg sample_init { primary := sample_init.batch.bo, chained := false }
        [.use_pinned_bo 0 false, .emit [1, 2, 3, 4], .chain, .emit [5, 6], .flush (-1) none 0 0]
        = .ok (s, g) ∧
      1 ≤ s.batch.exec_count ∧
      s.batch.exec_bos.getD 0 none = g.primary ∧
      (s.batch.bo = s.batch.exec_bos.getD 0 none ↔ g.chained = false) :=
  ⟨_, _, rfl,
   (slot_zero_is_primary sample_cfg sample_prior sample_init _ 1
      [.use_pinned_bo 0 false, .emit [1, 2, 3, 4], .chain, .emit [5, 6], .flush (-1) none 0 0]
      _ rfl rfl).2.1,
   (slot_zero_is_primary sample_cfg sample_prior sample_init _ 1
      [.use_pinned_bo 0 false, .emit [1, 2, 3, 4], .chain, .emit [5, 6], .flush (-1) none 0 0]
      _ rfl rfl).2.2.1,
   (slot_zero_is_primary sample_cfg sample_prior sample_init _ 1
      [.use_pinned_bo 0 false, .emit [1, 2, 3, 4], .chain, .emit [5, 6], .flush (-1) none 0 0]
      _ rfl rfl).2.2.2.2.1⟩

/-! ## What an append changes -/

/-- C19, as stated, fails: `aperture_space` is an `int`, and adding the size
of a large object takes it out of range.  On a freshly initialised batch
(`aperture_space == 20496`, the command buffer) `add_exec_bo` of a 2 GiB
object that is not in the list leaves `aperture_space` at `-2147463152`, not
at `20496 + 2147483648`. -/
theorem add_exec_bo_overflows_aperture :
    iris_init_batch sample_cfg big_prior 1 = .ok big_init ∧
    batch_wf big_init.batch ∧ 0 < big_init.heap.length ∧ ¬ resident big_init.batch 0 ∧
    big_init.batch.aperture_space = 20496 ∧
    (bo_get big_init.heap 0).size = 2147483648 ∧
    (add_exec_bo big_init 0).2.batch.exec_count = big_init.batch.exec_count + 1 ∧
    (add_exec_bo big_init 0).2.batch.aperture_space = -2147463152 ∧
    (add_exec_bo big_init 0).2.batch.aperture_space ≠
      big_init.batch.aperture_space + (bo_get big_init.heap 0).size := by
  refine ⟨rfl, ?_, by decide, by decide, by decide, by decide, by decide, by decide, by decide⟩
  unfold batch_wf
  decide

/-- C19 (amended): Frame and effect of an append.  For every batch whose
arrays have the capacity it records and every buffer object `bo` of the heap
that is not in the residency list, `add_exec_bo(batch, bo)` returns the old
`exec_count` `n`, makes `exec_count` `n + 1`, stores the entry
`(handle = bo.gem_handle, offset = bo.gtt_offset, flags = bo.kflags)` and
`bo` itself at index `n`, sets the cached index of `bo` to `n`, adds
`bo.size` to `aperture_space` as long as the new total is in the range
`[-2^31, 2^31)` of that `int` field, increments the reference count of `bo`
by exactly one and changes no other reference count, and leaves all entries
at indices below `n` as they were, at the same indices. -/
theorem add_exec_bo_appends (s : State) (bo : Nat) (hwf : batch_wf s.batch)
    (hb : bo < s.heap.length) (hnew : ¬ resident s.batch bo) :
    (add_exec_bo s bo).1 = s.batch.exec_count ∧
    (add_exec_bo s bo).2.batch.exec_count = s.batch.exec_count + 1 ∧
    (add_exec_bo s bo).2.batch.validation_list.getD s.batch.exec_count default =
      { handle := (bo_get s.heap bo).gem_handle
        offset := (bo_get s.heap bo).gtt_offset
        flags := (bo_get s.heap bo).kflags } ∧
    (add_exec_bo s bo).2.batch.exec_bos.getD s.batch.exec_count none = some bo ∧
    (bo_get (add_exec_bo s bo).2.heap bo).index = s.batch.exec_count ∧
    (-2147483648 ≤ s.batch.aperture_space + (bo_get s.heap bo).size →
      s.batch.aperture_space + (bo_get s.heap bo).size < 2147483648 →
      (add_exec_bo s bo).2.batch.aperture_space =
        s.batch.aperture_space + (bo_get s.heap bo).size) ∧
    (bo_get (add_exec_bo s bo).2.heap bo).refcount = (bo_get s.heap bo).refcount + 1 ∧
    (∀ p, p ≠ bo →
      (bo_get (add_exec_bo s bo).2.heap p).refcount = (bo_get s.heap p).refcount) ∧
    (∀ j, j < s.batch.exec_count →
      (add_exec_bo s bo).2.batch.exec_bos.getD j none = s.batch.exec_bos.getD j none ∧
      (add_exec_bo s bo).2.batch.validation_list.getD j default =
        s.batch.validation_list.getD j default) := by
  have happ : add_exec_bo s bo = add_exec_bo_append s bo := by
    rcases add_exec_bo_cases s bo with ⟨i, h1, h2, _⟩ | ⟨_, n2⟩
    · exact absurd ⟨i, h1, h2⟩ hnew
    · exact n2
  rw [happ]
  obtain ⟨a1, a2, _, a4, a5, a6, a7, a8, a9, _⟩ := append_spec s bo hwf
  refine ⟨a1, a2, a6, a4, ?_, fun h1 h2 => ?_, ?_, fun p hp => ?_,
    fun j hj => ⟨a5 j hj, a7 j hj⟩⟩
  · rw [a9, bo_get_upd_eq _ _ _ (by
      show bo < (iris_bo_reference s.heap bo).length
      unfold iris_bo_reference
      rw [bo_upd_length]
      exact hb)]
  · rw [a8]
    exact to_int32_fits _ h1 h2
  · rw [refcount_after_append s bo bo hwf, if_pos ⟨rfl, hb⟩]
  · rw [refcount_after_append s bo p hwf, if_neg (fun c => hp c.1.symm)]
    omega

/-- Witness for C19 (amended): X is added to the sample batch right after
`iris_init_batch`, at index 1; `aperture_space` goes from 20496 to 24592. -/
theorem add_exec_bo_appends_witness :
    batch_wf sample_init.batch ∧ ¬ resident sample_init.batch 0 ∧
    (add_exec_bo sample_init 0).1 = 1 ∧
    (add_exec_bo sample_init 0).2.batch.exec_count = 2 ∧
    (bo_get (add_exec_bo sample_init 0).2.heap 0).index = 1 ∧
    sample_init.batch.aperture_space = 20496 ∧
    (add_exec_bo sample_init 0).2.batch.aperture_space =
      sample_init.batch.aperture_space + (bo_get sample_init.heap 0).size ∧
    (bo_get (add_exec_bo sample_init 0).2.heap 0).refcount =
      (bo_get sample_init.heap 0).refcount + 1 := by
  have t := add_exec_bo_appends sample_init 0 (by unfold batch_wf; decide) (by decide)
    (by decide)
  exact ⟨by unfold batch_wf; decide, by decide, t.1, t.2.1, t.2.2.2.2.1, by decide,
    t.2.2.2.2.2.1 (by decide) (by decide), t.2.2.2.2.2.2.1⟩

/-! ## Reference counts -/

theorem list_holds_congr (bos bos1 : List (Option Nat)) (p : Nat) (fuel : Nat) :
    ∀ i, (∀ j, i ≤ j → j < i + fuel → bos1.getD j none = bos.getD j none) →
      list_holds bos1 p fuel i = list_holds bos p fuel i := by
  induction fuel with
  | zero => intro i _; rfl
  | succ n ih =>
    intro i h
    unfold list_holds
    rw [h i (le_refl _) (by omega), ih (i + 1) (fun j h1 h2 => h j (by omega) (by omega))]

theorem list_holds_succ (bos : List (Option Nat)) (p : Nat) (fuel : Nat) :
    ∀ i, list_holds bos p (fuel + 1) i =
      list_holds bos p fuel i + (if bos.getD (i + fuel) none = some p then 1 else 0) := by
  induction fuel with
  | zero =>
    intro i
    simp [list_holds]
  | succ n ih =>
    intro i
    rw [list_holds, ih (i + 1), list_holds]
    have e : i + 1 + n = i + (n + 1) := by omega
    rw [e]
    omega

theorem list_holds_zero (bos : List (Option Nat)) (p : Nat) (fuel : Nat) :
    ∀ i, (∀ j, i ≤ j → j < i + fuel → bos.getD j none ≠ some p) →
      list_holds bos p fuel i = 0 := by
  induction fuel with
  | zero => intro i _; rfl
  | succ n ih =>
    intro i h
    unfold list_holds
    rw [if_neg (h i (le_refl _) (by omega)), ih (i + 1) (fun j h1 h2 => h j (by omega) (by omega))]
    rfl

theorem list_holds_one (bos : List (Option Nat)) (p k : Nat) (fuel : Nat) :
    ∀ i, i ≤ k → k < i + fuel → bos.getD k none = some p →
      (∀ j, i ≤ j → j < i + fuel → bos.getD j none = some p → j = k) →
      list_holds bos p fuel i = 1 := by
  induction fuel with
  | zero => intro i h1 h2; omega
  | succ n ih =>
    intro i h1 h2 hk hu
    unfold list_holds
    by_cases e : i = k
    · subst e
      rw [if_pos hk, list_holds_zero bos p n (i + 1) (fun j a b c => by
        have := hu j (by omega) (by omega) c
        omega)]
      rfl
    · have hne : bos.getD i none ≠ some p := fun c => e (hu i (le_refl _) (by omega) c)
      rw [if_neg hne, ih (i + 1) (by omega) (by omega) hk
        (fun j a b c => hu j (by omega) (by omega) c)]
      rfl

theorem list_holds_resident (heap : List iris_bo) (b : iris_batch) (p : Nat)
    (hi : list_inv heap b) :
    list_holds b.exec_bos p b.exec_count 0 = (if resident b p then 1 else 0) := by
  by_cases hr : resident b p
  · rw [if_pos hr]
    obtain ⟨k, k1, k2⟩ := hr
    exact list_holds_one _ _ k _ 0 (Nat.zero_le _) (by omega) k2
      (fun j _ hj hb => hi.2.2.1 j k (by omega) k1 (hb.trans k2.symm))
  · rw [if_neg hr]
    exact list_holds_zero _ _ _ 0 (fun j _ hj hb => hr ⟨j, by omega, hb⟩)

theorem refcount_unreference (h : List iris_bo) (q : Option Nat) (p : Nat) :
    (bo_get (iris_bo_unreference h q) p).refcount =
      (bo_get h p).refcount - (if q = some p ∧ p < h.length then 1 else 0) := by
  cases q with
  | none => simp [iris_bo_unreference]
  | some x =>
    show (bo_get (bo_upd h x (fun b => { b with refcount := b.refcount - 1 })) p).refcount = _
    rw [bo_get_upd]
    by_cases c : x = p
    · subst c
      by_cases l : x < h.length
      · rw [if_pos ⟨rfl, l⟩, if_pos ⟨rfl, l⟩]
      · rw [if_neg (fun c => l c.2), if_neg (fun c => l c.2)]
        omega
    · rw [if_neg (fun d => c d.1), if_neg (fun d => c (Option.some.inj d.1))]
      omega

theorem unreference_length (h : List iris_bo) (q : Option Nat) :
    (iris_bo_unreference h q).length = h.length := by
  cases q <;> simp [iris_bo_unreference, bo_upd_length]

theorem unref_loop_congr (bos bos1 : List (Option Nat)) (fuel : Nat) :
    ∀ (heap : List iris_bo) (i : Nat),
      (∀ j, i ≤ j → j < i + fuel → bos1.getD j none = bos.getD j none) →
      unreference_exec_bos heap bos1 fuel i = unreference_exec_bos heap bos fuel i := by
  induction fuel with
  | zero => intro heap i _; rfl
  | succ n ih =>
    intro heap i h
    unfold unreference_exec_bos
    rw [h i (le_refl _) (by omega), ih _ (i + 1) (fun j h1 h2 => h j (by omega) (by omega))]

theorem release_fst (fuel : Nat) :
    ∀ (heap : List iris_bo) (bos : List (Option Nat)) (i : Nat),
      (release_exec_bos heap bos fuel i).1 = unreference_exec_bos heap bos fuel i := by
  induction fuel with
  | zero => intro heap bos i; rfl
  | succ n ih =>
    intro heap bos i
    unfold release_exec_bos unreference_exec_bos
    rw [ih, unref_loop_congr bos (bos.set i none) n _ (i + 1)
      (fun j h1 _ => getD_set_ne _ _ _ _ _ (by omega))]

theorem refcount_unref_loop (bos : List (Option Nat)) (p : Nat) (fuel : Nat) :
    ∀ (heap : List iris_bo) (i : Nat),
      (∀ j q, i ≤ j → j < i + fuel → bos.getD j none = some q → q < heap.length) →
      (bo_get (unreference_exec_bos heap bos fuel i) p).refcount =
        (bo_get heap p).refcount - list_holds bos p fuel i := by
  induction fuel with
  | zero =>
    intro heap i _
    simp [unreference_exec_bos, list_holds]
  | succ n ih =>
    intro heap i h
    unfold unreference_exec_bos list_holds
    rw [ih _ (i + 1) (fun j q h1 h2 h3 => by
      rw [unreference_length]
      exact h j q (by omega) (by omega) h3), refcount_unreference]
    by_cases c : bos.getD i none = some p
    · rw [if_pos ⟨c, h i p (le_refl _) (by omega) c⟩, if_pos c]
      omega
    · rw [if_neg (fun d => c d.1), if_neg c]
      omega

theorem refcount_mark_submitted (bos : List (Option Nat)) (p : Nat) (fuel : Nat) :
    ∀ (heap : List iris_bo) (i : Nat),
      (bo_get (mark_submitted heap bos fuel i) p).refcount = (bo_get heap p).refcount := by
  induction fuel with
  | zero => intro heap i; rfl
  | succ n ih =>
    intro heap i
    unfold mark_submitted
    split
    · exact ih heap (i + 1)
    · rw [ih]
      exact refcount_upd _ _ _ _ (fun _ => rfl)

theorem refcount_alloc (cfg : Config) (h : List iris_bo) (size p : Nat) :
    (bo_get (iris_bo_alloc cfg h size).1 p).refcount =
      (if p = h.length then 1 else (bo_get h p).refcount) := by
  unfold iris_bo_alloc
  dsimp only
  by_cases c : p = h.length
  · subst c
    rw [if_pos rfl, bo_get_append_new]
  · rw [if_neg c]
    by_cases l : p < h.length
    · rw [bo_get_append_left _ _ _ l]
    · rw [bo_get_invalid _ p (by simp; omega), bo_get_invalid h p (by omega)]

theorem create_batch_rc (cfg : Config) (s : State) (hi : list_inv s.heap s.batch) (p : Nat) :
    (bo_get (create_batch cfg s).heap p).refcount =
      (if p = s.heap.length then 2 else (bo_get s.heap p).refcount) := by
  rw [create_batch_eq]
  generalize hs1 :
    ({ s with
        heap := bo_upd (iris_bo_alloc cfg s.heap (cfg.BATCH_SZ + BATCH_RESERVED)).1 s.heap.length
          (fun b => { b with kflags := b.kflags ||| EXEC_OBJECT_CAPTURE })
        batch := { s.batch with
          bo := some s.heap.length
          map := iris_bo_map s.heap.length
          map_next := iris_bo_map s.heap.length
          contains_draw := false } } : State) = s1
  have e_heap : s1.heap = bo_upd (iris_bo_alloc cfg s.heap (cfg.BATCH_SZ + BATCH_RESERVED)).1
      s.heap.length (fun b => { b with kflags := b.kflags ||| EXEC_OBJECT_CAPTURE }) := by
    rw [← hs1]
  have e_cnt : s1.batch.exec_count = s.batch.exec_count := by rw [← hs1]
  have e_bos : s1.batch.exec_bos = s.batch.exec_bos := by rw [← hs1]
  have e_wf : batch_wf s1.batch := by
    rw [← hs1]
    exact hi.1
  have hlen : s1.heap.length = s.heap.length + 1 := by
    rw [e_heap, bo_upd_length]
    simp [iris_bo_alloc]
  have hnew : ∀ j, j < s1.batch.exec_count →
      s1.batch.exec_bos.getD j none ≠ some s.heap.length := by
    intro j hj hc
    rw [e_cnt] at hj
    rw [e_bos] at hc
    obtain ⟨q, q1, q2⟩ := hi.2.1 j hj
    rw [q1] at hc
    have : q = s.heap.length := Option.some.inj hc
    omega
  have happ : add_exec_bo s1 s.heap.length = add_exec_bo_append s1 s.heap.length := by
    rcases add_exec_bo_cases s1 s.heap.length with ⟨i, h1, h2, _⟩ | ⟨_, n2⟩
    · exact absurd h2 (hnew i h1)
    · exact n2
  rw [happ, refcount_after_append s1 s.heap.length p e_wf, e_heap,
    refcount_upd _ _ _ (fun b => { b with kflags := b.kflags ||| EXEC_OBJECT_CAPTURE })
      (fun _ => rfl), refcount_alloc, bo_upd_length]
  by_cases c : p = s.heap.length
  · subst c
    rw [if_pos rfl, if_pos ⟨rfl, by simp [iris_bo_alloc]⟩, if_pos rfl]
    rfl
  · rw [if_neg c, if_neg (fun d => c d.1.symm), if_neg c]
    omega

theorem balanced_of_eq {s0 s s1 : State} (hb : balanced s0 s) (e1 : s1.heap = s.heap)
    (e2 : s1.batch.exec_bos = s.batch.exec_bos) (e3 : s1.batch.exec_count = s.batch.exec_count)
    (e4 : s1.batch.bo = s.batch.bo) (e5 : s1.batch.last_bo = s.batch.last_bo) :
    balanced s0 s1 := by
  unfold balanced at *
  rw [e1, e2, e3, e4, e5]
  exact hb

theorem balanced_of_rc {s0 s s1 : State} (hb : balanced s0 s)
    (e0 : s1.heap.length = s.heap.length)
    (e1 : ∀ p, (bo_get s1.heap p).refcount = (bo_get s.heap p).refcount)
    (e2 : s1.batch.exec_bos = s.batch.exec_bos) (e3 : s1.batch.exec_count = s.batch.exec_count)
    (e4 : s1.batch.bo = s.batch.bo) (e5 : s1.batch.last_bo = s.batch.last_bo) :
    balanced s0 s1 := by
  unfold balanced at *
  rw [e0, e2, e3, e4, e5]
  exact ⟨hb.1, hb.2.1, hb.2.2.1, fun p => by rw [e1 p]; exact hb.2.2.2 p⟩

/-- The balance after `create_batch` on a state in which the hold of
`batch->bo` has been dropped or handed to `last_bo`. -/
theorem balanced_create (cfg : Config) (s0 t : State) (hi : list_inv t.heap t.batch)
    (hlen : s0.heap.length ≤ t.heap.length)
    (hlast : ∀ l, t.batch.last_bo = some l → s0.heap.length ≤ l ∧ l < t.heap.length)
    (hrc : ∀ p, (bo_get t.heap p).refcount =
      (bo_get s0.heap p).refcount + list_holds t.batch.exec_bos p t.batch.exec_count 0 +
        (if t.batch.last_bo = some p then 1 else 0)) :
    balanced s0 (create_batch cfg t) := by
  obtain ⟨c1, c2, _, _, c5, c6, c7, _⟩ := create_batch_spec cfg t hi
  obtain ⟨g1, _⟩ := create_batch_frame cfg t
  refine ⟨by rw [c2]; omega, fun p hp => ?_, fun l hl => ?_, fun p => ?_⟩
  · rw [c1] at hp
    have : t.heap.length = p := Option.some.inj hp
    omega
  · rw [g1] at hl
    have := hlast l hl
    rw [c2]
    omega
  · rw [create_batch_rc cfg t hi p, c1, g1, c5, list_holds_succ, Nat.zero_add, c6,
      list_holds_congr t.batch.exec_bos _ p _ 0 (fun j _ hj => c7 j (by omega))]
    by_cases c : p = t.heap.length
    · subst c
      have z : list_holds t.batch.exec_bos t.heap.length t.batch.exec_count 0 = 0 :=
        list_holds_zero _ _ _ 0 (fun j _ hj hc => by
          obtain ⟨q, q1, q2⟩ := hi.2.1 j (by omega)
          rw [q1] at hc
          have : q = t.heap.length := Option.some.inj hc
          omega)
      have l0 : ¬ t.batch.last_bo = some t.heap.length := fun hc => by
        have := hlast _ hc
        omega
      have d0 : (bo_get s0.heap t.heap.length).refcount = 0 := by
        rw [bo_get_invalid s0.heap _ hlen]
        rfl
      simp [l0, z, d0]
    · have n1 : ¬ (t.heap.length = p) := fun d => c d.symm
      simp only [if_neg c, if_neg n1, hrc p, Option.some.injEq]
      omega

theorem refcount_store32 (h : List iris_bo) (m : map_ptr) (v p : Nat) :
    (bo_get (store32 h m v) p).refcount = (bo_get h p).refcount :=
  refcount_upd h m.bo p (fun b => { b with map_cpu := store_le b.map_cpu m.off v 4 })
    (fun _ => rfl)

theorem refcount_store64 (h : List iris_bo) (m : map_ptr) (v p : Nat) :
    (bo_get (store64 h m v) p).refcount = (bo_get h p).refcount :=
  refcount_upd h m.bo p (fun b => { b with map_cpu := store_le b.map_cpu m.off v 8 })
    (fun _ => rfl)

theorem balanced_add (s0 s : State) (b : Nat) (hi : list_inv s.heap s.batch)
    (hb : b < s.heap.length) (hbal : balanced s0 s) : balanced s0 (add_exec_bo s b).2 := by
  have k3 := (add_exec_bo_keeps s b hi hb).2.2.1
  rcases add_exec_bo_cases s b with ⟨i, _, _, h3⟩ | ⟨n1, n2⟩
  · rw [h3]
    exact hbal
  · rw [n2] at k3 ⊢
    obtain ⟨_, a2, _, a4, a5, _⟩ := append_spec s b hi.1
    obtain ⟨f1, f2, _⟩ := append_frame s b
    obtain ⟨b1, b2, b3, b4⟩ := hbal
    refine ⟨by rw [k3]; exact b1, by rw [f1]; exact b2,
      fun l hl1 => by rw [k3]; exact b3 l (by rw [← f2]; exact hl1), fun p => ?_⟩
    rw [refcount_after_append s b p hi.1, a2, list_holds_succ, Nat.zero_add, a4,
      list_holds_congr s.batch.exec_bos _ p _ 0 (fun j _ hj => a5 j (by omega)), f1, f2, b4 p]
    by_cases c : b = p
    · subst c
      simp only [hb, and_self, if_true]
      omega
    · simp only [c, false_and, if_false, Option.some.injEq]
      omega

theorem balanced_chain (cfg : Config) (s0 s : State) (hi : Inv s) (hbal : balanced s0 s) :
    balanced s0 (create_batch cfg (chain_prepare s)) := by
  obtain ⟨i1, _, q, i3, i4⟩ := hi
  obtain ⟨b1, b2, b3, b4⟩ := hbal
  have hl : (chain_prepare s).heap.length = s.heap.length := unreference_length _ _
  have ht : list_inv (chain_prepare s).heap (chain_prepare s).batch :=
    list_inv_of_eq (list_inv_heap_ext i1 (heap_ext_unreference s.heap s.batch.bo)) rfl rfl rfl rfl
  refine balanced_create cfg s0 _ ht (by rw [hl]; exact b1)
    (fun l h => by rw [hl]; exact b3 l h) (fun p => ?_)
  show (bo_get (iris_bo_unreference s.heap s.batch.bo) p).refcount =
    (bo_get s0.heap p).refcount + list_holds s.batch.exec_bos p s.batch.exec_count 0 +
      (if s.batch.last_bo = some p then 1 else 0)
  rw [refcount_unreference, b4 p, i3]
  by_cases c : q = p
  · subst c
    simp only [i4, and_self, if_true]
    omega
  · simp only [c, Option.some.injEq, false_and, if_false]
    omega

theorem balanced_flush (cfg : Config) (s0 s : State) (in_fence_fd : Int)
    (out_fence_fd : Option Int) (hi : Inv s) (hbal : balanced s0 s) :
    balanced s0 (create_batch cfg (reset_prepare (flush_cleanup
      (submit_done (iris_finish_batch s) in_fence_fd out_fence_fd)))) := by
  obtain ⟨i1, _, q, i3, i4⟩ := hi
  obtain ⟨b1, b2, b3, b4⟩ := hbal
  obtain ⟨_, f2, f3, f4, _, _, f7, _⟩ := finish_spec s
  obtain ⟨g1, _⟩ := finish_frame s
  have hf := list_inv_finish s i1
  obtain ⟨d1, d2, d3, _⟩ := submit_done_spec (iris_finish_batch s) in_fence_fd out_fence_fd
  have hd : list_inv (submit_done (iris_finish_batch s) in_fence_fd out_fence_fd).heap
      (submit_done (iris_finish_batch s) in_fence_fd out_fence_fd).batch :=
    list_inv_heap_ext hf d2
  obtain ⟨c1, c2, _, c4, _, c6, c7, _⟩ := flush_cleanup_spec _ hd
  obtain ⟨_, r2, r3, r4, r5, _, _, r8, _⟩ := reset_prepare_spec
    (flush_cleanup (submit_done (iris_finish_batch s) in_fence_fd out_fence_fd))
  have ht := list_inv_reset_prepare _ c1
  have hlen : (reset_prepare (flush_cleanup
      (submit_done (iris_finish_batch s) in_fence_fd out_fence_fd))).heap.length =
        s.heap.length := by
    rw [r2, c4, d3, f2]
  have hlast : (reset_prepare (flush_cleanup
      (submit_done (iris_finish_batch s) in_fence_fd out_fence_fd))).batch.last_bo = some q := by
    rw [r8, c6, d1, f7, i3]
  have hrel : ∀ p, (bo_get (flush_cleanup
      (submit_done (iris_finish_batch s) in_fence_fd out_fence_fd)).heap p).refcount =
        (bo_get s.heap p).refcount - list_holds s.batch.exec_bos p s.batch.exec_count 0 := by
    intro p
    show (bo_get (release_exec_bos
      (submit_done (iris_finish_batch s) in_fence_fd out_fence_fd).heap
      (submit_done (iris_finish_batch s) in_fence_fd out_fence_fd).batch.exec_bos
      (submit_done (iris_finish_batch s) in_fence_fd out_fence_fd).batch.exec_count 0).1
        p).refcount = _
    rw [release_fst, refcount_unref_loop _ p _ _ 0 (fun j x _ hj hx => by
      obtain ⟨y, y1, y2⟩ := hd.2.1 j (by omega)
      rw [y1] at hx
      rw [← Option.some.inj hx]
      exact y2), d1, f3, f4]
    show (bo_get (mark_submitted (iris_finish_batch s).heap (iris_finish_batch s).batch.exec_bos
      (iris_finish_batch s).batch.exec_count 0) p).refcount - _ = _
    rw [refcount_mark_submitted, (finish_keeps s).2 p]
  refine balanced_create cfg s0 _ ht (by rw [hlen]; exact b1)
    (fun l h => ?_) (fun p => ?_)
  · rw [hlast] at h
    rw [hlen, ← Option.some.inj h]
    exact ⟨b2 q i3, i4⟩
  · rw [hlast, r3, r4, c2, refcount_unreference, hrel p, c7, d1, g1, c4, d3, f2, b4 p, i3]
    have z : list_holds (reset_prepare (flush_cleanup
        (submit_done (iris_finish_batch s) in_fence_fd out_fence_fd))).batch.exec_bos p 0 0 = 0 :=
      rfl
    rw [z]
    cases hl : s.batch.last_bo with
    | none =>
      simp only [false_and, if_false, reduceCtorEq]
      omega
    | some l =>
      have hv := (b3 l hl).2
      by_cases c : l = p
      · subst c
        simp only [hv, and_self, if_true]
        omega
      · simp only [c, Option.some.injEq, false_and, if_false]
        omega
theorem balanced_init (cfg : Config) (s0 s1 : State) (engine : Nat)
    (hz : s0.batch.bo = none ∧ s0.batch.last_bo = none)
    (h : iris_init_batch cfg s0 engine = .ok s1) : balanced s0 s1 := by
  unfold iris_init_batch at h
  split at h
  · simp at h
  · split at h
    · simp at h
    · dsimp only at h
      generalize hb : ({ s0 with batch := { s0.batch with
              engine := engine % 256
              exec_count := 0
              exec_array_size := 100
              exec_bos := List.replicate 100 none
              validation_list := List.replicate 100 default } } : State) = sb at h
      have b1 : sb.heap = s0.heap := by rw [← hb]
      have b2 : sb.batch.exec_count = 0 := by rw [← hb]
      have b3 : sb.batch.bo = none := by rw [← hb]; exact hz.1
      have b4 : sb.batch.last_bo = none := by rw [← hb]; exact hz.2
      have b5 : batch_wf sb.batch := by
        rw [← hb]
        exact ⟨Nat.lt_of_sub_eq_succ rfl, Nat.zero_le _, List.length_replicate _ _,
          List.length_replicate _ _⟩
      have hi := list_inv_empty sb.heap sb.batch b5 b2
      rw [reset_returns cfg sb hi b2] at h
      have e := (Except.ok.inj h).symm
      subst e
      obtain ⟨_, r2, r3, r4, _, _, _, r8, _⟩ := reset_prepare_spec sb
      have hh : (reset_prepare sb).heap = s0.heap := by
        rw [r3, b4, ← b1]
        rfl
      refine balanced_create cfg s0 _ (list_inv_reset_prepare sb hi) (by rw [hh])
        (fun l hl => ?_) (fun p => ?_)
      · rw [r8, b3] at hl
        simp at hl
      · rw [hh, r8, b3, r4, b2]
        simp [list_holds]

theorem balanced_step (cfg : Config) (s0 s s1 : State) (op : Op) (hi : Inv s)
    (hbal : balanced s0 s) (h : step cfg s op = .ok s1) : balanced s0 s1 := by
  cases op with
  | use_pinned_bo b w =>
    obtain ⟨hb, _⟩ := use_pinned_spec s s1 b w hi.1 h
    obtain ⟨u1, u2, _, _, _, _, _, _, u9, u10, u11⟩ := use_pinned_frame s s1 b w h
    obtain ⟨f1, f2, _⟩ := add_exec_bo_frame s b
    exact balanced_of_eq (balanced_add s0 s b hi.1 hb hbal) u9 u11 u10 (by rw [u1, f1])
      (by rw [u2, f2])
  | add_bo b =>
    dsimp only [step] at h
    split at h
    · rename_i hb
      have e := (Except.ok.inj h).symm
      subst e
      exact balanced_add s0 s b hi.1 hb hbal
    · simp at h
  | chain =>
    have hc := balanced_chain cfg s0 s hi hbal
    obtain ⟨_, j2, _⟩ := chain_spec cfg s s1 hi h
    have ht : list_inv (chain_prepare s).heap (chain_prepare s).batch :=
      list_inv_of_eq (list_inv_heap_ext hi.1 (heap_ext_unreference s.heap s.batch.bo))
        rfl rfl rfl rfl
    obtain ⟨c1, _⟩ := create_batch_spec cfg (chain_prepare s) ht
    dsimp only [step] at h
    rw [chain_eq, if_neg (fun c => c j2), c1] at h
    dsimp only at h
    have e := (Except.ok.inj h).symm
    subst e
    refine balanced_of_rc hc ?_ (fun p => ?_) rfl rfl rfl rfl
    · simp [store32, store64, bo_upd_length]
    · dsimp only
      rw [refcount_store64, refcount_store32]
  | flush i o r w =>
    dsimp only [step] at h
    by_cases hz : iris_batch_bytes_used s.batch = 0
    · rw [zero_flush_eq cfg s _ _ _ _ hz] at h
      have e := (Except.ok.inj h).symm
      subst e
      exact hbal
    · by_cases h0 : r = 0
      · subst h0
        rw [flush_ok_eq cfg s _ _ _ hi.1 hz] at h
        have e := (Except.ok.inj h).symm
        subst e
        exact balanced_flush cfg s0 s i o hi hbal
      · rw [flush_fail_eq cfg s _ _ _ _ hi.1 hz h0] at h
        simp at h
  | emit bytes =>
    have e := (Except.ok.inj h).symm
    subst e
    exact balanced_of_rc hbal (emit_spec s bytes).2.1
      (fun p => refcount_upd s.heap s.batch.map_next.bo p
        (fun b => { b with
          map_cpu := (bytes.enum.map (fun e => (s.batch.map_next.off + e.1, e.2))).reverse
                       ++ b.map_cpu })
        (fun _ => rfl)) rfl rfl rfl rfl
  | poke_index b v =>
    have e := (Except.ok.inj h).symm
    subst e
    exact balanced_of_rc hbal (poke_spec s b v).2.1
      (fun p => (bo_get_poke s.heap b v p).2.2.2.2) rfl rfl rfl rfl

theorem balanced_run (cfg : Config) (s0 : State) (ops : List Op) :
    ∀ (s s1 : State), Inv s → balanced s0 s → run cfg s ops = .ok s1 → balanced s0 s1 := by
  induction ops with
  | nil =>
    intro s s1 _ hb h
    have e := (Except.ok.inj h).symm
    subst e
    exact hb
  | cons op ops ih =>
    intro s s1 hi hb h
    unfold run at h
    split at h
    · simp at h
    · rename_i s2 hs
      exact ih s2 s1 (inv_step cfg s s2 op hi hs) (balanced_step cfg s0 s s2 op hi hb hs) h
/-- One operation keeps `batch->bo` on the residency list, never shrinks the
heap, and either keeps `batch->bo` or makes it a newly allocated object. -/
theorem bo_track_step (cfg : Config) (s s1 : State) (op : Op) (hi : Inv s)
    (hb : ∀ p, s.batch.bo = some p → resident s.batch p) (h : step cfg s op = .ok s1) :
    (∀ p, s1.batch.bo = some p → resident s1.batch p) ∧
    s.heap.length ≤ s1.heap.length ∧
    (s1.batch.bo = s.batch.bo ∨ ∃ q, s1.batch.bo = some q ∧ s.heap.length ≤ q) := by
  have keep : ∀ (t : State), t.batch.bo = s.batch.bo →
      s.batch.exec_count ≤ t.batch.exec_count →
      (∀ j, j < s.batch.exec_count → t.batch.exec_bos.getD j none = s.batch.exec_bos.getD j none) →
      ∀ p, t.batch.bo = some p → resident t.batch p := by
    intro t e1 e2 e3 p hp
    obtain ⟨i, i1, i2⟩ := hb p (by rw [← e1]; exact hp)
    exact ⟨i, by omega, by rw [e3 i i1]; exact i2⟩
  cases op with
  | use_pinned_bo b w =>
    obtain ⟨hv, _, u3, u4, u5, _, u7, _⟩ := use_pinned_spec s s1 b w hi.1 h
    obtain ⟨_, _, k3, k4, k5, _⟩ := add_exec_bo_keeps s b hi.1 hv
    exact ⟨keep s1 u7 (by rw [u4]; exact k4) (fun j hj => by rw [u5]; exact k5 j hj),
      by rw [u3, k3], Or.inl u7⟩
  | add_bo b =>
    dsimp only [step] at h
    split at h
    · rename_i hv
      have e := (Except.ok.inj h).symm
      subst e
      obtain ⟨_, _, k3, k4, k5, _, _, k8, _⟩ := add_exec_bo_keeps s b hi.1 hv
      exact ⟨keep _ k8 k4 k5, by rw [k3], Or.inl k8⟩
    · simp at h
  | chain =>
    obtain ⟨_, _, j3, j4, _, j6, j7, _⟩ := chain_spec cfg s s1 hi h
    refine ⟨fun p hp => ⟨s.batch.exec_count, by omega, ?_⟩, by omega,
      Or.inr ⟨_, j3, le_refl _⟩⟩
    rw [j7, ← j3]
    exact hp
  | flush i o r w =>
    dsimp only [step] at h
    split at h
    · simp at h
    · rename_i r0 s2 slot hf
      have e := (Except.ok.inj h).symm
      subst e
      obtain ⟨_, g2, _, g4, g5⟩ := flush_spec cfg s s1 i o slot r r0 w hi hf
      by_cases hz : iris_batch_bytes_used s.batch = 0
      · have e := (g4 hz).1
        subst e
        exact ⟨hb, le_refl _, Or.inl rfl⟩
      · obtain ⟨x1, x2, x3, _⟩ := g5 hz
        refine ⟨fun p hp => ⟨0, by omega, ?_⟩, g2.1, Or.inr ⟨_, x2, le_refl _⟩⟩
        rw [x3, ← x2]
        exact hp
  | emit bytes =>
    have e := (Except.ok.inj h).symm
    subst e
    exact ⟨keep _ rfl (le_refl _) (fun _ _ => rfl), by rw [(emit_spec s bytes).2.1], Or.inl rfl⟩
  | poke_index b v =>
    have e := (Except.ok.inj h).symm
    subst e
    exact ⟨keep _ rfl (le_refl _) (fun _ _ => rfl), by rw [(poke_spec s b v).2.1], Or.inl rfl⟩

theorem bo_track_run (cfg : Config) (n : Nat) (b : Option Nat) (ops : List Op) :
    ∀ (s s1 : State), Inv s → (∀ p, s.batch.bo = some p → resident s.batch p) →
      n ≤ s.heap.length → (s.batch.bo = b ∨ ∃ q, s.batch.bo = some q ∧ n ≤ q) →
      run cfg s ops = .ok s1 →
      (∀ p, s1.batch.bo = some p → resident s1.batch p) ∧ n ≤ s1.heap.length ∧
      (s1.batch.bo = b ∨ ∃ q, s1.batch.bo = some q ∧ n ≤ q) := by
  induction ops with
  | nil =>
    intro s s1 _ hb hn hq h
    have e := (Except.ok.inj h).symm
    subst e
    exact ⟨hb, hn, hq⟩
  | cons op ops ih =>
    intro s s1 hi hb hn hq h
    unfold run at h
    split at h
    · simp at h
    · rename_i s2 hs
      obtain ⟨t1, t2, t3⟩ := bo_track_step cfg s s2 op hi hb hs
      refine ih s2 s1 (inv_step cfg s s2 op hi hs) t1 (by omega) ?_ h
      rcases t3 with t3 | ⟨q, q1, q2⟩
      · rw [t3]
        exact hq
      · exact Or.inr ⟨q, q1, by omega⟩

theorem unref_loop_length (heap : List iris_bo) (bos : List (Option Nat)) (fuel i : Nat) :
    (unreference_exec_bos heap bos fuel i).length = heap.length := by
  rw [← release_fst]
  exact (release_spec fuel heap bos i).2.1

theorem refcount_free (s0 s : State) (hi : Inv s) (hbal : balanced s0 s) (p : Nat) :
    (bo_get (iris_batch_free s).heap p).refcount = (bo_get s0.heap p).refcount := by
  obtain ⟨i1, _, q, i3, i4⟩ := hi
  obtain ⟨_, _, b3, b4⟩ := hbal
  show (bo_get (iris_bo_unreference (iris_bo_unreference
    (unreference_exec_bos s.heap s.batch.exec_bos s.batch.exec_count 0) s.batch.bo)
      s.batch.last_bo) p).refcount = _
  rw [refcount_unreference, refcount_unreference, unreference_length, unref_loop_length,
    refcount_unref_loop _ p _ _ 0 (fun j x _ hj hx => by
      obtain ⟨y, y1, y2⟩ := i1.2.1 j (by omega)
      rw [y1] at hx
      rw [← Option.some.inj hx]
      exact y2), b4 p, i3]
  have e1 : (if some q = some p ∧ p < s.heap.length then (1 : Int) else 0) =
      (if some q = some p then 1 else 0) := by
    by_cases c : q = p
    · subst c
      simp [i4]
    · simp [c]
  have e2 : (if s.batch.last_bo = some p ∧ p < s.heap.length then (1 : Int) else 0) =
      (if s.batch.last_bo = some p then 1 else 0) := by
    by_cases c : s.batch.last_bo = some p
    · simp [c, (b3 p c).2]
    · simp [c]
  rw [e1, e2]
  omega
/-- C20, as stated, fails for the batch's previous command buffer.  The
sample batch is initialised on zeroed memory, X and Y are added, four command
bytes are written and the batch is flushed: object 3, the command buffer just
submitted, is now `batch->last_bo`, is not on the residency list, and has
reference count 1.  It is pinned, `iris_use_pinned_bo` adds it (count 2), and
after four more command bytes the next flush submits it with a second
request: its reference count is then 0, not the 1 it had before it was added,
because the reset of that flush also drops the `last_bo` hold. -/
theorem last_bo_refcount_not_restored :
    (sample_prior.batch.bo = none ∧ sample_prior.batch.last_bo = none) ∧
    iris_init_batch sample_cfg sample_prior 1 = .ok sample_init ∧
    run sample_cfg sample_init
      [.use_pinned_bo 0 false, .use_pinned_bo 1 true, .emit [0, 0, 0, 0x7a],
       .flush (-1) none 0 0] = .ok sample_flushed ∧
    sample_flushed.batch.last_bo = some 3 ∧
    ¬ resident sample_flushed.batch 3 ∧
    (bo_get sample_flushed.heap 3).refcount = 1 ∧
    resident (result_state (iris_use_pinned_bo sample_flushed 3 false)).batch 3 ∧
    (bo_get (result_state (iris_use_pinned_bo sample_flushed 3 false)).heap 3).refcount = 2 ∧
    run sample_cfg sample_flushed
      [.use_pinned_bo 3 false, .emit [0, 0, 0, 0x7a], .flush (-1) none 0 0] =
        .ok sample_resubmitted ∧
    sample_resubmitted.execbuf_calls.length = sample_flushed.execbuf_calls.length + 1 ∧
    (bo_get sample_resubmitted.heap 3).refcount = 0 := by
  exact ⟨⟨rfl, rfl⟩, rfl, rfl, by decide, by decide, by decide, by decide, by decide, rfl,
    by decide, by decide⟩

/-- C20: Reference-count balance.  In every state reached from
`iris_init_batch` on a batch whose `bo` and `last_bo` are `NULL` (zeroed
memory) through any operations that return, each buffer object's reference
count equals the count it had when the batch was initialised (the references
held outside the batch; 0 for an object allocated since) plus the batch's
holds on it: one if it is in `exec_bos[0..exec_count)`, one if it is
`batch->bo`, one if it is `batch->last_bo`.  Hence a buffer object other than
`batch->last_bo` that is not on the residency list and is added by
`iris_use_pinned_bo` has, after any later flush that submits (bytes in the
active buffer, the kernel accepts; the flush returns 0), the same reference
count it had before it was added; and after `iris_batch_free` every object
has the count it had when the batch was initialised. -/
theorem refcount_balance (cfg : Config) (s0 s1 s : State) (engine : Nat) (ops : List Op)
    (hz : s0.batch.bo = none ∧ s0.batch.last_bo = none)
    (hinit : iris_init_batch cfg s0 engine = .ok s1) (hrun : run cfg s1 ops = .ok s) :
    (∀ p, (bo_get s.heap p).refcount = (bo_get s0.heap p).refcount + batch_holds s.batch p) ∧
    (∀ (p : Nat) (w : Bool) (sa : State) (ops2 : List Op) (sb : State) (i : Int)
        (o : Option Int) (rsvd : Nat),
      ¬ resident s.batch p → s.batch.last_bo ≠ some p →
      iris_use_pinned_bo s p w = .ok sa → run cfg sa ops2 = .ok sb →
      iris_batch_bytes_used sb.batch ≠ 0 →
      ∃ s2 slot, _iris_batch_flush_fence cfg sb i o 0 rsvd = .ok (0, s2, slot) ∧
        (bo_get s2.heap p).refcount = (bo_get s.heap p).refcount) ∧
    (∀ p, (bo_get (iris_batch_free s).heap p).refcount = (bo_get s0.heap p).refcount) := by
  obtain ⟨n1, n2, n3, n4, _⟩ := init_spec cfg s0 s1 engine hinit
  have hb1 := balanced_init cfg s0 s1 engine hz hinit
  have hr1 : ∀ p, s1.batch.bo = some p → resident s1.batch p := fun p hp =>
    ⟨0, by omega, by rw [n3, ← n4]; exact hp⟩
  have hi := inv_run cfg ops s1 s n1 hrun
  have hb := balanced_run cfg s0 ops s1 s n1 hb1 hrun
  obtain ⟨hr, _, _⟩ := bo_track_run cfg 0 none ops s1 s n1 hr1 (Nat.zero_le _)
    (Or.inr ⟨_, n4, Nat.zero_le _⟩) hrun
  refine ⟨fun p => ?_, ?_, fun p => refcount_free s0 s hi hb p⟩
  · rw [hb.2.2.2 p, list_holds_resident s.heap s.batch p hi.1]
    unfold batch_holds
    omega
  · intro p w sa ops2 sb i o rsvd hnr hl hadd hrun2 hz2
    have hv := (use_pinned_spec s sa p w hi.1 hadd).1
    obtain ⟨u1, _⟩ := use_pinned_frame s sa p w hadd
    have hia : Inv sa := inv_step cfg s sa (.use_pinned_bo p w) hi hadd
    obtain ⟨ta1, ta2, _⟩ := bo_track_step cfg s sa (.use_pinned_bo p w) hi hr hadd
    obtain ⟨_, tb2, tb3⟩ := bo_track_run cfg s.heap.length s.batch.bo ops2 sa sb hia ta1 ta2
      (Or.inl u1) hrun2
    have hib := inv_run cfg ops2 sa sb hia hrun2
    have hbb := balanced_run cfg s0 ops2 sa sb hia
      (balanced_step cfg s0 s sa (.use_pinned_bo p w) hi hb hadd) hrun2
    have hsbo : s.batch.bo ≠ some p := fun c => hnr (hr p c)
    have hbbo : sb.batch.bo ≠ some p := by
      rcases tb3 with e | ⟨q, q1, q2⟩
      · rw [e]
        exact hsbo
      · rw [q1]
        intro c
        have := Option.some.inj c
        omega
    refine ⟨_, _, flush_ok_eq cfg sb i o rsvd hib.1 hz2, ?_⟩
    obtain ⟨x1, _, _, _, x5, x6, _, _, _, _, _, _, x13, _⟩ := flush_result_spec cfg sb i o hib.1
    have hne : ¬ (some sb.heap.length = some p) := fun c => by
      have := Option.some.inj c
      omega
    rw [(balanced_flush cfg s0 sb i o hib hbb).2.2.2 p, x5, x1, x13, hb.2.2.2 p,
      list_holds_resident s.heap s.batch p hi.1, if_neg hnr, if_neg hsbo, if_neg hl,
      if_neg hbbo, if_neg hne,
      list_holds_zero _ p 1 0 (fun j _ hj hc => by
        have j0 : j = 0 := by omega
        rw [j0, x6] at hc
        exact hne hc)]

/-- Witness for C20: the sample batch, initialised on zeroed memory, with
eight command bytes written and chained to a second buffer.  X is added, two
more bytes are written, and the flush leaves X with the reference count it
had before. -/
theorem refcount_balance_witness :
    (sample_prior.batch.bo = none ∧ sample_prior.batch.last_bo = none) ∧
    iris_init_batch sample_cfg sample_prior 1 = .ok sample_init ∧
    run sample_cfg sample_init [.emit [1, 0, 0, 0, 2, 0, 0, 0], .chain] = .ok sample_chained ∧
    (∀ p, (bo_get sample_chained.heap p).refcount =
      (bo_get sample_prior.heap p).refcount + batch_holds sample_chained.batch p) ∧
    (∃ sa sb s2 slot,
      iris_use_pinned_bo sample_chained 0 false = .ok sa ∧
      run sample_cfg sa [.emit [5, 6]] = .ok sb ∧
      _iris_batch_flush_fence sample_cfg sb (-1) none 0 0 = .ok (0, s2, slot) ∧
      (bo_get s2.heap 0).refcount = (bo_get sample_chained.heap 0).refcount) ∧
    (∀ p, (bo_get (iris_batch_free sample_chained).heap p).refcount =
      (bo_get sample_prior.heap p).refcount) := by
  have t := refcount_balance sample_cfg sample_prior sample_init sample_chained 1
    [.emit [1, 0, 0, 0, 2, 0, 0, 0], .chain] ⟨rfl, rfl⟩ rfl rfl
  obtain ⟨s2, slot, h1, h2⟩ := t.2.1 0 false
    (result_state (iris_use_pinned_bo sample_chained 0 false)) [.emit [5, 6]]
    (result_state (run sample_cfg sample_chained [.use_pinned_bo 0 false, .emit [5, 6]]))
    (-1) none 0 (by decide) (by decide) rfl rfl (by decide)
  exact ⟨⟨rfl, rfl⟩, rfl, rfl, t.1, ⟨_, _, s2, slot, rfl, rfl, h1, h2⟩, t.2.2⟩

/-! ## What the operations leave alone -/

theorem field_upd {α : Type} (g : iris_bo → α) (h : List iris_bo) (p q : Nat)
    (f : iris_bo → iris_bo) (hf : ∀ b, g (f b) = g b) :
    g (bo_get (bo_upd h p f) q) = g (bo_get h q) := by
  rw [bo_get_upd]
  split
  · rename_i c
    rw [hf, c.1]
  · rfl

theorem create_batch_heap (cfg : Config) (s : State) (hi : list_inv s.heap s.batch) :
    (create_batch cfg s).heap =
      bo_upd (iris_bo_reference
        (bo_upd (iris_bo_alloc cfg s.heap (cfg.BATCH_SZ + BATCH_RESERVED)).1 s.heap.length
          (fun b => { b with kflags := b.kflags ||| EXEC_OBJECT_CAPTURE })) s.heap.length)
        s.heap.length (fun x => { x with index := s.batch.exec_count }) := by
  rw [create_batch_eq]
  generalize hs1 :
    ({ s with
        heap := bo_upd (iris_bo_alloc cfg s.heap (cfg.BATCH_SZ + BATCH_RESERVED)).1 s.heap.length
          (fun b => { b with kflags := b.kflags ||| EXEC_OBJECT_CAPTURE })
        batch := { s.batch with
          bo := some s.heap.length
          map := iris_bo_map s.heap.length
          map_next := iris_bo_map s.heap.length
          contains_draw := false } } : State) = s1
  have e_heap : s1.heap = bo_upd (iris_bo_alloc cfg s.heap (cfg.BATCH_SZ + BATCH_RESERVED)).1
      s.heap.length (fun b => { b with kflags := b.kflags ||| EXEC_OBJECT_CAPTURE }) := by
    rw [← hs1]
  have e_cnt : s1.batch.exec_count = s.batch.exec_count := by rw [← hs1]
  have e_bos : s1.batch.exec_bos = s.batch.exec_bos := by rw [← hs1]
  have e_wf : batch_wf s1.batch := by
    rw [← hs1]
    exact hi.1
  have hnew : ∀ j, j < s1.batch.exec_count →
      s1.batch.exec_bos.getD j none ≠ some s.heap.length := by
    intro j hj hc
    rw [e_cnt] at hj
    rw [e_bos] at hc
    obtain ⟨q, q1, q2⟩ := hi.2.1 j hj
    rw [q1] at hc
    have : q = s.heap.length := Option.some.inj hc
    omega
  have happ : add_exec_bo s1 s.heap.length = add_exec_bo_append s1 s.heap.length := by
    rcases add_exec_bo_cases s1 s.heap.length with ⟨i, h1, h2, _⟩ | ⟨_, n2⟩
    · exact absurd h2 (hnew i h1)
    · exact n2
  rw [happ, (append_spec s1 s.heap.length e_wf).2.2.2.2.2.2.2.2.1, e_heap, e_cnt]

/-- `create_batch` touches no object that existed before. -/
theorem create_batch_old (cfg : Config) (s : State) (hi : list_inv s.heap s.batch) (q : Nat)
    (hq : q < s.heap.length) : bo_get (create_batch cfg s).heap q = bo_get s.heap q := by
  have hne : s.heap.length ≠ q := by omega
  rw [create_batch_heap cfg s hi, bo_get_upd_ne _ _ _ _ hne]
  unfold iris_bo_reference
  rw [bo_get_upd_ne _ _ _ _ hne, bo_get_upd_ne _ _ _ _ hne]
  unfold iris_bo_alloc
  exact bo_get_append_left _ _ _ hq

/-- The object `create_batch` allocates: nothing is stored in it yet, and its
address is the one the allocator gave it. -/
theorem create_batch_new (cfg : Config) (s : State) (hi : list_inv s.heap s.batch) :
    (bo_get (create_batch cfg s).heap s.heap.length).map_cpu = [] ∧
    (bo_get (create_batch cfg s).heap s.heap.length).gtt_offset =
      (cfg.alloc_attrs s.heap.length).gtt_offset ∧
    (bo_get (create_batch cfg s).heap s.heap.length).idle =
      (cfg.alloc_attrs s.heap.length).idle := by
  have hl : s.heap.length < (iris_bo_alloc cfg s.heap (cfg.BATCH_SZ + BATCH_RESERVED)).1.length := by
    simp [iris_bo_alloc]
  have e : bo_get (create_batch cfg s).heap s.heap.length =
      { cfg.alloc_attrs s.heap.length with
          size := cfg.BATCH_SZ + BATCH_RESERVED
          refcount := 1 + 1
          index := s.batch.exec_count
          map_cpu := []
          kflags := (cfg.alloc_attrs s.heap.length).kflags ||| EXEC_OBJECT_CAPTURE } := by
    rw [create_batch_heap cfg s hi]
    unfold iris_bo_reference
    rw [bo_get_upd_eq _ _ _ (by rw [bo_upd_length, bo_upd_length]; exact hl),
      bo_get_upd_eq _ _ _ (by rw [bo_upd_length]; exact hl), bo_get_upd_eq _ _ _ hl]
    unfold iris_bo_alloc
    rw [bo_get_append_new]
  rw [e]
  exact ⟨rfl, rfl, rfl⟩

theorem unreference_field {α : Type} (g : iris_bo → α)
    (hg : ∀ (b : iris_bo) (r : Int), g { b with refcount := r } = g b)
    (h : List iris_bo) (p : Option Nat) (q : Nat) :
    g (bo_get (iris_bo_unreference h p) q) = g (bo_get h q) := by
  cases p with
  | none => rfl
  | some x =>
    exact field_upd g h x q (fun b => { b with refcount := b.refcount - 1 }) (fun b => hg b _)

theorem cursor_of_eq (cfg : Config) {s s1 : State} (hc : cursor_inv cfg s)
    (e1 : s1.batch.bo = s.batch.bo) (e2 : s1.batch.map = s.batch.map)
    (e3 : s1.batch.map_next.bo = s.batch.map_next.bo) (e4 : heap_ext s.heap s1.heap) :
    cursor_inv cfg s1 := by
  obtain ⟨p, c1, c2, c3, c4, c5⟩ := hc
  exact ⟨p, by rw [e1, c1], lt_of_lt_of_le c2 e4.1, by rw [e2, c3], by rw [e3, c4],
    by rw [(e4.2 p c2).2.1, c5]⟩

theorem cursor_step (cfg : Config) (s s1 : State) (op : Op) (hi : Inv s)
    (hc : cursor_inv cfg s) (h : step cfg s op = .ok s1) : cursor_inv cfg s1 := by
  cases op with
  | use_pinned_bo b w =>
    obtain ⟨hb, _, u3, _, _, _, u7, u8, u9⟩ := use_pinned_spec s s1 b w hi.1 h
    obtain ⟨_, k2, _⟩ := add_exec_bo_keeps s b hi.1 hb
    exact cursor_of_eq cfg hc u7 u8 (by rw [u9]) (by rw [u3]; exact k2)
  | add_bo b =>
    dsimp only [step] at h
    split at h
    · rename_i hb
      have e := (Except.ok.inj h).symm
      subst e
      obtain ⟨_, k2, _, _, _, _, _, k8, k9, k10⟩ := add_exec_bo_keeps s b hi.1 hb
      exact cursor_of_eq cfg hc k8 k9 (by rw [k10]) k2
    · simp at h
  | chain =>
    obtain ⟨_, _, j3, j4, _, _, _, _, j9, j10, _, _, _, j14⟩ := chain_spec cfg s s1 hi h
    exact ⟨s.heap.length, j3, by omega, j9, by rw [j10]; rfl, j14⟩
  | flush i o r w =>
    dsimp only [step] at h
    by_cases hz : iris_batch_bytes_used s.batch = 0
    · rw [zero_flush_eq cfg s _ _ _ _ hz] at h
      have e := (Except.ok.inj h).symm
      subst e
      exact hc
    · by_cases h0 : r = 0
      · subst h0
        rw [flush_ok_eq cfg s _ _ _ hi.1 hz] at h
        have e := (Except.ok.inj h).symm
        subst e
        obtain ⟨x1, x2, _, _, _, _, x7, x8, _, _, x11, _⟩ := flush_result_spec cfg s i o hi.1
        exact ⟨s.heap.length, x1, by omega, x7, by rw [x8]; rfl, x11⟩
      · rw [flush_fail_eq cfg s _ _ _ _ hi.1 hz h0] at h
        simp at h
  | emit bytes =>
    have e := (Except.ok.inj h).symm
    subst e
    exact cursor_of_eq cfg hc rfl rfl rfl (emit_spec s bytes).1
  | poke_index b v =>
    have e := (Except.ok.inj h).symm
    subst e
    exact cursor_of_eq cfg hc rfl rfl rfl (poke_spec s b v).1

theorem cursor_run (cfg : Config) (ops : List Op) :
    ∀ (s s1 : State), Inv s → cursor_inv cfg s → run cfg s ops = .ok s1 → cursor_inv cfg s1 := by
  induction ops with
  | nil =>
    intro s s1 _ hc h
    have e := (Except.ok.inj h).symm
    subst e
    exact hc
  | cons op ops ih =>
    intro s s1 hi hc h
    unfold run at h
    split at h
    · simp at h
    · rename_i s2 hs
      exact ih s2 s1 (inv_step cfg s s2 op hi hs) (cursor_step cfg s s2 op hi hc hs) h

theorem cursor_reachable (cfg : Config) (s : State) (h : Reachable cfg s) : cursor_inv cfg s := by
  obtain ⟨s0, engine, s1, ops, h1, h2⟩ := h
  obtain ⟨n1, _, _, n4, n5, _, _, n8, n9, _, n11⟩ := init_spec cfg s0 s1 engine h1
  exact cursor_run cfg ops s1 s n1
    ⟨s0.heap.length, n4, by omega, n8, by rw [n9]; rfl, n11⟩ h2
/-! ## Stores and loads -/

theorem store_le_mem (n : Nat) :
    ∀ (m : List (Nat × Nat)) (off v : Nat) (e : Nat × Nat), e ∈ store_le m off v n →
      e ∈ m ∨ (off ≤ e.1 ∧ e.1 < off + n) := by
  induction n with
  | zero => intro m off v e h; exact Or.inl h
  | succ k ih =>
    intro m off v e h
    unfold store_le at h
    rcases ih _ _ _ e h with h1 | h1
    · rcases List.mem_cons.mp h1 with h2 | h2
      · right
        rw [h2]
        exact ⟨le_refl _, by omega⟩
      · exact Or.inl h2
    · right
      omega

theorem load8_cons_ne (m : List (Nat × Nat)) (off b o : Nat) (h : off ≠ o) :
    load8 ((off, b) :: m) o = load8 m o := by
  simp [load8, List.find?_cons, h]

theorem load8_cons_eq (m : List (Nat × Nat)) (off b : Nat) :
    load8 ((off, b) :: m) off = some b := by
  simp [load8, List.find?_cons]

theorem load8_store_le_out (n : Nat) :
    ∀ (m : List (Nat × Nat)) (off v o : Nat), o < off ∨ off + n ≤ o →
      load8 (store_le m off v n) o = load8 m o := by
  induction n with
  | zero => intro m off v o _; rfl
  | succ k ih =>
    intro m off v o h
    unfold store_le
    rw [ih _ _ _ o (by omega), load8_cons_ne _ _ _ _ (by omega)]

theorem load_le_congr (n : Nat) :
    ∀ (m m1 : List (Nat × Nat)) (off : Nat),
      (∀ o, off ≤ o → o < off + n → load8 m1 o = load8 m o) →
      load_le m1 off n = load_le m off n := by
  induction n with
  | zero => intro m m1 off _; rfl
  | succ k ih =>
    intro m m1 off h
    unfold load_le
    rw [h off (le_refl _) (by omega), ih m m1 (off + 1) (fun o h1 h2 => h o (by omega) (by omega))]

theorem load_le_store_le (n : Nat) :
    ∀ (m : List (Nat × Nat)) (off v : Nat),
      load_le (store_le m off v n) off n = some (v % 256 ^ n) := by
  induction n with
  | zero =>
    intro m off v
    simp [load_le, Nat.mod_one]
  | succ k ih =>
    intro m off v
    unfold store_le load_le
    rw [load8_store_le_out k _ _ _ off (Or.inl (Nat.lt_succ_self _)), load8_cons_eq, ih]
    simp only [Option.some.injEq]
    rw [pow_succ', Nat.mod_mul]

/-- A store outside the bytes read does not change what is read. -/
theorem load_le_store_le_out (m : List (Nat × Nat)) (off v n o k : Nat)
    (h : o + k ≤ off ∨ off + n ≤ o) :
    load_le (store_le m off v n) o k = load_le m o k :=
  load_le_congr k m _ o (fun x h1 h2 => load8_store_le_out n m off v x (by omega))

theorem load8_store_le_in (n : Nat) :
    ∀ (m : List (Nat × Nat)) (off v o : Nat), off ≤ o → o < off + n →
      (load8 (store_le m off v n) o).isSome = true := by
  induction n with
  | zero => intro m off v o h1 h2; omega
  | succ k ih =>
    intro m off v o h1 h2
    unfold store_le
    by_cases c : o = off
    · subst c
      rw [load8_store_le_out k _ _ _ o (Or.inl (Nat.lt_succ_self _)), load8_cons_eq]
      rfl
    · exact ih _ _ _ o (by omega) (by omega)
/-! ## iris_finish_batch -/

theorem load32_store32 (h : List iris_bo) (p : map_ptr) (v : Nat) (hv : p.bo < h.length) :
    load32 (store32 h p v) p = some (v % 4294967296) := by
  unfold load32 store32
  rw [bo_get_upd_eq _ _ _ hv]
  exact load_le_store_le 4 _ _ _

theorem load64_store64 (h : List iris_bo) (p : map_ptr) (v : Nat) (hv : p.bo < h.length) :
    load64 (store64 h p v) p = some (v % 18446744073709551616) := by
  unfold load64 store64
  rw [bo_get_upd_eq _ _ _ hv]
  exact load_le_store_le 8 _ _ _

/-- C23: `iris_finish_batch`.  For every batch whose cursor points into a
buffer object of the heap, `iris_finish_batch` stores the dword `0xA << 23`
at the cursor and advances the cursor by exactly 4 bytes, leaving the start
of the mapping alone.  If the batch is not chained
(`batch->bo == exec_bos[0]`) it sets `primary_batch_size` to the bytes used
after the terminator, which is 4 more than before; if the batch is chained
it leaves `primary_batch_size` as it was. -/
theorem finish_writes_terminator (s : State) (hv : s.batch.map_next.bo < s.heap.length) :
    load32 (iris_finish_batch s).heap s.batch.map_next = some (0xA <<< 23) ∧
    (iris_finish_batch s).batch.map_next.bo = s.batch.map_next.bo ∧
    (iris_finish_batch s).batch.map_next.off = s.batch.map_next.off + 4 ∧
    (iris_finish_batch s).batch.map = s.batch.map ∧
    (s.batch.bo = s.batch.exec_bos.getD 0 none →
      (iris_finish_batch s).batch.primary_batch_size =
        iris_batch_bytes_used (iris_finish_batch s).batch ∧
      (s.batch.map.off ≤ s.batch.map_next.off →
        (iris_finish_batch s).batch.primary_batch_size = iris_batch_bytes_used s.batch + 4)) ∧
    (s.batch.bo ≠ s.batch.exec_bos.getD 0 none →
      (iris_finish_batch s).batch.primary_batch_size = s.batch.primary_batch_size) := by
  obtain ⟨_, _, _, f4, f5, f6⟩ := finish_frame s
  refine ⟨?_, by rw [f5], by rw [f5], f6, fun hu => ?_, fun hc => ?_⟩
  · rw [f4, load32_store32 _ _ _ hv]
    rfl
  · have e : (iris_finish_batch s).batch.primary_batch_size =
        iris_batch_bytes_used (iris_finish_batch s).batch := by
      unfold iris_finish_batch
      dsimp only
      rw [if_pos hu]
      rfl
    refine ⟨e, fun hle => ?_⟩
    rw [e]
    unfold iris_batch_bytes_used
    rw [f5, f6]
    dsimp only
    omega
  · unfold iris_finish_batch
    dsimp only
    rw [if_neg hc]

/-- Witness for C23: the sample batch with X and Y added and four command
bytes written; it is not chained, and the terminator ends at byte 8. -/
theorem finish_writes_terminator_witness :
    sample_xy_emit.batch.map_next.bo < sample_xy_emit.heap.length ∧
    sample_xy_emit.batch.bo = sample_xy_emit.batch.exec_bos.getD 0 none ∧
    load32 (iris_finish_batch sample_xy_emit).heap sample_xy_emit.batch.map_next =
      some (0xA <<< 23) ∧
    (iris_finish_batch sample_xy_emit).batch.map_next.off = 8 ∧
    (iris_finish_batch sample_xy_emit).batch.primary_batch_size = 8 := by
  have t := finish_writes_terminator sample_xy_emit (by decide)
  have u := (t.2.2.2.2.1 (by decide)).2 (by decide)
  exact ⟨by decide, by decide, t.1, t.2.2.1, u⟩
/-! ## iris_chain_to_new_batch -/

theorem list_inv_chain_prepare (s : State) (hi : list_inv s.heap s.batch) :
    list_inv (chain_prepare s).heap (chain_prepare s).batch :=
  list_inv_of_eq (list_inv_heap_ext hi (heap_ext_unreference s.heap s.batch.bo)) rfl rfl rfl rfl

/-- On a batch that is not chained, `iris_chain_to_new_batch` returns, in
this state. -/
theorem chain_returns (cfg : Config) (s : State) (hi : list_inv s.heap s.batch)
    (hu : s.batch.bo = s.batch.exec_bos.getD 0 none) :
    iris_chain_to_new_batch cfg s =
      .ok { create_batch cfg (chain_prepare s) with
            heap := store64
              (store32 (create_batch cfg (chain_prepare s)).heap s.batch.map_next
                ((0x31 <<< 23) ||| (1 <<< 8) ||| (3 - 2)))
              { s.batch.map_next with off := s.batch.map_next.off + 4 }
              (bo_get (store32 (create_batch cfg (chain_prepare s)).heap s.batch.map_next
                ((0x31 <<< 23) ||| (1 <<< 8) ||| (3 - 2))) s.heap.length).gtt_offset } := by
  obtain ⟨c1, _⟩ := create_batch_spec cfg (chain_prepare s) (list_inv_chain_prepare s hi)
  have hl : (chain_prepare s).heap.length = s.heap.length := unreference_length _ _
  rw [chain_eq, if_neg (fun c => c hu), c1]
  dsimp only
  rw [hl]

/-- The cursor of a reachable state, spelled out. -/
theorem cursor_spelled (cfg : Config) (s : State) (hc : cursor_inv cfg s) :
    ∃ p, s.batch.bo = some p ∧ p < s.heap.length ∧
      s.batch.map_next = { bo := p, off := iris_batch_bytes_used s.batch } ∧
      s.batch.map = { bo := p, off := 0 } ∧
      (bo_get s.heap p).size = cfg.BATCH_SZ + BATCH_RESERVED := by
  obtain ⟨p, c1, c2, c3, c4, c5⟩ := hc
  refine ⟨p, c1, c2, ?_, c3, c5⟩
  have e : iris_batch_bytes_used s.batch = s.batch.map_next.off := by
    unfold iris_batch_bytes_used
    rw [c3]
    exact Nat.sub_zero _
  rw [e, ← c4]

/-- C22: `iris_chain_to_new_batch` on an unchained batch.  In every reachable
state with `batch->bo == exec_bos[0]` and `u` bytes used in the command
buffer `p`, the call returns with `primary_batch_size == u + 8`; a newly
allocated command buffer of `BATCH_SZ + 16` bytes is `batch->bo`, the cursor
is at its start (0 bytes used), and it is appended to the residency list:
`exec_count` grows by one, the new buffer is in the last slot, the earlier
slots are unchanged and `exec_bos[0]` is still `p`.  The old buffer `p` holds
the dword `(0x31 << 23) | (1 << 8) | 1` at offset `u` and the address
`gtt_offset` of the new buffer, as a 64-bit value, at offset `u + 4`. -/
theorem chain_emits_jump (cfg : Config) (s : State) (hr : Reachable cfg s)
    (hu : s.batch.bo = s.batch.exec_bos.getD 0 none) :
    ∃ s1 p, iris_chain_to_new_batch cfg s = .ok s1 ∧ s.batch.bo = some p ∧
      s1.batch.primary_batch_size = iris_batch_bytes_used s.batch + 8 ∧
      s1.batch.bo = some s.heap.length ∧
      s1.heap.length = s.heap.length + 1 ∧
      (bo_get s1.heap s.heap.length).size = cfg.BATCH_SZ + BATCH_RESERVED ∧
      s1.batch.map_next = iris_bo_map s.heap.length ∧
      iris_batch_bytes_used s1.batch = 0 ∧
      s1.batch.exec_count = s.batch.exec_count + 1 ∧
      s1.batch.exec_bos.getD s.batch.exec_count none = some s.heap.length ∧
      (∀ j, j < s.batch.exec_count →
        s1.batch.exec_bos.getD j none = s.batch.exec_bos.getD j none) ∧
      s1.batch.exec_bos.getD 0 none = some p ∧
      load32 s1.heap { bo := p, off := iris_batch_bytes_used s.batch } =
        some ((0x31 <<< 23) ||| (1 <<< 8) ||| 1) ∧
      load64 s1.heap { bo := p, off := iris_batch_bytes_used s.batch + 4 } =
        some ((bo_get s1.heap s.heap.length).gtt_offset % 18446744073709551616) := by
  have hi := inv_reachable cfg s hr
  obtain ⟨p, k1, k2, k3, k4, _⟩ := cursor_spelled cfg s (cursor_reachable cfg s hr)
  have hret := chain_returns cfg s hi.1 hu
  obtain ⟨_, _, j3, j4, _, j6, j7, j8, j9, j10, _, j12, _, j14⟩ := chain_spec cfg s _ hi hret
  refine ⟨_, p, hret, k1, ?_, j3, j4, j14, j10, ?_, j6, j7, j8, ?_, ?_, ?_⟩
  · rw [j12, k4]
    unfold iris_batch_bytes_used
    rw [k4]
    dsimp only
    omega
  · unfold iris_batch_bytes_used
    rw [j9, j10]
    exact Nat.sub_self _
  · rw [j8 0 hi.2.1, ← hu, k1]
  · have hp : p < (create_batch cfg (chain_prepare s)).heap.length := by
      rw [(create_batch_spec cfg _ (list_inv_chain_prepare s hi.1)).2.1]
      have : (chain_prepare s).heap.length = s.heap.length := unreference_length _ _
      omega
    rw [← k3]
    show load_le (bo_get (store64 _ _ _) s.batch.map_next.bo).map_cpu s.batch.map_next.off 4 = _
    unfold store64
    dsimp only
    rw [k3]
    dsimp only
    rw [bo_get_upd_eq _ _ _ (by simp only [store32, bo_upd_length]; exact hp)]
    dsimp only
    rw [load_le_store_le_out _ _ _ _ _ _ (Or.inl (le_refl _))]
    have e := load32_store32 (create_batch cfg (chain_prepare s)).heap
      { bo := p, off := iris_batch_bytes_used s.batch }
      ((0x31 <<< 23) ||| (1 <<< 8) ||| (3 - 2)) hp
    unfold load32 at e
    rw [e]
    rfl
  · have hp : p < (store32 (create_batch cfg (chain_prepare s)).heap s.batch.map_next
        ((0x31 <<< 23) ||| (1 <<< 8) ||| (3 - 2))).length := by
      simp only [store32, bo_upd_length]
      rw [(create_batch_spec cfg _ (list_inv_chain_prepare s hi.1)).2.1]
      have : (chain_prepare s).heap.length = s.heap.length := unreference_length _ _
      omega
    have e := load64_store64 (store32 (create_batch cfg (chain_prepare s)).heap s.batch.map_next
        ((0x31 <<< 23) ||| (1 <<< 8) ||| (3 - 2)))
      { bo := p, off := iris_batch_bytes_used s.batch + 4 }
      (bo_get (store32 (create_batch cfg (chain_prepare s)).heap s.batch.map_next
        ((0x31 <<< 23) ||| (1 <<< 8) ||| (3 - 2))) s.heap.length).gtt_offset hp
    have g : (bo_get (store64 (store32 (create_batch cfg (chain_prepare s)).heap s.batch.map_next
        ((0x31 <<< 23) ||| (1 <<< 8) ||| (3 - 2)))
        { bo := p, off := iris_batch_bytes_used s.batch + 4 }
        (bo_get (store32 (create_batch cfg (chain_prepare s)).heap s.batch.map_next
          ((0x31 <<< 23) ||| (1 <<< 8) ||| (3 - 2))) s.heap.length).gtt_offset)
          s.heap.length).gtt_offset =
        (bo_get (store32 (create_batch cfg (chain_prepare s)).heap s.batch.map_next
          ((0x31 <<< 23) ||| (1 <<< 8) ||| (3 - 2))) s.heap.length).gtt_offset :=
      field_upd (fun b => b.gtt_offset) _ _ _ _ (fun _ => rfl)
    have hm : ({ s.batch.map_next with off := s.batch.map_next.off + 4 } : map_ptr) =
        { bo := p, off := iris_batch_bytes_used s.batch + 4 } := by
      rw [k3]
    show load64 (store64 _ { s.batch.map_next with off := s.batch.map_next.off + 4 } _) _ =
      some ((bo_get (store64 _ { s.batch.map_next with off := s.batch.map_next.off + 4 } _)
        s.heap.length).gtt_offset % 18446744073709551616)
    rw [hm, g]
    exact e
/-- Witness for C22: the sample batch with eight command bytes written.  The
jump to the new buffer (object 4, at address `4 * 65536`) is stored at
offsets 8 and 12 of the first command buffer (object 3). -/
theorem chain_emits_jump_witness :
    Reachable sample_cfg sample_emit8 ∧
    sample_emit8.batch.bo = sample_emit8.batch.exec_bos.getD 0 none ∧
    iris_chain_to_new_batch sample_cfg sample_emit8 = .ok sample_chained ∧
    sample_chained.batch.primary_batch_size = 16 ∧
    load32 sample_chained.heap { bo := 3, off := 8 } = some 0x18800101 ∧
    load64 sample_chained.heap { bo := 3, off := 12 } = some 262144 ∧
    ∃ s1 p, iris_chain_to_new_batch sample_cfg sample_emit8 = .ok s1 ∧
      sample_emit8.batch.bo = some p ∧
      s1.batch.primary_batch_size = iris_batch_bytes_used sample_emit8.batch + 8 ∧
      s1.batch.exec_count = sample_emit8.batch.exec_count + 1 ∧
      s1.batch.exec_bos.getD 0 none = some p := by
  have hr : Reachable sample_cfg sample_emit8 :=
    ⟨sample_prior, 1, sample_init, [.emit [1, 0, 0, 0, 2, 0, 0, 0]], rfl, rfl⟩
  obtain ⟨s1, p, t1, t2, t3, _, _, _, _, _, t9, _, _, t12, _⟩ :=
    chain_emits_jump sample_cfg sample_emit8 hr (by decide)
  exact ⟨hr, by decide, rfl, by decide, by decide, by decide, s1, p, t1, t2, t3, t9, t12⟩
/-! ## The reserved tail -/

theorem ALIGN_le (x : Nat) : ALIGN x 8 ≤ x + 7 := by
  unfold ALIGN
  have := Nat.div_mul_le_self (x + 8 - 1) 8
  omega

theorem finish_log (s : State) (q : Nat) (e : Nat × Nat)
    (h : e ∈ (bo_get (iris_finish_batch s).heap q).map_cpu) :
    e ∈ (bo_get s.heap q).map_cpu ∨
      (q = s.batch.map_next.bo ∧ s.batch.map_next.off ≤ e.1 ∧ e.1 < s.batch.map_next.off + 4) := by
  rw [(finish_frame s).2.2.2.1] at h
  unfold store32 at h
  rw [bo_get_upd] at h
  split at h
  · rename_i c
    rcases store_le_mem 4 _ _ _ e h with h1 | h1
    · left
      rw [← c.1]
      exact h1
    · exact Or.inr ⟨c.1.symm, h1⟩
  · exact Or.inl h

/-- The CPU mapping of every object after `iris_chain_to_new_batch` returned
on a batch whose cursor is at offset `u` of the command buffer `p`. -/
theorem chain_log (cfg : Config) (s s1 : State) (p : Nat) (hi : list_inv s.heap s.batch)
    (hp : p < s.heap.length) (hm : s.batch.map_next.bo = p)
    (h : iris_chain_to_new_batch cfg s = .ok s1) :
    (∃ g, (bo_get s1.heap p).map_cpu =
      store_le (store_le (bo_get s.heap p).map_cpu s.batch.map_next.off
        ((0x31 <<< 23) ||| (1 <<< 8) ||| (3 - 2)) 4) (s.batch.map_next.off + 4) g 8) ∧
    (∀ q, q ≠ p → q < s.heap.length → (bo_get s1.heap q).map_cpu = (bo_get s.heap q).map_cpu) ∧
    (∀ q, s.heap.length ≤ q → (bo_get s1.heap q).map_cpu = []) := by
  have hl : (chain_prepare s).heap.length = s.heap.length := unreference_length _ _
  have ht := list_inv_chain_prepare s hi
  obtain ⟨c1, c2, _⟩ := create_batch_spec cfg (chain_prepare s) ht
  have hold : ∀ q, q < s.heap.length →
      (bo_get (create_batch cfg (chain_prepare s)).heap q).map_cpu = (bo_get s.heap q).map_cpu := by
    intro q hq
    rw [create_batch_old cfg _ ht q (by rw [hl]; exact hq)]
    exact unreference_field (fun b => b.map_cpu) (fun _ _ => rfl) s.heap s.batch.bo q
  rw [chain_eq] at h
  split at h
  · simp at h
  · rw [c1] at h
    dsimp only at h
    have e := (Except.ok.inj h).symm
    subst e
    dsimp only
    refine ⟨?_, fun q hq hlt => ?_, fun q hq => ?_⟩
    · have key : ∀ G, (bo_get (store64
          (store32 (create_batch cfg (chain_prepare s)).heap s.batch.map_next
            ((0x31 <<< 23) ||| (1 <<< 8) ||| (3 - 2)))
          { s.batch.map_next with off := s.batch.map_next.off + 4 } G) p).map_cpu =
          store_le (store_le (bo_get s.heap p).map_cpu s.batch.map_next.off
            ((0x31 <<< 23) ||| (1 <<< 8) ||| (3 - 2)) 4) (s.batch.map_next.off + 4) G 8 := by
        intro G
        unfold store64
        dsimp only
        rw [hm, bo_get_upd_eq _ _ _ (by simp only [store32, bo_upd_length]; omega)]
        dsimp only
        unfold store32
        rw [hm, bo_get_upd_eq _ _ _ (by omega)]
        dsimp only
        rw [hold p hp]
      exact ⟨_, key _⟩
    · unfold store64 store32
      dsimp only
      rw [hm, bo_get_upd_ne _ _ _ _ (Ne.symm hq), bo_get_upd_ne _ _ _ _ (Ne.symm hq), hold q hlt]
    · have hq1 : p ≠ q := by omega
      unfold store64 store32
      dsimp only
      rw [hm, bo_get_upd_ne _ _ _ _ hq1, bo_get_upd_ne _ _ _ _ hq1]
      by_cases c : q = s.heap.length
      · subst c
        rw [← hl]
        exact (create_batch_new cfg (chain_prepare s) ht).1
      · rw [bo_get_invalid _ q (by omega)]
        rfl

theorem finish_primary_unchained (s : State)
    (hu : s.batch.bo = s.batch.exec_bos.getD 0 none)
    (hle : s.batch.map.off ≤ s.batch.map_next.off) :
    (iris_finish_batch s).batch.primary_batch_size = iris_batch_bytes_used s.batch + 4 := by
  have e : (iris_finish_batch s).batch.primary_batch_size =
      iris_batch_bytes_used (iris_finish_batch s).batch := by
    unfold iris_finish_batch
    dsimp only
    rw [if_pos hu]
    rfl
  obtain ⟨_, _, _, _, f5, f6⟩ := finish_frame s
  rw [e]
  unfold iris_batch_bytes_used
  rw [f5, f6]
  dsimp only
  omega

/-- C21: Reserved tail.  In every reachable state with at most `BATCH_SZ`
bytes used in the active command buffer `p`, which has `BATCH_SZ + 16` bytes:
`iris_finish_batch` stores only at the 4 offsets from the cursor on, all
inside `p`, and when the batch is not chained the `batch_len` it leads to
(`primary_batch_size` rounded up to a multiple of 8) is within the buffer;
`iris_chain_to_new_batch`, on a batch that is not chained, returns having
stored only at the 12 offsets from the cursor on, every one of them written
and inside `p`, and the `batch_len` its `primary_batch_size` leads to is
within the buffer. -/
theorem reserved_tail (cfg : Config) (s : State) (hr : Reachable cfg s)
    (hu : iris_batch_bytes_used s.batch ≤ cfg.BATCH_SZ) :
    ∃ p, s.batch.bo = some p ∧ (bo_get s.heap p).size = cfg.BATCH_SZ + BATCH_RESERVED ∧
      (∀ q e, e ∈ (bo_get (iris_finish_batch s).heap q).map_cpu →
        e ∈ (bo_get s.heap q).map_cpu ∨
          (q = p ∧ iris_batch_bytes_used s.batch ≤ e.1 ∧
            e.1 < iris_batch_bytes_used s.batch + 4 ∧ e.1 < (bo_get s.heap p).size)) ∧
      (s.batch.bo = s.batch.exec_bos.getD 0 none →
        ALIGN (iris_finish_batch s).batch.primary_batch_size 8 ≤ (bo_get s.heap p).size) ∧
      (s.batch.bo = s.batch.exec_bos.getD 0 none →
        ∃ s1, iris_chain_to_new_batch cfg s = .ok s1 ∧
          (∀ q e, e ∈ (bo_get s1.heap q).map_cpu →
            e ∈ (bo_get s.heap q).map_cpu ∨
              (q = p ∧ iris_batch_bytes_used s.batch ≤ e.1 ∧
                e.1 < iris_batch_bytes_used s.batch + 12 ∧ e.1 < (bo_get s.heap p).size)) ∧
          (∀ o, iris_batch_bytes_used s.batch ≤ o → o < iris_batch_bytes_used s.batch + 12 →
            (load8 (bo_get s1.heap p).map_cpu o).isSome = true) ∧
          ALIGN s1.batch.primary_batch_size 8 ≤ (bo_get s.heap p).size) := by
  have hi := inv_reachable cfg s hr
  obtain ⟨p, k1, k2, k3, k4, k5⟩ := cursor_spelled cfg s (cursor_reachable cfg s hr)
  have hbo : s.batch.map_next.bo = p := by rw [k3]
  have hoff : s.batch.map_next.off = iris_batch_bytes_used s.batch := by rw [k3]
  have hres : BATCH_RESERVED = 16 := rfl
  refine ⟨p, k1, k5, fun q e he => ?_, fun hun => ?_, fun hun => ?_⟩
  · rcases finish_log s q e he with h1 | ⟨h1, h2, h3⟩
    · exact Or.inl h1
    · rw [hoff] at h2 h3
      exact Or.inr ⟨h1.trans hbo, h2, h3, by omega⟩
  · rw [finish_primary_unchained s hun (by rw [k4, hoff]; exact Nat.zero_le _)]
    have := ALIGN_le (iris_batch_bytes_used s.batch + 4)
    omega
  · have hret := chain_returns cfg s hi.1 hun
    obtain ⟨_, _, _, _, _, _, _, _, _, _, _, j12, _⟩ := chain_spec cfg s _ hi hret
    obtain ⟨⟨g, l1⟩, l2, l3⟩ := chain_log cfg s _ p hi.1 k2 hbo hret
    refine ⟨_, hret, fun q e he => ?_, fun o h1 h2 => ?_, ?_⟩
    · by_cases c : q = p
      · subst c
        rw [l1, hoff] at he
        rcases store_le_mem 8 _ _ _ e he with h1 | h1
        · rcases store_le_mem 4 _ _ _ e h1 with h2 | h2
          · exact Or.inl h2
          · exact Or.inr ⟨rfl, h2.1, by omega, by omega⟩
        · exact Or.inr ⟨rfl, by omega, by omega, by omega⟩
      · by_cases c1 : q < s.heap.length
        · rw [l2 q c c1] at he
          exact Or.inl he
        · rw [l3 q (by omega)] at he
          simp at he
    · rw [l1, hoff]
      by_cases c : o < iris_batch_bytes_used s.batch + 4
      · rw [load8_store_le_out 8 _ _ _ o (Or.inl c)]
        exact load8_store_le_in 4 _ _ _ o h1 c
      · exact load8_store_le_in 8 _ _ _ o (by omega) (by omega)
    · have e0 : s.batch.map.off = 0 := by rw [k4]
      rw [j12, hoff, e0, Nat.sub_zero]
      have := ALIGN_le (iris_batch_bytes_used s.batch + 8)
      omega

/-- Witness for C21: the sample batch with eight command bytes written, far
below its `BATCH_SZ` of 20480. -/
theorem reserved_tail_witness :
    Reachable sample_cfg sample_emit8 ∧
    iris_batch_bytes_used sample_emit8.batch ≤ sample_cfg.BATCH_SZ ∧
    ∃ p, sample_emit8.batch.bo = some p ∧
      (bo_get sample_emit8.heap p).size = sample_cfg.BATCH_SZ + BATCH_RESERVED ∧
      (sample_emit8.batch.bo = sample_emit8.batch.exec_bos.getD 0 none →
        ALIGN (iris_finish_batch sample_emit8).batch.primary_batch_size 8 ≤
          (bo_get sample_emit8.heap p).size) := by
  have hr : Reachable sample_cfg sample_emit8 :=
    ⟨sample_prior, 1, sample_init, [.emit [1, 0, 0, 0, 2, 0, 0, 0]], rfl, rfl⟩
  obtain ⟨p, t1, t2, _, t4, _⟩ := reserved_tail sample_cfg sample_emit8 hr (by decide)
  exact ⟨hr, by decide, p, t1, t2, t4⟩

/-! ## The batch after a flush that submits -/

/-- C24: The reset after a submission.  In every reachable state with bytes
used in the active buffer, the flush the kernel accepts returns 0 and leaves
`batch->bo` a newly allocated command buffer (not an object of the heap
before, so different from the buffer submitted), which is `exec_bos[0]` with
cached index 0; the cursor is at the start of that buffer (0 bytes used),
`primary_batch_size == 0`, `aperture_space` is the size of the new buffer,
`last_bo` is the `batch->bo` of the state flushed, and the batch is not
chained (`batch->bo == exec_bos[0]`). -/
theorem flush_resets_batch (cfg : Config) (s : State) (in_fence_fd : Int)
    (out_fence_fd : Option Int) (ioctl_rsvd2 : Nat) (hr : Reachable cfg s)
    (hz : iris_batch_bytes_used s.batch ≠ 0) :
    ∃ s1 slot pnew pold,
      _iris_batch_flush_fence cfg s in_fence_fd out_fence_fd 0 ioctl_rsvd2 = .ok (0, s1, slot) ∧
      s.batch.bo = some pold ∧ pold < s.heap.length ∧
      s1.batch.bo = some pnew ∧ s.heap.length ≤ pnew ∧ pnew < s1.heap.length ∧ pnew ≠ pold ∧
      s1.batch.exec_bos.getD 0 none = some pnew ∧
      (bo_get s1.heap pnew).index = 0 ∧
      s1.batch.map = iris_bo_map pnew ∧ s1.batch.map_next = iris_bo_map pnew ∧
      iris_batch_bytes_used s1.batch = 0 ∧
      s1.batch.primary_batch_size = 0 ∧
      s1.batch.aperture_space = (bo_get s1.heap pnew).size ∧
      s1.batch.last_bo = some pold ∧
      s1.batch.bo = s1.batch.exec_bos.getD 0 none := by
  obtain ⟨hi, _, pold, i3, i4⟩ := inv_reachable cfg s hr
  obtain ⟨x1, x2, _, _, _, x6, x7, x8, x9, x10, x11, x12, x13, _⟩ :=
    flush_result_spec cfg s in_fence_fd out_fence_fd hi
  refine ⟨_, _, s.heap.length, pold,
    flush_ok_eq cfg s in_fence_fd out_fence_fd ioctl_rsvd2 hi hz, i3, i4, x1, le_refl _,
    by rw [x2]; omega, by omega, x6, x10, x7, x8, ?_, x12, by rw [x9, x11], by rw [x13, i3],
    by rw [x1, x6]⟩
  unfold iris_batch_bytes_used
  rw [x7, x8]
  exact Nat.sub_self _

/-- Witness for C24: the sample batch with X and Y added and four command
bytes written. -/
theorem flush_resets_batch_witness :
    Reachable sample_cfg sample_xy_emit ∧
    iris_batch_bytes_used sample_xy_emit.batch ≠ 0 ∧
    _iris_batch_flush_fence sample_cfg sample_xy_emit (-1) none 0 0 =
      .ok (0, sample_flushed, none) ∧
    sample_xy_emit.batch.bo = some 3 ∧
    sample_flushed.batch.bo = some 4 ∧
    sample_flushed.batch.last_bo = some 3 ∧
    ∃ s1 slot pnew pold,
      _iris_batch_flush_fence sample_cfg sample_xy_emit (-1) none 0 0 = .ok (0, s1, slot) ∧
      sample_xy_emit.batch.bo = some pold ∧ s1.batch.bo = some pnew ∧ pnew ≠ pold ∧
      s1.batch.primary_batch_size = 0 ∧ s1.batch.last_bo = some pold := by
  have hr : Reachable sample_cfg sample_xy_emit :=
    ⟨sample_prior, 1, sample_init,
      [.use_pinned_bo 0 false, .use_pinned_bo 1 true, .emit [0, 0, 0, 0x7a]], rfl, rfl⟩
  obtain ⟨s1, slot, pnew, pold, t1, t2, _, t4, _, _, t7, _, _, _, _, _, t13, _, t15, _⟩ :=
    flush_resets_batch sample_cfg sample_xy_emit (-1) none 0 hr (by decide)
  exact ⟨hr, by decide, rfl, by decide, by decide, by decide, s1, slot, pnew, pold, t1, t2, t4,
    t7, t13, t15⟩
/-! ## What the submission does to the resident objects -/

theorem store32_field {α : Type} (g : iris_bo → α)
    (hg : ∀ (b : iris_bo) (m : List (Nat × Nat)), g { b with map_cpu := m } = g b)
    (h : List iris_bo) (p : map_ptr) (v q : Nat) :
    g (bo_get (store32 h p v) q) = g (bo_get h q) :=
  field_upd g h p.bo q (fun b => { b with map_cpu := store_le b.map_cpu p.off v 4 })
    (fun b => hg b _)

theorem store64_field {α : Type} (g : iris_bo → α)
    (hg : ∀ (b : iris_bo) (m : List (Nat × Nat)), g { b with map_cpu := m } = g b)
    (h : List iris_bo) (p : map_ptr) (v q : Nat) :
    g (bo_get (store64 h p v) q) = g (bo_get h q) :=
  field_upd g h p.bo q (fun b => { b with map_cpu := store_le b.map_cpu p.off v 8 })
    (fun b => hg b _)

theorem index_of_eq {s s1 : State} (hx : index_inv s)
    (e1 : ∀ p, (bo_get s1.heap p).index = (bo_get s.heap p).index)
    (e2 : s1.batch.exec_bos = s.batch.exec_bos) (e3 : s1.batch.exec_count = s.batch.exec_count) :
    index_inv s1 := by
  intro i p hi hp
  rw [e1 p]
  exact hx i p (by rw [← e3]; exact hi) (by rw [← e2]; exact hp)

theorem index_add (s : State) (b : Nat) (hi : list_inv s.heap s.batch) (hb : b < s.heap.length)
    (hx : index_inv s) : index_inv (add_exec_bo s b).2 := by
  rcases add_exec_bo_cases s b with ⟨i, _, _, h3⟩ | ⟨n1, n2⟩
  · rw [h3]
    exact hx
  · rw [n2]
    obtain ⟨_, a2, _, a4, a5, _, _, _, a9, _⟩ := append_spec s b hi.1
    intro i p hlt hp
    rw [a2] at hlt
    rw [a9]
    by_cases c : i = s.batch.exec_count
    · subst c
      rw [a4] at hp
      have e := Option.some.inj hp
      subst e
      rw [bo_get_upd_eq _ _ _ (by simp only [iris_bo_reference, bo_upd_length]; exact hb)]
    · have hlt1 : i < s.batch.exec_count := by omega
      rw [a5 i hlt1] at hp
      have hne : b ≠ p := fun e => n1 i hlt1 (by rw [hp, e])
      rw [bo_get_upd_ne _ _ _ _ hne]
      unfold iris_bo_reference
      rw [bo_get_upd_ne _ _ _ _ hne]
      exact hx i p hlt1 hp

theorem index_create (cfg : Config) (t : State) (hi : list_inv t.heap t.batch)
    (hx : index_inv t) : index_inv (create_batch cfg t) := by
  obtain ⟨_, _, _, _, c5, c6, c7, _, _, _, c11, _⟩ := create_batch_spec cfg t hi
  intro i p hlt hp
  rw [c5] at hlt
  by_cases c : i = t.batch.exec_count
  · subst c
    rw [c6] at hp
    rw [← Option.some.inj hp]
    exact c11
  · have hlt1 : i < t.batch.exec_count := by omega
    rw [c7 i hlt1] at hp
    obtain ⟨q, q1, q2⟩ := hi.2.1 i hlt1
    have e : q = p := by
      rw [q1] at hp
      exact Option.some.inj hp
    subst e
    rw [create_batch_old cfg t hi q q2]
    exact hx i q hlt1 hp

theorem index_step (cfg : Config) (s s1 : State) (op : Op) (hi : Inv s) (hx : index_inv s)
    (hop : ∀ b v, op ≠ .poke_index b v) (h : step cfg s op = .ok s1) : index_inv s1 := by
  cases op with
  | use_pinned_bo b w =>
    obtain ⟨hb, _, u3, u4, u5, _⟩ := use_pinned_spec s s1 b w hi.1 h
    exact index_of_eq (index_add s b hi.1 hb hx) (fun p => by rw [u3]) u5 u4
  | add_bo b =>
    dsimp only [step] at h
    split at h
    · rename_i hb
      have e := (Except.ok.inj h).symm
      subst e
      exact index_add s b hi.1 hb hx
    · simp at h
  | chain =>
    obtain ⟨_, j2, _⟩ := chain_spec cfg s s1 hi h
    have hret := chain_returns cfg s hi.1 j2
    dsimp only [step] at h
    rw [hret] at h
    have e := (Except.ok.inj h).symm
    subst e
    have hp : index_inv (chain_prepare s) :=
      index_of_eq hx (fun p => unreference_field (fun b => b.index) (fun _ _ => rfl) s.heap
        s.batch.bo p) rfl rfl
    refine index_of_eq (index_create cfg _ (list_inv_chain_prepare s hi.1) hp) (fun p => ?_)
      rfl rfl
    dsimp only
    rw [store64_field (fun b => b.index) (fun _ _ => rfl),
      store32_field (fun b => b.index) (fun _ _ => rfl)]
  | flush i o r w =>
    dsimp only [step] at h
    by_cases hz : iris_batch_bytes_used s.batch = 0
    · rw [zero_flush_eq cfg s _ _ _ _ hz] at h
      have e := (Except.ok.inj h).symm
      subst e
      exact hx
    · by_cases h0 : r = 0
      · subst h0
        rw [flush_ok_eq cfg s _ _ _ hi.1 hz] at h
        have e := (Except.ok.inj h).symm
        subst e
        obtain ⟨_, _, _, _, x5, x6, _, _, _, x10, _⟩ := flush_result_spec cfg s i o hi.1
        intro k p hlt hp
        rw [x5] at hlt
        have k0 : k = 0 := by omega
        subst k0
        rw [x6] at hp
        rw [← Option.some.inj hp]
        exact x10
      · rw [flush_fail_eq cfg s _ _ _ _ hi.1 hz h0] at h
        simp at h
  | emit bytes =>
    have e := (Except.ok.inj h).symm
    subst e
    refine index_of_eq hx (fun p => ?_) rfl rfl
    exact field_upd (fun b => b.index) s.heap s.batch.map_next.bo p
      (fun b => { b with
        map_cpu := (bytes.enum.map (fun e => (s.batch.map_next.off + e.1, e.2))).reverse
                     ++ b.map_cpu })
      (fun _ => rfl)
  | poke_index b v => exact absurd rfl (hop b v)

theorem index_run (cfg : Config) (ops : List Op) :
    ∀ (s s1 : State), Inv s → index_inv s → (∀ b v, Op.poke_index b v ∉ ops) →
      run cfg s ops = .ok s1 → index_inv s1 := by
  induction ops with
  | nil =>
    intro s s1 _ hx _ h
    have e := (Except.ok.inj h).symm
    subst e
    exact hx
  | cons op ops ih =>
    intro s s1 hi hx hop h
    unfold run at h
    split at h
    · simp at h
    · rename_i s2 hs
      exact ih s2 s1 (inv_step cfg s s2 op hi hs)
        (index_step cfg s s2 op hi hx
          (fun b v e => hop b v (by rw [e]; exact List.mem_cons_self _ _)) hs)
        (fun b v hm => hop b v (List.mem_cons_of_mem _ hm)) h

theorem index_init (cfg : Config) (s0 s1 : State) (engine : Nat)
    (h : iris_init_batch cfg s0 engine = .ok s1) : index_inv s1 := by
  obtain ⟨_, n2, n3, n4, _⟩ := init_spec cfg s0 s1 engine h
  have hidx : (bo_get s1.heap s0.heap.length).index = 0 := by
    unfold iris_init_batch at h
    split at h
    · simp at h
    · split at h
      · simp at h
      · dsimp only at h
        rw [reset_eq] at h
        split at h
        · simp at h
        · rename_i p hp
          split at h
          · rename_i hidx
            have e := (Except.ok.inj h).symm
            subst e
            rw [n4] at hp
            rw [Option.some.inj hp]
            exact hidx
          · simp at h
  intro i p hlt hp
  rw [n2] at hlt
  have i0 : i = 0 := by omega
  subst i0
  rw [n3] at hp
  rw [← Option.some.inj hp]
  exact hidx

/-- C26: Cached index of resident objects.  Along every run from
`iris_init_batch` through `iris_use_pinned_bo`, `add_exec_bo`,
`iris_chain_to_new_batch`, flushes and command writes, in which no other
batch writes the `index` field of a buffer object (no `poke_index`
operation), for every `i` in `[0, exec_count)` the cached index of
`exec_bos[i]` is `i`. -/
theorem cached_index_matches_slot (cfg : Config) (s0 s1 s : State) (engine : Nat)
    (ops : List Op) (hinit : iris_init_batch cfg s0 engine = .ok s1)
    (hown : ∀ b v, Op.poke_index b v ∉ ops) (hrun : run cfg s1 ops = .ok s) :
    ∀ i, i < s.batch.exec_count →
      ∃ p, s.batch.exec_bos.getD i none = some p ∧ p < s.heap.length ∧
        (bo_get s.heap p).index = i := by
  have hi1 := (init_spec cfg s0 s1 engine hinit).1
  have hx := index_run cfg ops s1 s hi1 (index_init cfg s0 s1 engine hinit) hown hrun
  have hi := inv_run cfg ops s1 s hi1 hrun
  intro i hlt
  obtain ⟨p, p1, p2⟩ := hi.1.2.1 i hlt
  exact ⟨p, p1, p2, hx i p hlt p1⟩

/-- Witness for C26: the sample batch with X and Y added, four command bytes
written, flushed, and Y added again: the new command buffer caches 0 and Y
caches 1. -/
theorem cached_index_matches_slot_witness :
    run sample_cfg sample_init
      [.use_pinned_bo 0 false, .use_pinned_bo 1 true, .emit [0, 0, 0, 0x7a],
       .flush (-1) none 0 0, .use_pinned_bo 1 false] =
        .ok (result_state (iris_use_pinned_bo sample_flushed 1 false)) ∧
    (result_state (iris_use_pinned_bo sample_flushed 1 false)).batch.exec_count = 2 ∧
    (result_state (iris_use_pinned_bo sample_flushed 1 false)).batch.exec_bos.getD 1 none =
      some 1 ∧
    ∀ i, i < (result_state (iris_use_pinned_bo sample_flushed 1 false)).batch.exec_count →
      ∃ p, (result_state (iris_use_pinned_bo sample_flushed 1 false)).batch.exec_bos.getD i none =
          some p ∧
        p < (result_state (iris_use_pinned_bo sample_flushed 1 false)).heap.length ∧
        (bo_get (result_state (iris_use_pinned_bo sample_flushed 1 false)).heap p).index = i := by
  have hrun : run sample_cfg sample_init
      [.use_pinned_bo 0 false, .use_pinned_bo 1 true, .emit [0, 0, 0, 0x7a],
       .flush (-1) none 0 0, .use_pinned_bo 1 false] =
        .ok (result_state (iris_use_pinned_bo sample_flushed 1 false)) := rfl
  exact ⟨hrun, by decide, by decide,
    cached_index_matches_slot sample_cfg sample_prior sample_init _ 1 _ rfl
      (fun b v h => by simp at h) hrun⟩
/-! ## The residency list has no duplicates -/

/-- C27: Deduplication.  In every state reachable from `iris_init_batch`
through `iris_use_pinned_bo`, `add_exec_bo`, `iris_chain_to_new_batch`,
flushes and command writes, with other batches overwriting the cached index
of any object with any value in between (`poke_index`), the entries
`exec_bos[0..exec_count)` are buffer objects of the heap and pairwise
distinct. -/
theorem residency_list_deduplicated (cfg : Config) (s : State) (hr : Reachable cfg s) :
    (∀ i, i < s.batch.exec_count →
      ∃ p, s.batch.exec_bos.getD i none = some p ∧ p < s.heap.length) ∧
    (∀ i j, i < s.batch.exec_count → j < s.batch.exec_count →
      s.batch.exec_bos.getD i none = s.batch.exec_bos.getD j none → i = j) :=
  ⟨(inv_reachable cfg s hr).1.2.1, (inv_reachable cfg s hr).1.2.2.1⟩

/-- Witness for C27: X is added to the sample batch, another batch sets the
cached index of X to 7 and that of Y to 0, and X and Y are added: the list is
the command buffer, X, Y. -/
theorem residency_list_deduplicated_witness :
    Reachable sample_cfg sample_poked ∧
    sample_poked.batch.exec_count = 3 ∧
    (bo_get sample_poked.heap 0).index = 7 ∧
    sample_poked.batch.exec_bos.take 3 = [some 3, some 0, some 1] ∧
    (∀ i j, i < sample_poked.batch.exec_count → j < sample_poked.batch.exec_count →
      sample_poked.batch.exec_bos.getD i none = sample_poked.batch.exec_bos.getD j none →
      i = j) := by
  have hr : Reachable sample_cfg sample_poked :=
    ⟨sample_prior, 1, sample_init,
      [.use_pinned_bo 0 false, .poke_index 0 7, .poke_index 1 0, .use_pinned_bo 0 true,
       .use_pinned_bo 1 false], rfl, rfl⟩
  exact ⟨hr, by decide, by decide, by decide,
    (residency_list_deduplicated sample_cfg sample_poked hr).2⟩
/-! ## The engine assertions of iris_init_batch -/

theorem init_returns (cfg : Config) (s : State) (engine : Nat)
    (h1 : engine % 256 &&& (255 - I915_EXEC_RING_MASK) = 0)
    (h2 : util_bitcount (engine % 256) = 1) :
    ∃ s1, iris_init_batch cfg s engine = .ok s1 := by
  cases h : iris_init_batch cfg s engine with
  | ok s1 => exact ⟨s1, rfl⟩
  | error e =>
    have e1 := init_fails_early cfg s engine e h
    subst e1
    unfold iris_init_batch at h
    rw [if_neg (fun c => c h1), if_neg (fun c => c h2)] at h
    dsimp only at h
    generalize hb : ({ s with batch := { s.batch with
            engine := engine % 256
            exec_count := 0
            exec_array_size := 100
            exec_bos := List.replicate 100 none
            validation_list := List.replicate 100 default } } : State) = sb at h
    have b2 : sb.batch.exec_count = 0 := by rw [← hb]
    have b5 : batch_wf sb.batch := by
      rw [← hb]
      exact ⟨Nat.lt_of_sub_eq_succ rfl, Nat.zero_le _, List.length_replicate _ _,
        List.length_replicate _ _⟩
    rw [reset_returns cfg sb (list_inv_empty _ _ b5 b2) b2] at h
    simp at h

/-- C28: `iris_init_batch` and the engine selectors.  For the selector
`I915_EXEC_BLT` (3), which the comment above the assertions names, the first
assertion `(engine & ~I915_EXEC_RING_MASK) == 0` holds but
`util_bitcount(engine) == 1` does not (3 has two bits set): on every batch
`iris_init_batch` stops at that assertion, in the state it was called in.
For `I915_EXEC_RENDER` (1) both assertions hold, the call returns and
`batch->engine` is 1. -/
theorem init_rejects_blt (cfg : Config) (s : State) :
    I915_EXEC_BLT % 256 &&& (255 - I915_EXEC_RING_MASK) = 0 ∧
    util_bitcount (I915_EXEC_BLT % 256) = 2 ∧
    iris_init_batch cfg s I915_EXEC_BLT = .error (Fault.assertion, s) ∧
    ∃ s1, iris_init_batch cfg s I915_EXEC_RENDER = .ok s1 ∧
      s1.batch.engine = I915_EXEC_RENDER := by
  refine ⟨by decide, by decide, ?_, ?_⟩
  · unfold iris_init_batch
    rw [if_neg (by decide), if_pos (by decide)]
  · obtain ⟨s1, h⟩ := init_returns cfg s I915_EXEC_RENDER (by decide) (by decide)
    exact ⟨s1, h, (init_engine cfg s s1 I915_EXEC_RENDER h).1⟩
/-! ## The length of a chained primary buffer -/

/-- C29: The jump command and the submitted length.  The sample batch has 8
command bytes when `iris_chain_to_new_batch` is called: the jump is stored at
offsets 8 to 19 of the first command buffer (the header dword at 8, the
64-bit address of the second buffer at 12), but the cursor moved by 8 only,
so `primary_batch_size` is 16 and the flush that follows hands the kernel
`batch_len == 16`: the last four bytes of the address lie outside the length
submitted. -/
theorem jump_command_cut_short :
    iris_batch_bytes_used sample_emit8.batch = 8 ∧
    iris_chain_to_new_batch sample_cfg sample_emit8 = .ok sample_chained ∧
    load32 sample_chained.heap { bo := 3, off := 8 } = some 0x18800101 ∧
    load64 sample_chained.heap { bo := 3, off := 12 } = some 262144 ∧
    sample_chained.batch.primary_batch_size = 16 ∧
    ALIGN sample_chained.batch.primary_batch_size 8 = 16 ∧
    ¬ (8 + 12 ≤ ALIGN sample_chained.batch.primary_batch_size 8) ∧
    (flush_state (_iris_batch_flush_fence sample_cfg (emit_bytes sample_chained [5, 6, 7, 8])
      (-1) none 0 0)).execbuf_calls.map (fun r => r.batch_len) = [16] := by
  exact ⟨by decide, rfl, by decide, by decide, by decide, by decide, by decide, by decide⟩
/-! ## The room iris_batch_maybe_flush guarantees -/

/-- C30: Room guarantee of `iris_batch_maybe_flush`.  In every reachable state
whose cursor is inside the command buffer (at most `BATCH_SZ + 16` bytes
used), with a buffer size that fits 31 bits, and for every
`estimate < BATCH_SZ`: when `iris_batch_maybe_flush(batch, estimate)` returns,
`bytes used + estimate < BATCH_SZ` as natural numbers; it returns whenever
the kernel accepts the request, and it stops only at the `abort()` of a
refused submission. -/
theorem maybe_flush_leaves_room (cfg : Config) (s : State) (estimate : Nat) (ioctl_ret : Int)
    (ioctl_rsvd2 : Nat) (hr : Reachable cfg s) (hest : estimate < cfg.BATCH_SZ)
    (hcur : iris_batch_bytes_used s.batch ≤ cfg.BATCH_SZ + BATCH_RESERVED)
    (hsz : cfg.BATCH_SZ + BATCH_RESERVED ≤ 2147483648) :
    (∀ s1, iris_batch_maybe_flush cfg s estimate ioctl_ret ioctl_rsvd2 = .ok s1 →
      iris_batch_bytes_used s1.batch + estimate < cfg.BATCH_SZ) ∧
    (ioctl_ret = 0 → ∃ s1, iris_batch_maybe_flush cfg s estimate ioctl_ret ioctl_rsvd2 = .ok s1) ∧
    (∀ f st, iris_batch_maybe_flush cfg s estimate ioctl_ret ioctl_rsvd2 = .error (f, st) →
      f = Fault.abort ∧ ioctl_ret ≠ 0) := by
  have hi := inv_reachable cfg s hr
  have hres : BATCH_RESERVED = 16 := rfl
  unfold iris_batch_maybe_flush
  split
  · unfold iris_batch_flush
    by_cases hz : iris_batch_bytes_used s.batch = 0
    · rw [zero_flush_eq cfg s _ _ _ _ hz]
      dsimp only
      refine ⟨fun s1 h => ?_, fun _ => ⟨s, rfl⟩, fun f st h => by simp at h⟩
      rw [← Except.ok.inj h, hz]
      omega
    · by_cases h0 : ioctl_ret = 0
      · subst h0
        rw [flush_ok_eq cfg s _ _ _ hi.1 hz]
        dsimp only
        refine ⟨fun s1 h => ?_, fun _ => ⟨_, rfl⟩, fun f st h => by simp at h⟩
        rw [← Except.ok.inj h, create_batch_cursor]
        omega
      · rw [flush_fail_eq cfg s _ _ _ _ hi.1 hz h0]
        dsimp only
        refine ⟨fun s1 h => by simp at h, fun c => absurd c h0, fun f st h => ?_⟩
        have e := Except.error.inj h
        exact ⟨(congrArg Prod.fst e).symm, h0⟩
  · rename_i hc
    refine ⟨fun s1 h => ?_, fun _ => ⟨s, rfl⟩, fun f st h => by simp at h⟩
    rw [← Except.ok.inj h]
    have hm : (iris_batch_bytes_used s.batch + estimate) % 4294967296 =
        iris_batch_bytes_used s.batch + estimate := Nat.mod_eq_of_lt (by omega)
    rw [hm] at hc
    by_contra c
    exact hc (Or.inr (by omega))

/-- Witness for C30: the sample batch with 4 bytes used.  An estimate of
20000 is left alone (4 + 20000 < 20480); an estimate of 20476 makes the call
flush, after which 0 + 20476 < 20480. -/
theorem maybe_flush_leaves_room_witness :
    Reachable sample_cfg sample_xy_emit ∧
    iris_batch_bytes_used sample_xy_emit.batch ≤ sample_cfg.BATCH_SZ + BATCH_RESERVED ∧
    sample_cfg.BATCH_SZ + BATCH_RESERVED ≤ 2147483648 ∧
    iris_batch_maybe_flush sample_cfg sample_xy_emit 20000 0 0 = .ok sample_xy_emit ∧
    iris_batch_maybe_flush sample_cfg sample_xy_emit 20476 0 0 = .ok sample_flushed ∧
    iris_batch_bytes_used sample_flushed.batch + 20476 < sample_cfg.BATCH_SZ ∧
    (∀ s1, iris_batch_maybe_flush sample_cfg sample_xy_emit 20476 0 0 = .ok s1 →
      iris_batch_bytes_used s1.batch + 20476 < sample_cfg.BATCH_SZ) := by
  have hr : Reachable sample_cfg sample_xy_emit :=
    ⟨sample_prior, 1, sample_init,
      [.use_pinned_bo 0 false, .use_pinned_bo 1 true, .emit [0, 0, 0, 0x7a]], rfl, rfl⟩
  exact ⟨hr, by decide, by decide, rfl, rfl, by decide,
    (maybe_flush_leaves_room sample_cfg sample_xy_emit 20476 0 0 hr (by decide) (by decide)
      (by decide)).1⟩

end Iris
